import Mathlib

/-!
# Resume-Screener: the screening and scoring engine

A shallow embedding of `screenResume` from `backend/routes/aiScreening.js`, of
`EnhancedPDFParser` from `backend/utils/pdfParser.js`, of `MatchingAlgorithm` from
`backend/utils/matchingAlgorithm.js`, of `ResumeRanker` from
`backend/utils/aiRanking.js`, of the two screening routes of
`backend/routes/aiScreening.js` with the `pre('save')` hook of
`backend/models/Resume.js`, and of `calculateSkillsMatchRate` from
`backend/routes/analytics.js`.

Modelling conventions.
* JavaScript strings are Lean strings, handled through their character lists.
  `toLowerCase` is modelled on the ASCII letters (other characters are kept).
* JavaScript numbers are rationals (`ℚ`); the results of `Math.round` and `parseInt`
  are integers / naturals.  In `screenResume` and in `MatchingAlgorithm` every
  division, product and sum is rounded to binary64 by `fl` (round to nearest, ties to
  even, 53 significant bits), and the literals `0.6` and `0.4` are `fl (3/5)` and
  `fl (2/5)`.  The exponent range of binary64 is not modelled: the quotients of these
  functions are at most 1 and their products and sums at most 100, so no result
  overflows, and a result below `2^-1022` arises only as `foundExperience / min` for
  a minimum above `2^1022`, where `Math.round` gives `0` with or without gradual
  underflow.  The ranker and the analytics helper are kept in exact arithmetic: their
  values are the numbers that the source expressions denote before rounding.
* A regular expression is a function that tries the expression at the start of a
  text; `scanAll` runs it over the text the way `match` and `matchAll` do with flag `g`.
* What the repository takes from libraries (`pdf-parse`, `natural`) is a parameter;
  of Mongoose, queries and the write of `save` are parameters, and the change tracking
  of the path `status` is part of a document.
* `screenResume` is the body of the `try` block on schema-conforming documents
  (Mongoose casts `job.skills` and `job.requirements` to arrays of strings), where
  no statement throws.  `screenResumeDyn` is the whole function on arbitrary
  JavaScript arguments, including the `catch` handler.
-/

namespace ResumeScreener

/-! ## JavaScript primitives -/

/-- The method `String.prototype.toLowerCase`, on ASCII letters. -/
def toLowerCase (s : String) : String := ⟨s.data.map Char.toLower⟩

/-- The method `String.prototype.includes`: `t` occurs in `s` as a contiguous substring. -/
def includes (s t : String) : Bool :=
  s.data.tails.any (fun u => t.data.isPrefixOf u)

/-- The function `Math.round`: the nearest integer, ties going up. -/
def jsRound (x : ℚ) : ℤ := ⌊x + 1 / 2⌋

/-- The nearest integer, ties going to the even neighbour. -/
def roundHalfEven (x : ℚ) : ℤ :=
  if x - ⌊x⌋ < 1 / 2 then ⌊x⌋
  else if 1 / 2 < x - ⌊x⌋ then ⌊x⌋ + 1
  else if ⌊x⌋ % 2 = 0 then ⌊x⌋ else ⌊x⌋ + 1

/-- The binary exponent of a non-zero number `x`: `2^e <= |x| < 2^(e+1)`. -/
def binade (x : ℚ) : ℤ := Int.log 2 |x|

/-- The binary64 value of an exact result `x`: the nearest number with 53 significant
bits, ties to even.  Every arithmetic operation of JavaScript returns `fl` of the exact
result of its operands. -/
def fl (x : ℚ) : ℚ :=
  if x = 0 then 0
  else (roundHalfEven (x / 2 ^ (binade x - 52)) : ℚ) * 2 ^ (binade x - 52)

/-- The call `Math.max(...xs)` for a non-empty list of non-negative integers. -/
def mathMax (xs : List ℕ) : ℕ := xs.foldl max 0

/-- The function `parseInt` on a string of decimal digits. -/
def parseInt (ds : List Char) : ℕ := ds.foldl (fun n c => 10 * n + (c.toNat - 48)) 0

/-! ## The experience regular expression

`/(\d+)\s*(?:years?|yrs?|year's?|year of)/gi` -/

/-- The class `\d`, which is `[0-9]`. -/
def isDigitChar (c : Char) : Bool := decide (48 ≤ c.toNat) && decide (c.toNat ≤ 57)

/-- The class `\s`: the ECMAScript white space and line terminator characters. -/
def isSpaceChar (c : Char) : Bool :=
  let n := c.toNat
  (decide (9 ≤ n) && decide (n ≤ 13)) || n == 32 || n == 160 || n == 5760 ||
    (decide (8192 ≤ n) && decide (n ≤ 8202)) || n == 8232 || n == 8233 || n == 8239 ||
    n == 8287 || n == 12288 || n == 65279

/-- Match the literal `p` at the start of `s`, ignoring ASCII case (flag `i`);
returns the number of characters consumed. -/
def matchLit (p : List Char) (s : List Char) : Option ℕ :=
  if (p.isPrefixOf (s.map Char.toLower)) then some p.length else none

/-- Match an optional literal character `c?` (greedy) at the start of `s`. -/
def matchOpt (c : Char) (s : List Char) : ℕ :=
  match s with
  | d :: _ => if d.toLower = c then 1 else 0
  | [] => 0

/-- The group `(?:years?|yrs?|year's?|year of)`: the alternatives are tried in
order and the first that matches is taken (nothing follows the group, so no later
alternative is ever revisited).  Returns the number of characters consumed. -/
def matchUnit (s : List Char) : Option ℕ :=
  match matchLit "year".data s with
  | some n => some (n + matchOpt 's' (s.drop n))
  | none =>
    match matchLit "yr".data s with
    | some n => some (n + matchOpt 's' (s.drop n))
    | none =>
      match matchLit "year'".data s with
      | some n => some (n + matchOpt 's' (s.drop n))
      | none => matchLit "year of".data s

/-- One attempt of the regular expression at the start of `s`: the greedy digit
run `(\d+)`, the greedy white space run `\s*`, then the unit group.  Giving back
digits or spaces never helps (what follows a shortened run is a digit or a space,
which matches neither `\s`/`y` nor `y`), so no backtracking is needed.  Returns
the captured digits and the length of the whole match. -/
def matchAt (s : List Char) : Option (List Char × ℕ) :=
  let ds := s.takeWhile isDigitChar
  if ds = [] then none
  else
    let r := s.dropWhile isDigitChar
    let ws := r.takeWhile isSpaceChar
    match matchUnit (r.dropWhile isSpaceChar) with
    | some n => some (ds, ds.length + ws.length + n)
    | none => none

/-- The scan of `matchAll`: `skip` characters still belong to the previous match;
otherwise the expression is tried at the current position, and on failure at the
next one.  Returns capture group 1 of every match, in text order. -/
def matchAllFrom : List Char → ℕ → List (List Char)
  | [], _ => []
  | _ :: rest, skip + 1 => matchAllFrom rest skip
  | c :: rest, 0 =>
    match matchAt (c :: rest) with
    | some (ds, len) => ds :: matchAllFrom rest (len - 1)
    | none => matchAllFrom rest 0

/-- The list `[...resumeText.matchAll(expRegex)]`, as capture groups. -/
def expMatches (resumeText : String) : List (List Char) := matchAllFrom resumeText.data 0

/-! ## Documents -/

/-- The fields of a `Resume` document that screening can see. -/
structure Resume where
  extractedText : Option String
  skills : List String
  deriving DecidableEq, Repr

/-- The `experience` band of a job. -/
structure ExperienceBand where
  min : ℚ
  max : ℚ
  deriving DecidableEq, Repr

/-- The fields of a `Job` document that screening can see. -/
structure Job where
  skills : List String
  requirements : List String
  experience : Option ExperienceBand
  deriving DecidableEq, Repr

/-- The record returned by `screenResume`. -/
structure ScreeningResult where
  skillsMatch : ℤ
  experienceMatch : ℤ
  overallScore : ℤ
  matchedKeywords : List String
  missingKeywords : List String
  foundExperience : ℕ
  deriving DecidableEq, Repr

/-! ## `screenResume`, lines 13–68 -/

/-- The three accumulators of the `forEach` over the job skills. -/
structure SkillAcc where
  skillsMatch : ℕ
  matchedKeywords : List String
  missingKeywords : List String
  deriving DecidableEq, Repr

/-- One iteration of `jobSkills.forEach` (lines 22–29). -/
def skillStep (resumeText : String) (acc : SkillAcc) (skill : String) : SkillAcc :=
  if includes resumeText skill then
    { acc with skillsMatch := acc.skillsMatch + 1,
               matchedKeywords := acc.matchedKeywords ++ [skill] }
  else
    { acc with missingKeywords := acc.missingKeywords ++ [skill] }

/-- The whole `forEach` loop (lines 17–29). -/
def checkSkills (resumeText : String) (jobSkills : List String) : SkillAcc :=
  jobSkills.foldl (skillStep resumeText) ⟨0, [], []⟩

/-- Experience extraction (lines 33–46). -/
def findExperience (resumeText : String) : ℕ :=
  let ms := expMatches resumeText
  if ms.length > 0 then
    let experiences := (ms.map parseInt).filter (fun exp => decide (exp ≤ 50))
    if experiences.length > 0 then mathMax experiences else 0
  else 0

/-- The value `job.experience?.min || 0` (line 48). -/
def minExpOf (job : Job) : ℚ :=
  match job.experience with
  | some band => band.min
  | none => 0

/-- The experience policy (lines 49–55); line 54 divides, multiplies and rounds. -/
def experienceMatchOf (foundExperience : ℕ) (minExp : ℚ) : ℤ :=
  if minExp = 0 then 100
  else if (foundExperience : ℚ) ≥ minExp then 100
  else jsRound (fl (fl ((foundExperience : ℚ) / minExp) * 100))

/-- The unrounded skills percentage (line 58): the double `(skillsMatch / length) * 100`. -/
def skillsScoreOf (skillsMatch jobSkillsLength : ℕ) : ℚ :=
  if jobSkillsLength > 0 then fl (fl ((skillsMatch : ℚ) / (jobSkillsLength : ℚ)) * 100) else 0

/-- The weighted total (line 59): the double
`(skillsScore * 0.6) + (experienceMatch * 0.4)`, rounded by `Math.round`. -/
def overallScoreOf (skillsScore : ℚ) (experienceMatch : ℤ) : ℤ :=
  jsRound (fl (fl (skillsScore * fl (3 / 5)) + fl ((experienceMatch : ℚ) * fl (2 / 5))))

/-- The value `resume.extractedText?.toLowerCase() || ''` (line 13). -/
def resumeTextOf (resume : Resume) : String :=
  match resume.extractedText with
  | some t => toLowerCase t
  | none => ""

/-- The `try` block of `screenResume` (lines 13–68). -/
def screenResume (resume : Resume) (job : Job) : ScreeningResult :=
  let resumeText := resumeTextOf resume
  let jobSkills := job.skills.map toLowerCase
  let acc := checkSkills resumeText jobSkills
  let foundExperience := findExperience resumeText
  let minExp := minExpOf job
  let experienceMatch := experienceMatchOf foundExperience minExp
  let skillsScore := skillsScoreOf acc.skillsMatch jobSkills.length
  let overallScore := overallScoreOf skillsScore experienceMatch
  { skillsMatch := jsRound skillsScore,
    experienceMatch := experienceMatch,
    overallScore := overallScore,
    matchedKeywords := acc.matchedKeywords,
    missingKeywords := acc.missingKeywords,
    foundExperience := foundExperience }

/-! ## `screenResume` on arbitrary arguments, lines 11–80 -/

/-- JavaScript values, as far as `screenResume` tells them apart. -/
inductive JsVal where
  | undefined
  | null
  | num (q : ℚ)
  | str (s : String)
  | arr (xs : List JsVal)

/-- The exceptions raised by the operations below are all `TypeError`s. -/
inductive JsError where
  | typeError
  deriving DecidableEq, Repr

/-- A resume argument whose `extractedText` may hold any value. -/
structure DynResume where
  extractedText : JsVal
  skills : List String

/-- A job argument whose `skills` and `requirements` may hold any value. -/
structure DynJob where
  skills : JsVal
  requirements : JsVal
  experience : Option ExperienceBand

/-- The returned record, when `missingKeywords` may hold any value. -/
structure DynResult where
  skillsMatch : ℤ
  experienceMatch : ℤ
  overallScore : ℤ
  matchedKeywords : List String
  missingKeywords : JsVal
  foundExperience : ℕ

/-- An element `x` on which `x.toLowerCase()` can be called: a string. -/
def JsVal.asString : JsVal → Except JsError String
  | .str s => .ok s
  | _ => .error .typeError

/-- A value `v` on which `v.map(x => x.toLowerCase())` succeeds: an array all of
whose elements are strings.  On `undefined`/`null` the property access throws, on
other non-arrays `map` is not a function, on a non-string element `toLowerCase`
is not callable. -/
def JsVal.asStrings : JsVal → Except JsError (List String)
  | .arr xs => xs.mapM JsVal.asString
  | _ => .error .typeError

/-- The value `resume.extractedText?.toLowerCase()` before lower-casing:
`undefined` and `null` short-circuit, a string is used, anything else has no
`toLowerCase` method. -/
def JsVal.asOptionalText : JsVal → Except JsError (Option String)
  | .undefined => .ok none
  | .null => .ok none
  | .str s => .ok (some s)
  | _ => .error .typeError

/-- The `try` block (lines 13–68) on arbitrary arguments: reading a property of a
`null` resume or job throws, as do the ill-typed `map`/`toLowerCase` calls of
lines 13–15; past them the block is `screenResume`. -/
def tryBlock (resume : Option DynResume) (job : Option DynJob) : Except JsError ScreeningResult :=
  match resume with
  | none => .error .typeError
  | some r =>
    match r.extractedText.asOptionalText with
    | .error e => .error e
    | .ok text =>
      match job with
      | none => .error .typeError
      | some j =>
        match j.skills.asStrings with
        | .error e => .error e
        | .ok skills =>
          match j.requirements.asStrings with
          | .error e => .error e
          | .ok requirements =>
            .ok (screenResume ⟨text, r.skills⟩ ⟨skills, requirements, j.experience⟩)

/-- A list of strings as a JavaScript array. -/
def JsVal.ofStrings (xs : List String) : JsVal := .arr (xs.map JsVal.str)

/-- A record of the `try` block as a returned value. -/
def ScreeningResult.toDyn (r : ScreeningResult) : DynResult :=
  { skillsMatch := r.skillsMatch, experienceMatch := r.experienceMatch,
    overallScore := r.overallScore, matchedKeywords := r.matchedKeywords,
    missingKeywords := JsVal.ofStrings r.missingKeywords,
    foundExperience := r.foundExperience }

/-- The record built by the `catch` handler (lines 71–78). -/
def fallbackResult (j : DynJob) : DynResult :=
  { skillsMatch := 0, experienceMatch := 0, overallScore := 0, matchedKeywords := [],
    missingKeywords := j.skills, foundExperience := 0 }

/-- The whole of `screenResume` (lines 11–80).  `Except.error` is a rejected
promise: the handler itself reads `job.skills`, which throws when `job` is `null`. -/
def screenResumeDyn (resume : Option DynResume) (job : Option DynJob) :
    Except JsError DynResult :=
  match tryBlock resume job with
  | .ok r => .ok r.toDyn
  | .error _ =>
    match job with
    | none => .error .typeError
    | some j => .ok (fallbackResult j)

/-- A schema-conforming resume as an argument value. -/
def Resume.toDyn (r : Resume) : DynResume :=
  { extractedText := match r.extractedText with
                     | some t => .str t
                     | none => .undefined,
    skills := r.skills }

/-- A schema-conforming job as an argument value. -/
def Job.toDyn (j : Job) : DynJob :=
  { skills := JsVal.ofStrings j.skills, requirements := JsVal.ofStrings j.requirements,
    experience := j.experience }

/-! ## Reference notions used in the statements -/

/-- The skills percentage read over sets: `S` the distinct lower-cased job skills,
`M` the members of `S` found in the text, `round(100 * |M| / |S|)`, `0` for empty `S`. -/
def distinctSkillsMatch (resume : Resume) (job : Job) : ℤ :=
  let text := resumeTextOf resume
  let S := (job.skills.map toLowerCase).dedup
  let M := S.filter (fun k => includes text k)
  if S.length = 0 then 0 else round ((100 : ℚ) * (M.length : ℚ) / (S.length : ℚ))

/-- Case-insensitive membership of a job skill in the candidate's skill list. -/
def inCandidateSkills (resume : Resume) (skill : String) : Prop :=
  toLowerCase skill ∈ resume.skills.map toLowerCase

/-- How far a match starting at the head of `s` can extend: the leading digits and the
digit-free stretch after them. -/
def reach (s : List Char) : ℕ :=
  (s.takeWhile isDigitChar).length +
    ((s.dropWhile isDigitChar).takeWhile (fun c => !isDigitChar c)).length

/-- The phrase of the round-trip property. -/
def phrase : List Char := "5 years of experience".data

/-! ## `utils/pdfParser.js`: regular-expression scanning -/

/-- One match of a regular expression: the matched text and capture group 1. -/
structure RegexMatch where
  full : List Char
  group1 : List Char
  deriving DecidableEq, Repr

/-- The scan behind `text.match(re)` and `text.matchAll(re)` for a global expression
that never matches the empty string: `skip` characters still belong to the previous
match; otherwise the expression is tried at the current position, and on failure at the
next one.  The matches come in text order. -/
def scanAll (m : List Char → Option RegexMatch) : List Char → ℕ → List RegexMatch
  | [], _ => []
  | _ :: rest, skip + 1 => scanAll m rest skip
  | c :: rest, 0 =>
    match m (c :: rest) with
    | some r => r :: scanAll m rest (r.full.length - 1)
    | none => scanAll m rest 0

/-- Match the literal `p` at the start of `s` exactly (no flag `i`); returns the text
consumed. -/
def litExact (p : List Char) (s : List Char) : Option (List Char) :=
  if p.isPrefixOf s then some p else none

/-- Match the literal `p` at the start of `s` ignoring ASCII case (flag `i`); returns
the text consumed. -/
def litNoCase (p : List Char) (s : List Char) : Option (List Char) :=
  if p.isPrefixOf (s.map Char.toLower) then some (s.take p.length) else none

/-- A literal under the flags of its expression. -/
def lit (ignoreCase : Bool) (p : List Char) (s : List Char) : Option (List Char) :=
  if ignoreCase then litNoCase p s else litExact p s

/-- An optional single character `[...]?` (greedy): the text consumed. -/
def optChar (p : Char → Bool) (s : List Char) : List Char :=
  match s with
  | c :: _ => if p c then [c] else []
  | [] => []

/-- Exactly `n` digits, `\d{n}`: the text consumed. -/
def digitsExactly (n : ℕ) (s : List Char) : Option (List Char) :=
  if (s.take n).length = n ∧ (s.take n).all isDigitChar then some (s.take n) else none

/-- The group `(?:years?|yrs?)`: the first alternative that matches, with its optional
`s`; the text consumed. -/
def yearsUnit (ignoreCase : Bool) (s : List Char) : Option (List Char) :=
  match lit ignoreCase "year".data s with
  | some y =>
    some (y ++ optChar (fun c => (if ignoreCase then c.toLower else c) = 's') (s.drop y.length))
  | none =>
    match lit ignoreCase "yr".data s with
    | some y =>
      some (y ++ optChar (fun c => (if ignoreCase then c.toLower else c) = 's')
        (s.drop y.length))
    | none => none

/-- The group `(?:experience|exp)` under flag `i`: the text consumed. -/
def experienceWord (s : List Char) : Option (List Char) :=
  match litNoCase "experience".data s with
  | some w => some w
  | none => litNoCase "exp".data s

/-- The expression `/(\d+)\s*(?:years?|yrs?)(?:\s+of)?\s*(?:experience|exp)/gi` tried at
the start of `s`.  All quantifiers are greedy and none can usefully give back what it
took: a digit, a space or an `s` handed back meets an atom it cannot match.  When the
optional group `\s+of` matches but the rest fails, skipping the group fails as well,
since `o` would have to start `experience`. -/
def yearsOfExperienceRe (s : List Char) : Option RegexMatch :=
  let ds := s.takeWhile isDigitChar
  if ds = [] then none
  else
    let r1 := s.dropWhile isDigitChar
    let ws1 := r1.takeWhile isSpaceChar
    let r2 := r1.dropWhile isSpaceChar
    match yearsUnit true r2 with
    | none => none
    | some u =>
      let r3 := r2.drop u.length
      let ws2 := r3.takeWhile isSpaceChar
      let r4 := r3.dropWhile isSpaceChar
      let withOf : Option (List Char) :=
        if ws2 = [] then none
        else
          match litNoCase "of".data r4 with
          | none => none
          | some o =>
            let r5 := r4.drop o.length
            let ws3 := r5.takeWhile isSpaceChar
            match experienceWord (r5.dropWhile isSpaceChar) with
            | some w => some (ws2 ++ o ++ ws3 ++ w)
            | none => none
      match withOf with
      | some tail => some ⟨ds ++ ws1 ++ u ++ tail, ds⟩
      | none =>
        match experienceWord r4 with
        | some w => some ⟨ds ++ ws1 ++ u ++ ws2 ++ w, ds⟩
        | none => none

/-- The expression `/experience\s*:\s*(\d+)\s*(?:years?|yrs?)/gi` tried at the start
of `s`. -/
def experienceColonRe (s : List Char) : Option RegexMatch :=
  match litNoCase "experience".data s with
  | none => none
  | some w =>
    let r1 := s.drop w.length
    let ws1 := r1.takeWhile isSpaceChar
    match r1.dropWhile isSpaceChar with
    | ':' :: r2 =>
      let ws2 := r2.takeWhile isSpaceChar
      let r3 := r2.dropWhile isSpaceChar
      let ds := r3.takeWhile isDigitChar
      if ds = [] then none
      else
        let r4 := r3.dropWhile isDigitChar
        let ws3 := r4.takeWhile isSpaceChar
        match yearsUnit true (r4.dropWhile isSpaceChar) with
        | some u => some ⟨w ++ ws1 ++ [':'] ++ ws2 ++ ds ++ ws3 ++ u, ds⟩
        | none => none
    | _ => none

/-- The expression `/(\d+)\s*-\s*(\d+)\s*(?:years?|yrs?)/g` (case-sensitive) tried at
the start of `s`; capture group 1 is the first number. -/
def yearsRangeRe (s : List Char) : Option RegexMatch :=
  let ds := s.takeWhile isDigitChar
  if ds = [] then none
  else
    let r1 := s.dropWhile isDigitChar
    let ws1 := r1.takeWhile isSpaceChar
    match r1.dropWhile isSpaceChar with
    | '-' :: r2 =>
      let ws2 := r2.takeWhile isSpaceChar
      let r3 := r2.dropWhile isSpaceChar
      let ds2 := r3.takeWhile isDigitChar
      if ds2 = [] then none
      else
        let r4 := r3.dropWhile isDigitChar
        let ws3 := r4.takeWhile isSpaceChar
        match yearsUnit false (r4.dropWhile isSpaceChar) with
        | some u => some ⟨ds ++ ws1 ++ ['-'] ++ ws2 ++ ds2 ++ ws3 ++ u, ds⟩
        | none => none
    | _ => none

/-- The fallback expression `/(\d+)\s*(?:years?|yrs?)/gi` tried at the start of `s`. -/
def yearMentionRe (s : List Char) : Option RegexMatch :=
  let ds := s.takeWhile isDigitChar
  if ds = [] then none
  else
    let r1 := s.dropWhile isDigitChar
    let ws1 := r1.takeWhile isSpaceChar
    match yearsUnit true (r1.dropWhile isSpaceChar) with
    | some u => some ⟨ds ++ ws1 ++ u, ds⟩
    | none => none

/-! ## `EnhancedPDFParser.extractExperience`, lines 103–136 -/

/-- The array `experiencePatterns` (lines 104–108). -/
def experiencePatterns : List (List Char → Option RegexMatch) :=
  [yearsOfExperienceRe, experienceColonRe, yearsRangeRe]

/-- The value `parseInt(match[1] || match[2])`: group 1 always holds at least one digit,
so it is a non-empty, truthy string and group 2 is never read. -/
def yearsOfMatch (m : RegexMatch) : ℕ := parseInt m.group1

/-- The inner loop over the matches of one pattern (lines 113–118): the first `years`
that is truthy (non-zero) and at most 50 is returned. -/
def firstValidYears : List RegexMatch → Option ℕ
  | [] => none
  | m :: rest =>
    if yearsOfMatch m ≠ 0 ∧ yearsOfMatch m ≤ 50 then some (yearsOfMatch m)
    else firstValidYears rest

/-- The loop over the patterns (lines 110–120). -/
def tryPatterns : List (List Char → Option RegexMatch) → List Char → Option ℕ
  | [], _ => none
  | pattern :: rest, text =>
    let ms := scanAll pattern text 0
    if ms.length > 0 then
      match firstValidYears ms with
      | some years => some years
      | none => tryPatterns rest text
    else tryPatterns rest text

/-- One iteration of the fallback loop (lines 126–131); `parseInt(mention)` reads the
leading digits of the matched text. -/
def fallbackStep (maxYears : ℕ) (mention : List Char) : ℕ :=
  let years := parseInt (mention.takeWhile isDigitChar)
  if years ≠ 0 ∧ years > maxYears ∧ years ≤ 50 then years else maxYears

/-- The function `EnhancedPDFParser.extractExperience`. -/
def extractExperience (text : String) : ℕ :=
  match tryPatterns experiencePatterns text.data with
  | some years => years
  | none =>
    let yearMentions := (scanAll yearMentionRe text.data 0).map (·.full)
    if yearMentions ≠ [] then yearMentions.foldl fallbackStep 0
    else 0

/-! ## `EnhancedPDFParser.extractPhone`, lines 49–78 -/

/-- The class `[\d\s\-()]`. -/
def isPhoneChar (c : Char) : Bool :=
  isDigitChar c || isSpaceChar c || c == '-' || c == '(' || c == ')'

/-- The class `[-.\s]`. -/
def isSeparatorChar (c : Char) : Bool := c == '-' || c == '.' || isSpaceChar c

/-- The class `[\-\s]`. -/
def isDashOrSpace (c : Char) : Bool := c == '-' || isSpaceChar c

/-- The expression `/\+?[\d\s\-()]{10,15}/g` tried at the start of `s`: an optional `+`
and the longest run of 10 to 15 class characters. -/
def phoneInternationalRe (s : List Char) : Option RegexMatch :=
  let plus := optChar (fun c => c == '+') s
  let run := ((s.drop plus.length).takeWhile isPhoneChar).take 15
  if run.length ≥ 10 then some ⟨plus ++ run, []⟩ else none

/-- The expression `/\(?\d{3}\)?[-.\s]?\d{3}[-.\s]?\d{4}/g` tried at the start of `s`.
An optional character that was taken is never given back with success: what follows
it is a digit, which the character is not. -/
def phoneUsRe (s : List Char) : Option RegexMatch :=
  let a := optChar (fun c => c == '(') s
  let r1 := s.drop a.length
  match digitsExactly 3 r1 with
  | none => none
  | some d1 =>
    let r2 := r1.drop d1.length
    let b := optChar (fun c => c == ')') r2
    let r3 := r2.drop b.length
    let c := optChar isSeparatorChar r3
    let r4 := r3.drop c.length
    match digitsExactly 3 r4 with
    | none => none
    | some d2 =>
      let r5 := r4.drop d2.length
      let d := optChar isSeparatorChar r5
      let r6 := r5.drop d.length
      match digitsExactly 4 r6 with
      | none => none
      | some d3 => some ⟨a ++ d1 ++ b ++ c ++ d2 ++ d ++ d3, []⟩

/-- The expression `/(?:\+91[\-\s]?)?\d{5}[\-\s]?\d{5}/g` tried at the start of `s`.
When the text starts with `+91` the optional group is taken; skipping it instead would
put `\d` on the `+`. -/
def phoneIndiaRe (s : List Char) : Option RegexMatch :=
  let pre : List Char :=
    match litExact "+91".data s with
    | some p => p ++ optChar isDashOrSpace (s.drop p.length)
    | none => []
  let r1 := s.drop pre.length
  match digitsExactly 5 r1 with
  | none => none
  | some d1 =>
    let r2 := r1.drop d1.length
    let c := optChar isDashOrSpace r2
    let r3 := r2.drop c.length
    match digitsExactly 5 r3 with
    | none => none
    | some d2 => some ⟨pre ++ d1 ++ c ++ d2, []⟩

/-- The expression `/[\d]{7,15}/g` tried at the start of `s`. -/
def phoneDigitsRe (s : List Char) : Option RegexMatch :=
  let run := (s.takeWhile isDigitChar).take 15
  if run.length ≥ 7 then some ⟨run, []⟩ else none

/-- The array `phonePatterns` (lines 50–62). -/
def phonePatterns : List (List Char → Option RegexMatch) :=
  [phoneInternationalRe, phoneUsRe, phoneIndiaRe, phoneDigitsRe]

/-- The value `match.replace(/[\s\-()]/g, '')` (line 68). -/
def cleanNumber (m : List Char) : List Char :=
  m.filter (fun c => !(isSpaceChar c || c == '-' || c == '(' || c == ')'))

/-- The method `String.prototype.trim`: white space removed at both ends. -/
def jsTrim (s : List Char) : List Char :=
  ((s.dropWhile isSpaceChar).reverse.dropWhile isSpaceChar).reverse

/-- The inner loop over the matches of one pattern (lines 67–73). -/
def firstValidPhone : List RegexMatch → Option (List Char)
  | [] => none
  | m :: rest =>
    if (cleanNumber m.full).length ≥ 7 ∧ (cleanNumber m.full).length ≤ 15 then
      some (jsTrim m.full)
    else firstValidPhone rest

/-- The loop over the patterns (lines 64–75); `text.match` is `null` without a match. -/
def tryPhonePatterns : List (List Char → Option RegexMatch) → List Char → Option (List Char)
  | [], _ => none
  | pattern :: rest, text =>
    let ms := scanAll pattern text 0
    if ms ≠ [] then
      match firstValidPhone ms with
      | some phone => some phone
      | none => tryPhonePatterns rest text
    else tryPhonePatterns rest text

/-- The function `EnhancedPDFParser.extractPhone`. -/
def extractPhone (text : String) : String :=
  match tryPhonePatterns phonePatterns text.data with
  | some phone => ⟨phone⟩
  | none => ""

/-- The number of decimal digits of a string. -/
def digitCount (s : String) : ℕ := s.data.countP isDigitChar

/-! ## `EnhancedPDFParser.extractSkills`, lines 81–100 -/

/-- The array `commonSkills` (lines 82–88). -/
def commonSkills : List String :=
  ["JavaScript", "React", "Node.js", "Python", "Java", "HTML", "CSS",
   "MongoDB", "SQL", "Git", "AWS", "Docker", "TypeScript", "Angular",
   "Vue.js", "PHP", "C++", "C#", "Ruby", "Swift", "Kotlin", "Go",
   "Machine Learning", "AI", "Data Science", "DevOps", "Agile",
   "Project Management", "Leadership", "Communication", "Teamwork"]

/-- One iteration of `commonSkills.forEach` (lines 93–97). -/
def foundSkillsStep (lowerText : String) (foundSkills : List String) (skill : String) :
    List String :=
  if includes lowerText (toLowerCase skill) then foundSkills ++ [skill] else foundSkills

/-- The function `EnhancedPDFParser.extractSkills`. -/
def extractSkills (text : String) : List String :=
  let lowerText := toLowerCase text
  let foundSkills := commonSkills.foldl (foundSkillsStep lowerText) []
  foundSkills.take 10

/-! ## `EnhancedPDFParser.extractEducation`, lines 139–154 -/

/-- The array `educationKeywords` (lines 140–143). -/
def educationKeywords : List String :=
  ["bachelor", "master", "phd", "mba", "btech", "mtech", "be", "me",
   "bsc", "msc", "ba", "ma", "associate", "diploma", "certificate"]

/-- The call `text.split('\n')`. -/
def splitLines : List Char → List (List Char)
  | [] => [[]]
  | c :: rest =>
    if c = '\n' then [] :: splitLines rest
    else
      match splitLines rest with
      | l :: ls => (c :: l) :: ls
      | [] => [[c]]

/-- The test `educationKeywords.some(keyword => lowerLine.includes(keyword))`. -/
def hasEducationKeyword (line : List Char) : Bool :=
  educationKeywords.any (fun keyword => includes (toLowerCase ⟨line⟩) keyword)

/-- The loop over the lines (lines 146–151), with its `return`. -/
def firstEducationLine : List (List Char) → Option (List Char)
  | [] => none
  | line :: rest =>
    if hasEducationKeyword line then some ((jsTrim line).take 100)
    else firstEducationLine rest

/-- The function `EnhancedPDFParser.extractEducation`. -/
def extractEducation (text : String) : String :=
  match firstEducationLine (splitLines text.data) with
  | some line => ⟨line⟩
  | none => ""

/-! ## `EnhancedPDFParser.parseResume`, lines 6–33 -/

/-- The bytes handed to `parseResume`. -/
abbrev Buffer := List (Fin 256)

/-- The record returned by `parseResume`. -/
structure CandidateFacts where
  text : String
  applicantEmail : String
  applicantPhone : String
  skills : List String
  experience : ℕ
  education : String
  deriving DecidableEq, Repr

/-- The calls made inside the `try` block, each of which may throw: `pdf` is the
`pdf-parse` library followed by the read of `pdfData.text`, the others are the five
sub-extractions. -/
structure ParseSteps where
  pdf : Buffer → Except JsError String
  extractEmail : String → Except JsError String
  extractPhone : String → Except JsError String
  extractSkills : String → Except JsError (List String)
  extractExperience : String → Except JsError ℕ
  extractEducation : String → Except JsError String

/-- The `try` block of `parseResume` (lines 8–21): the object literal evaluates its
fields in order, and the first exception leaves the block. -/
def parseResumeTry (steps : ParseSteps) (dataBuffer : Buffer) : Except JsError CandidateFacts :=
  match steps.pdf dataBuffer with
  | .error e => .error e
  | .ok text =>
    match steps.extractEmail text with
    | .error e => .error e
    | .ok applicantEmail =>
      match steps.extractPhone text with
      | .error e => .error e
      | .ok applicantPhone =>
        match steps.extractSkills text with
        | .error e => .error e
        | .ok skills =>
          match steps.extractExperience text with
          | .error e => .error e
          | .ok experience =>
            match steps.extractEducation text with
            | .error e => .error e
            | .ok education =>
              .ok { text := text, applicantEmail := applicantEmail,
                    applicantPhone := applicantPhone, skills := skills,
                    experience := experience, education := education }

/-- The record of the `catch` handler (lines 24–31). -/
def emptyFacts : CandidateFacts :=
  { text := "", applicantEmail := "", applicantPhone := "", skills := [], experience := 0,
    education := "" }

/-- The function `EnhancedPDFParser.parseResume`: one `try`/`catch` around all steps.
`Except.error` would be a rejected promise. -/
def parseResume (steps : ParseSteps) (dataBuffer : Buffer) : Except JsError CandidateFacts :=
  match parseResumeTry steps dataBuffer with
  | .ok facts => .ok facts
  | .error _ => .ok emptyFacts

/-- The steps as they are in the class: the sub-extractions of this file, which do not
throw on a string.  The library `pdf` and `extractEmail` are left open. -/
def classSteps (pdf : Buffer → Except JsError String) (extractEmail : String → String) :
    ParseSteps :=
  { pdf := pdf,
    extractEmail := fun text => .ok (extractEmail text),
    extractPhone := fun text => .ok (ResumeScreener.extractPhone text),
    extractSkills := fun text => .ok (ResumeScreener.extractSkills text),
    extractExperience := fun text => .ok (ResumeScreener.extractExperience text),
    extractEducation := fun text => .ok (ResumeScreener.extractEducation text) }

/-! ## `utils/matchingAlgorithm.js` -/

/-- An entry of the `skillsMatch` array of `calculateMatchScore`. -/
structure SkillMatchEntry where
  skill : String
  isMatch : Bool
  importance : String
  deriving DecidableEq, Repr

/-- The record returned by `MatchingAlgorithm.calculateMatchScore`. -/
structure MatchScore where
  score : ℤ
  skillsMatch : List SkillMatchEntry
  deriving DecidableEq, Repr

/-- The set `new Set(candidateSkills.map(s => s.toLowerCase()))`, as its distinct
elements. -/
def candidateSkillSetOf (candidateSkills : List String) : List String :=
  (candidateSkills.map toLowerCase).dedup

/-- The test `candidateSkillSet.has(skill)`. -/
def setHas (set : List String) (skill : String) : Bool := decide (skill ∈ set)

/-- The function `MatchingAlgorithm.calculateMatchScore` (lines 4–23); the two
percentages and their sum are doubles. -/
def MatchingAlgorithm.calculateMatchScore (candidateSkills jobRequiredSkills jobPreferredSkills : List String) :
    MatchScore :=
  let requiredSkills := jobRequiredSkills.map toLowerCase
  let preferredSkills := jobPreferredSkills.map toLowerCase
  let candidateSkillSet := candidateSkillSetOf candidateSkills
  let matchedRequired := requiredSkills.filter (fun skill => setHas candidateSkillSet skill)
  let requiredMatchPercentage : ℚ :=
    if requiredSkills.length > 0 then
      fl (fl ((matchedRequired.length : ℚ) / (requiredSkills.length : ℚ)) * 70)
    else 0
  let matchedPreferred := preferredSkills.filter (fun skill => setHas candidateSkillSet skill)
  let preferredMatchPercentage : ℚ :=
    if preferredSkills.length > 0 then
      fl (fl ((matchedPreferred.length : ℚ) / (preferredSkills.length : ℚ)) * 30)
    else 0
  let totalScore := min 100 (jsRound (fl (requiredMatchPercentage + preferredMatchPercentage)))
  let skillsMatch :=
    requiredSkills.map (fun skill => ⟨skill, setHas candidateSkillSet skill, "required"⟩) ++
    preferredSkills.map (fun skill => ⟨skill, setHas candidateSkillSet skill, "preferred"⟩)
  { score := totalScore, skillsMatch := skillsMatch }

/-- An entry of the array returned by `generateImprovementSuggestions`. -/
structure Suggestion where
  category : String
  suggestion : String
  priority : String
  deriving DecidableEq, Repr

/-- The call `xs.join(', ')`. -/
def joinComma (xs : List String) : String := ", ".intercalate xs

/-- The function `MatchingAlgorithm.generateImprovementSuggestions` (lines 25–56). -/
def MatchingAlgorithm.generateImprovementSuggestions
    (candidateSkills jobRequiredSkills jobPreferredSkills : List String) : List Suggestion :=
  let suggestions : List Suggestion := []
  let candidateSkillSet := candidateSkillSetOf candidateSkills
  let missingRequired :=
    jobRequiredSkills.filter (fun skill => !setHas candidateSkillSet (toLowerCase skill))
  let suggestions :=
    if missingRequired.length > 0 then
      suggestions ++ [⟨"Critical Skills Gap",
        "Learn these required skills: " ++ joinComma missingRequired, "high"⟩]
    else suggestions
  let missingPreferred :=
    jobPreferredSkills.filter (fun skill => !setHas candidateSkillSet (toLowerCase skill))
  let suggestions :=
    if missingPreferred.length > 0 then
      suggestions ++ [⟨"Skill Enhancement",
        "Consider learning these preferred skills: " ++ joinComma missingPreferred, "medium"⟩]
    else suggestions
  let suggestions :=
    if candidateSkills.length < 5 then
      suggestions ++ [⟨"Skill Diversity",
        "Consider adding more technical skills to your resume", "medium"⟩]
    else suggestions
  suggestions

/-! ## `utils/aiRanking.js` -/

/-- The library `natural`, as far as `ResumeRanker` uses it: the word tokenizer and the
stop word list. -/
structure Natural where
  tokenize : String → List String
  stopwords : List String

/-- The fields of `resumeData` read by the ranker; `none` is `undefined` or `null`. -/
structure ResumeData where
  skills : Option (List String)
  experience : ℚ
  education : Option String
  text : String
  deriving DecidableEq, Repr

/-- The fields of `jobData` read by the ranker. -/
structure JobData where
  title : String
  description : String
  requirements : List String
  skills : Option (List String)
  experience : Option ExperienceBand
  deriving DecidableEq, Repr

/-- The object `scores` of `calculateMatchScore`. -/
structure MatchScores where
  skills : ℚ
  experience : ℚ
  education : ℚ
  keywords : ℚ
  overall : ℚ
  deriving DecidableEq, Repr

/-- An element of the array returned by `rankResumes`. -/
structure RankedResume where
  resume : ResumeData
  matchScores : MatchScores
  overallScore : ℚ
  deriving DecidableEq, Repr

/-- The operator `x || d` on numbers: `0` is falsy. -/
def numOr (x d : ℚ) : ℚ := if x = 0 then d else x

/-- The method `calculateSkillsScore` (lines 32–43); a set is kept as its distinct
elements. -/
def ResumeRanker.calculateSkillsScore (resumeSkills jobSkills : Option (List String)) : ℚ :=
  match resumeSkills, jobSkills with
  | some resumeSkills, some jobSkills =>
    let resumeSkillsSet := (resumeSkills.map toLowerCase).dedup
    let jobSkillsSet := (jobSkills.map toLowerCase).dedup
    let matchingSkills := resumeSkillsSet.filter (fun skill => setHas jobSkillsSet skill)
    if jobSkillsSet.length > 0 then (matchingSkills.length : ℚ) / (jobSkillsSet.length : ℚ)
    else 0
  | _, _ => 0

/-- The method `calculateExperienceScore` (lines 45–58). -/
def ResumeRanker.calculateExperienceScore (resumeExp : ℚ) (jobExp : Option ExperienceBand) : ℚ :=
  let minExp := match jobExp with
    | some band => numOr band.min 0
    | none => 0
  let maxExp := match jobExp with
    | some band => numOr band.max 10
    | none => 10
  let candidateExp := numOr resumeExp 0
  if candidateExp ≥ minExp ∧ candidateExp ≤ maxExp then 1
  else if candidateExp > maxExp then 4 / 5
  else max 0 (candidateExp / minExp)

/-- The keywords of `calculateEducationScore` (line 62). -/
def rankerEducationKeywords : List String := ["bachelor", "master", "phd", "degree", "diploma"]

/-- The method `calculateEducationScore` (lines 60–74); `0.2` is `1/5`. -/
def ResumeRanker.calculateEducationScore (education : Option String)
    (requirements : List String) : ℚ :=
  let requirementText := toLowerCase (" ".intercalate requirements)
  let educationText := toLowerCase (education.getD "")
  let score := rankerEducationKeywords.foldl
    (fun (score : ℚ) keyword =>
      if includes requirementText keyword && includes educationText keyword then score + 1 / 5
      else score) 0
  min 1 score

/-- The method `extractKeywords` (lines 88–99); the test `/\d+/` asks for a digit. -/
def ResumeRanker.extractKeywords (natural : Natural) (text : String) : List String :=
  let tokens := natural.tokenize (toLowerCase text)
  (tokens.filter (fun token =>
    decide (token.length > 2) && !(natural.stopwords.contains token) &&
      !(token.data.any isDigitChar))).take 50

/-- The method `calculateKeywordScore` (lines 76–86). -/
def ResumeRanker.calculateKeywordScore (natural : Natural) (resumeText : String)
    (jobData : JobData) : ℚ :=
  let jobText := jobData.title ++ " " ++ jobData.description ++ " " ++
    " ".intercalate jobData.requirements
  let jobKeywords := ResumeRanker.extractKeywords natural jobText
  let resumeKeywords := ResumeRanker.extractKeywords natural resumeText
  let matchingKeywords := resumeKeywords.filter (fun keyword => jobKeywords.contains keyword)
  if jobKeywords.length > 0 then (matchingKeywords.length : ℚ) / (jobKeywords.length : ℚ)
  else 0

/-- The method `calculateMatchScore` (lines 12–30); the weights are `2/5`, `3/10`, `1/5`
and `1/10`. -/
def ResumeRanker.calculateMatchScore (natural : Natural) (resumeData : ResumeData)
    (jobData : JobData) : MatchScores :=
  let skills := ResumeRanker.calculateSkillsScore resumeData.skills jobData.skills
  let experience := ResumeRanker.calculateExperienceScore resumeData.experience jobData.experience
  let education := ResumeRanker.calculateEducationScore resumeData.education jobData.requirements
  let keywords := ResumeRanker.calculateKeywordScore natural resumeData.text jobData
  { skills := skills, experience := experience, education := education, keywords := keywords,
    overall := skills * (2 / 5) + experience * (3 / 10) + education * (1 / 5) +
      keywords * (1 / 10) }

/-- The comparator `(a, b) => b.overallScore - a.overallScore` puts `a` no later than `b`
when its score is at least that of `b`. -/
def scoreGe (a b : RankedResume) : Prop := a.overallScore ≥ b.overallScore

instance scoreGe.decidable : DecidableRel scoreGe :=
  fun a b => inferInstanceAs (Decidable (a.overallScore ≥ b.overallScore))

/-- The method `rankResumes` (lines 102–116).  `Array.prototype.sort` is stable and the
comparator is a consistent order, which fixes the result: it is that of any stable sort
by descending score, here insertion sort. -/
def ResumeRanker.rankResumes (natural : Natural) (resumes : List ResumeData) (job : JobData) :
    List RankedResume :=
  let rankedResumes := resumes.map (fun resume =>
    let scores := ResumeRanker.calculateMatchScore natural resume job
    ({ resume := resume, matchScores := scores, overallScore := scores.overall } : RankedResume))
  rankedResumes.insertionSort scoreGe

/-! ## Reference notions for the extractor statements -/

/-- The numbers matched by the three pattern families of `extractExperience`, family by
family and, within a family, in text order. -/
def familyYears (text : String) : List ℕ :=
  experiencePatterns.flatMap (fun pattern => (scanAll pattern text.data 0).map yearsOfMatch)

/-- The largest "N years" mention of at most 50 years, `0` when there is none. -/
def maxYearMention (text : String) : ℕ :=
  mathMax (((scanAll yearMentionRe text.data 0).map yearsOfMatch).filter
    (fun years => decide (years ≤ 50)))

/-! ## Candidate lifecycle: `routes/aiScreening.js` lines 83–145 and the `pre('save')`
hook of `models/Resume.js` (lines 273–281) -/

/-- The values of the `status` enum of a resume. -/
inductive Status where
  | new
  | screened
  | rejected
  | shortlisted
  | interview
  | offer
  | hired
  deriving DecidableEq, Repr

/-- An entry of `statusHistory`; `changedAt` is a time stamp. -/
structure StatusEntry where
  status : Status
  changedAt : ℕ
  deriving DecidableEq, Repr

/-- The stored fields of a `Resume` document that screening reads or writes, as the
schema casts them on hydration: `extractedText` is a string or absent (`Resume.js`
line 162), `skills` an array of strings. -/
structure Candidate where
  jobId : String
  extractedText : Option String
  skills : List String
  score : ℤ
  status : Status
  statusHistory : List StatusEntry
  screeningResults : Option DynResult

/-- The document as the argument `resume` of `screenResume`. -/
def Candidate.toDyn (c : Candidate) : DynResume := Resume.toDyn ⟨c.extractedText, c.skills⟩

/-- A hydrated Mongoose document: the fields and, of its change tracking, whether the
path `status` is marked modified. -/
structure Document where
  fields : Candidate
  statusModified : Bool

/-- A document as `findById` or `find` returns it: nothing is marked modified. -/
def hydrate (c : Candidate) : Document := { fields := c, statusModified := false }

/-- The assignment `doc.status = value`: Mongoose marks the path modified only when
the value differs from the current one. -/
def Document.setStatus (d : Document) (value : Status) : Document :=
  if d.fields.status = value then d
  else { fields := { d.fields with status := value }, statusModified := true }

/-- The three assignments of lines 97–99 (and 126–128). -/
def Document.assignScreening (d : Document) (screeningResults : DynResult) : Document :=
  let d1 : Document := { d with fields := { d.fields with screeningResults := some screeningResults } }
  let d2 : Document := { d1 with fields := { d1.fields with score := screeningResults.overallScore } }
  d2.setStatus Status.screened

/-- The `pre('save')` middleware (`Resume.js` lines 273–281); `statusHistory` is a
schema array, hence always present. -/
def preSaveHook (now : ℕ) (d : Document) : Document :=
  if d.statusModified then
    { d with fields := { d.fields with
        statusHistory := d.fields.statusHistory ++ [⟨d.fields.status, now⟩] } }
  else d

/-- The call `await doc.save()`: the middleware runs, then the document is validated
and written, which `persist` stands for; after a successful write nothing is marked
modified. -/
def Document.save (persist : Candidate → Except JsError Unit) (now : ℕ) (d : Document) :
    Except JsError Document :=
  let hooked := preSaveHook now d
  match persist hooked.fields with
  | .ok _ => .ok { fields := hooked.fields, statusModified := false }
  | .error e => .error e

/-- The answers of the single-resume screening route. -/
inductive ScreenResponse where
  | notFound (message : String)
  | ok (resume : Candidate) (screeningResults : DynResult)
  | serverError (message : String)

/-- The handler of `POST /screen/:resumeId` (lines 83–107); `findResume` and `findJob`
are the two `findById` queries. -/
def screenSingleRoute (findResume : String → Except JsError (Option Candidate))
    (findJob : String → Except JsError (Option DynJob))
    (persist : Candidate → Except JsError Unit) (now : ℕ) (resumeId : String) :
    ScreenResponse :=
  match findResume resumeId with
  | .error _ => .serverError "Server error during screening"
  | .ok none => .notFound "Resume not found"
  | .ok (some resume) =>
    match findJob resume.jobId with
    | .error _ => .serverError "Server error during screening"
    | .ok none => .notFound "Job not found"
    | .ok (some job) =>
      match screenResumeDyn (some resume.toDyn) (some job) with
      | .error _ => .serverError "Server error during screening"
      | .ok screeningResults =>
        match ((hydrate resume).assignScreening screeningResults).save persist now with
        | .error _ => .serverError "Server error during screening"
        | .ok doc => .ok doc.fields screeningResults

/-- The body of the `try` block of one bulk callback (lines 125–129): the stored record
after a successful save. -/
def screenOne (persist : Candidate → Except JsError Unit) (now : Candidate → ℕ)
    (job : DynJob) (resume : Candidate) : Except JsError Candidate :=
  match screenResumeDyn (some resume.toDyn) (some job) with
  | .error e => .error e
  | .ok screeningResults =>
    match ((hydrate resume).assignScreening screeningResults).save persist (now resume) with
    | .error e => .error e
    | .ok doc => .ok doc.fields

/-- The state that the bulk callbacks build up: the stored record of every resume
handled so far, and `screenedCount`. -/
structure BulkState where
  stored : List Candidate
  screenedCount : ℕ

/-- One bulk callback (lines 123–134): on success the counter is incremented, on an
exception the error is logged and the stored record stays as it was.  The callbacks
touch separate documents and only add to the counter, so the order in which they
complete does not matter; they are taken in list order. -/
def bulkStep (persist : Candidate → Except JsError Unit) (now : Candidate → ℕ)
    (job : DynJob) (st : BulkState) (resume : Candidate) : BulkState :=
  match screenOne persist now job resume with
  | .ok saved => { stored := st.stored ++ [saved], screenedCount := st.screenedCount + 1 }
  | .error _ => { stored := st.stored ++ [resume], screenedCount := st.screenedCount }

/-- Lines 122–136: all callbacks, awaited by `Promise.all`. -/
def bulkScreen (persist : Candidate → Except JsError Unit) (now : Candidate → ℕ)
    (job : DynJob) (resumes : List Candidate) : BulkState :=
  resumes.foldl (bulkStep persist now job) { stored := [], screenedCount := 0 }

/-- The answers of the bulk screening route; `done k n` carries the message
`Processed k out of n resumes`. -/
inductive BulkResponse where
  | notFound (message : String)
  | done (processed attempted : ℕ)
  | serverError (message : String)

/-- The handler of `POST /screen/job/:jobId` (lines 110–145); `findNew` is the query
for the resumes of the job whose status is `new`. -/
def bulkScreenRoute (findNew : String → Except JsError (List Candidate))
    (findJob : String → Except JsError (Option DynJob))
    (persist : Candidate → Except JsError Unit) (now : Candidate → ℕ) (jobId : String) :
    BulkResponse :=
  match findNew jobId with
  | .error _ => .serverError "Server error during bulk screening"
  | .ok resumes =>
    match findJob jobId with
    | .error _ => .serverError "Server error during bulk screening"
    | .ok none => .notFound "Job not found"
    | .ok (some job) =>
      .done (bulkScreen persist now job resumes).screenedCount resumes.length

/-- Whether a step returned normally. -/
def succeeded {ε α : Type} : Except ε α → Bool
  | .ok _ => true
  | .error _ => false

/-- The stored record of a resume after its bulk callback, taken alone. -/
def storedAfter (persist : Candidate → Except JsError Unit) (now : Candidate → ℕ)
    (job : DynJob) (resume : Candidate) : Candidate :=
  match screenOne persist now job resume with
  | .ok saved => saved
  | .error _ => resume

/-! ## `routes/analytics.js`: `calculateSkillsMatchRate`, lines 233–244 -/

/-- The field of a resume read by `calculateSkillsMatchRate`; `none` is a missing
`skills` value. -/
structure SkilledResume where
  skills : Option (List String)
  deriving DecidableEq, Repr

/-- The division `a / b` of a count `a` by a list length `b`, where `b = 0` forces
`a = 0`: the quotient `0 / 0` is `NaN`, written `none`. -/
def divideCount (a b : ℕ) : Option ℚ :=
  if b = 0 then none else some ((a : ℚ) / (b : ℚ))

/-- The value returned by `calculateSkillsMatchRate`: the number `0` of line 234, or the
string of `toFixed(1)`, which is the decimal with `tenths` tenths or `NaN`. -/
inductive MatchRate where
  | zero
  | fixed (tenths : ℤ)
  | nan
  deriving DecidableEq, Repr

/-- The call `x.toFixed(1)`: the nearest number of tenths, ties going up; `NaN` gives
the string `NaN`. -/
def toFixedOne : Option ℚ → MatchRate
  | some x => .fixed (jsRound (x * 10))
  | none => .nan

/-- One step of the `reduce` of lines 236–241; arithmetic on `NaN` gives `NaN`. -/
def matchRateStep (requiredSkills : List String) (sum : Option ℚ) (resume : SkilledResume) :
    Option ℚ :=
  let resumeSkills := (resume.skills.getD []).map toLowerCase
  let requiredSkillsLower := requiredSkills.map toLowerCase
  let matchCount :=
    (requiredSkillsLower.filter (fun skill => resumeSkills.contains skill)).length
  match sum, divideCount matchCount requiredSkills.length with
  | some s, some q => some (s + q * 100)
  | _, _ => none

/-- The helper `calculateSkillsMatchRate`. -/
def calculateSkillsMatchRate (resumes : List SkilledResume) (requiredSkills : List String) :
    MatchRate :=
  if resumes.length = 0 then .zero
  else
    let totalMatches := resumes.foldl (matchRateStep requiredSkills) (some 0)
    toFixedOne (totalMatches.map (fun t => t / (resumes.length : ℚ)))

/-! ## Reference notions for the ranker statements -/

/-- The three branches of `calculateExperienceScore` (lines 50–57). -/
inductive ExperienceBranch where
  | perfect
  | overqualified
  | underqualified
  deriving DecidableEq, Repr

/-- The branch that `calculateExperienceScore` takes: the conditions of lines 50 and 52
on the values of lines 46–48. -/
def ResumeRanker.experienceBranch (resumeExp : ℚ) (jobExp : Option ExperienceBand) :
    ExperienceBranch :=
  let minExp := match jobExp with
    | some band => numOr band.min 0
    | none => 0
  let maxExp := match jobExp with
    | some band => numOr band.max 10
    | none => 10
  let candidateExp := numOr resumeExp 0
  if candidateExp ≥ minExp ∧ candidateExp ≤ maxExp then .perfect
  else if candidateExp > maxExp then .overqualified
  else .underqualified

/-- The value `jobExp?.min || 0`, the divisor of line 56. -/
def ResumeRanker.minExpOf (jobExp : Option ExperienceBand) : ℚ :=
  match jobExp with
  | some band => numOr band.min 0
  | none => 0

/-- The characters that the word tokenizer of `natural` keeps together: ASCII letters,
digits and the underscore. -/
def isWordChar (c : Char) : Bool := c.isAlphanum || c == '_'

/-- Split a text into its maximal runs of word characters. -/
def wordRuns : List Char → List (List Char)
  | [] => [[]]
  | c :: rest =>
    if isWordChar c then
      match wordRuns rest with
      | w :: ws => (c :: w) :: ws
      | [] => [[c]]
    else [] :: wordRuns rest

/-- A tokenizer and a stop word list for examples: the non-empty runs of word
characters, as the word tokenizer of `natural` gives them on ASCII text, and a few of its
stop words. -/
def sampleNatural : Natural :=
  { tokenize := fun text => ((wordRuns text.data).filter (fun w => !w.isEmpty)).map String.mk,
    stopwords := ["about", "after", "all", "also", "and", "for", "the", "with"] }

/-! ## Auxiliary lemmas -/

/-! ### Binary64 rounding -/

theorem roundHalfEven_cases (x : ℚ) : roundHalfEven x = ⌊x⌋ ∨ roundHalfEven x = ⌊x⌋ + 1 := by
  unfold roundHalfEven
  split_ifs <;> simp

theorem roundHalfEven_intCast (k : ℤ) : roundHalfEven (k : ℚ) = k := by
  unfold roundHalfEven
  simp

theorem roundHalfEven_eq_of_near (x : ℚ) (m : ℤ) (h : |x - m| < 1 / 2) :
    roundHalfEven x = m := by
  obtain ⟨h1, h2⟩ := abs_lt.mp h
  unfold roundHalfEven
  by_cases hm : (m : ℚ) ≤ x
  · have hf : ⌊x⌋ = m := Int.floor_eq_iff.mpr ⟨hm, by linarith⟩
    rw [hf, if_pos (by linarith)]
  · have hf : ⌊x⌋ = m - 1 := Int.floor_eq_iff.mpr ⟨by push_cast; linarith, by push_cast; linarith⟩
    rw [hf, if_neg (by push_cast; linarith), if_pos (by push_cast; linarith)]
    ring

theorem abs_roundHalfEven_sub_le (x : ℚ) : |(roundHalfEven x : ℚ) - x| ≤ 1 / 2 := by
  have h1 := Int.floor_le x
  have h2 := Int.lt_floor_add_one x
  unfold roundHalfEven
  rw [abs_le]
  split_ifs with ha hb hc
  · constructor <;> linarith
  · constructor <;> push_cast <;> linarith
  · constructor <;> linarith
  · constructor <;> push_cast <;> linarith

theorem roundHalfEven_mono {x y : ℚ} (h : x ≤ y) : roundHalfEven x ≤ roundHalfEven y := by
  have hfl : ⌊x⌋ ≤ ⌊y⌋ := Int.floor_mono h
  rcases lt_or_eq_of_le hfl with hlt | heq
  · have hx : roundHalfEven x ≤ ⌊x⌋ + 1 := by
      rcases roundHalfEven_cases x with h1 | h1 <;> omega
    have hy : ⌊y⌋ ≤ roundHalfEven y := by
      rcases roundHalfEven_cases y with h1 | h1 <;> omega
    omega
  · unfold roundHalfEven
    rw [← heq]
    have hxy : x - ⌊x⌋ ≤ y - ⌊x⌋ := by linarith
    split_ifs <;> first | omega | (exfalso; linarith)

theorem binade_spec {x : ℚ} (hx : 0 < x) :
    (2 : ℚ) ^ binade x ≤ x ∧ x < (2 : ℚ) ^ (binade x + 1) := by
  unfold binade
  rw [abs_of_pos hx]
  have h1 := Int.zpow_log_le_self (b := 2) (by norm_num) hx
  have h2 := Int.lt_zpow_succ_log_self (b := 2) (by norm_num) x
  simp only [Nat.cast_ofNat] at h1 h2
  exact ⟨h1, h2⟩

theorem binade_eq {x : ℚ} (e : ℤ) (h1 : (2 : ℚ) ^ e ≤ x) (h2 : x < (2 : ℚ) ^ (e + 1)) :
    binade x = e := by
  have hx : 0 < x := lt_of_lt_of_le (by positivity) h1
  unfold binade
  rw [abs_of_pos hx]
  apply le_antisymm
  · have := (Int.lt_zpow_iff_log_lt (b := 2) (by norm_num) hx (x := e + 1)).mp (by simpa using h2)
    omega
  · exact (Int.zpow_le_iff_le_log (b := 2) (by norm_num) hx).mp (by simpa using h1)

theorem fl_zero : fl 0 = 0 := by simp [fl]

theorem fl_pos_eq {x : ℚ} (hx : 0 < x) :
    fl x = (roundHalfEven (x / 2 ^ (binade x - 52)) : ℚ) * 2 ^ (binade x - 52) := by
  unfold fl
  rw [if_neg hx.ne']

/-- Evaluation of `fl`: `x` lies in the binade `e` and within half a unit of `m`. -/
theorem fl_eq_of_near (x : ℚ) (e m : ℤ) (h1 : (2 : ℚ) ^ e ≤ x) (h2 : x < (2 : ℚ) ^ (e + 1))
    (h : |x / 2 ^ (e - 52) - m| < 1 / 2) : fl x = (m : ℚ) * 2 ^ (e - 52) := by
  have hx : 0 < x := lt_of_lt_of_le (by positivity) h1
  rw [fl_pos_eq hx, binade_eq e h1 h2, roundHalfEven_eq_of_near _ m h]

theorem scaled_bounds {x : ℚ} (hx : 0 < x) :
    (2 : ℚ) ^ (52 : ℕ) ≤ x / 2 ^ (binade x - 52) ∧ x / 2 ^ (binade x - 52) < 2 ^ (53 : ℕ) := by
  obtain ⟨h1, h2⟩ := binade_spec hx
  have hq : (0 : ℚ) < 2 ^ (binade x - 52) := by positivity
  have e1 : (2 : ℚ) ^ (52 : ℕ) * 2 ^ (binade x - 52) = 2 ^ binade x := by
    rw [← zpow_natCast, ← zpow_add₀ (by norm_num)]; congr 1; push_cast; ring
  have e2 : (2 : ℚ) ^ (53 : ℕ) * 2 ^ (binade x - 52) = 2 ^ (binade x + 1) := by
    rw [← zpow_natCast, ← zpow_add₀ (by norm_num)]; congr 1; push_cast; ring
  constructor
  · rw [le_div_iff₀ hq, e1]; exact h1
  · rw [div_lt_iff₀ hq, e2]; exact h2

theorem fl_bounds {x : ℚ} (hx : 0 < x) :
    (2 : ℚ) ^ binade x ≤ fl x ∧ fl x ≤ (2 : ℚ) ^ (binade x + 1) := by
  obtain ⟨h1, h2⟩ := scaled_bounds hx
  have hq : (0 : ℚ) < 2 ^ (binade x - 52) := by positivity
  have e1 : (2 : ℚ) ^ (52 : ℕ) * 2 ^ (binade x - 52) = 2 ^ binade x := by
    rw [← zpow_natCast, ← zpow_add₀ (by norm_num)]; congr 1; push_cast; ring
  have e2 : (2 : ℚ) ^ (53 : ℕ) * 2 ^ (binade x - 52) = 2 ^ (binade x + 1) := by
    rw [← zpow_natCast, ← zpow_add₀ (by norm_num)]; congr 1; push_cast; ring
  have r1 : ((2 ^ (52 : ℕ) : ℤ) : ℚ) ≤ x / 2 ^ (binade x - 52) := by push_cast; exact h1
  have r2 : x / 2 ^ (binade x - 52) ≤ ((2 ^ (53 : ℕ) : ℤ) : ℚ) := by push_cast; exact h2.le
  have m1 := roundHalfEven_mono r1
  have m2 := roundHalfEven_mono r2
  rw [roundHalfEven_intCast] at m1 m2
  have c1 : ((2 : ℚ) ^ (52 : ℕ)) ≤ (roundHalfEven (x / 2 ^ (binade x - 52)) : ℚ) := by
    exact_mod_cast m1
  have c2 : (roundHalfEven (x / 2 ^ (binade x - 52)) : ℚ) ≤ ((2 : ℚ) ^ (53 : ℕ)) := by
    exact_mod_cast m2
  rw [fl_pos_eq hx, ← e1, ← e2]
  exact ⟨mul_le_mul_of_nonneg_right c1 hq.le, mul_le_mul_of_nonneg_right c2 hq.le⟩

theorem fl_pos {x : ℚ} (hx : 0 < x) : 0 < fl x :=
  lt_of_lt_of_le (by positivity) (fl_bounds hx).1

theorem fl_nonneg {x : ℚ} (hx : 0 ≤ x) : 0 ≤ fl x := by
  rcases eq_or_lt_of_le hx with h | h
  · rw [← h, fl_zero]
  · exact (fl_pos h).le

/-- Rounding is monotone on the non-negative numbers. -/
theorem fl_mono {x y : ℚ} (hx : 0 ≤ x) (h : x ≤ y) : fl x ≤ fl y := by
  rcases eq_or_lt_of_le hx with h0 | hpos
  · rw [← h0, fl_zero]; exact fl_nonneg (le_trans hx h)
  · have hy : 0 < y := lt_of_lt_of_le hpos h
    have hb : binade x ≤ binade y := by
      unfold binade
      rw [abs_of_pos hpos, abs_of_pos hy]
      exact Int.log_mono_right hpos h
    rcases lt_or_eq_of_le hb with hlt | heq
    · have h1 := (fl_bounds hpos).2
      have h2 := (fl_bounds hy).1
      have : (2 : ℚ) ^ (binade x + 1) ≤ 2 ^ binade y :=
        zpow_le_zpow_right₀ (by norm_num) (by omega)
      linarith
    · rw [fl_pos_eq hpos, fl_pos_eq hy, heq]
      have hq : (0 : ℚ) < 2 ^ (binade y - 52) := by positivity
      apply mul_le_mul_of_nonneg_right _ hq.le
      have := roundHalfEven_mono (div_le_div_of_nonneg_right h hq.le)
      exact_mod_cast this

/-- The relative error of rounding is at most `2^-53`. -/
theorem fl_error {x : ℚ} (hx : 0 ≤ x) : |fl x - x| ≤ x / 2 ^ (53 : ℕ) := by
  rcases eq_or_lt_of_le hx with h0 | hpos
  · rw [← h0, fl_zero]; simp
  · have hq : (0 : ℚ) < 2 ^ (binade x - 52) := by positivity
    have herr := abs_roundHalfEven_sub_le (x / 2 ^ (binade x - 52))
    have hs := (scaled_bounds hpos).1
    have hfl := fl_pos_eq hpos
    generalize (2 : ℚ) ^ (binade x - 52) = q at hq herr hs hfl
    generalize hr : (roundHalfEven (x / q) : ℚ) = r at herr hfl
    have hxq : x / q * q = x := div_mul_cancel₀ x hq.ne'
    have hsub : fl x - x = (r - x / q) * q := by rw [hfl]; linarith
    rw [hsub, abs_mul, abs_of_pos hq]
    have hle : q * 2 ^ (52 : ℕ) ≤ x := by
      have := mul_le_mul_of_nonneg_right hs hq.le
      rw [hxq] at this
      linarith
    have h53 : (2 : ℚ) ^ (53 : ℕ) = 2 * 2 ^ (52 : ℕ) := by norm_num
    rw [le_div_iff₀ (by positivity)]
    calc |r - x / q| * q * 2 ^ (53 : ℕ) ≤ 1 / 2 * q * 2 ^ (53 : ℕ) := by
          apply mul_le_mul_of_nonneg_right _ (by positivity)
          exact mul_le_mul_of_nonneg_right herr hq.le
      _ = q * 2 ^ (52 : ℕ) := by rw [h53]; ring
      _ ≤ x := hle

/-- A natural number below `2^53` is a binary64 number. -/
theorem fl_natCast (n : ℕ) (hn : n < 2 ^ 53) : fl (n : ℚ) = n := by
  rcases Nat.eq_zero_or_pos n with h0 | hpos
  · subst h0; simp [fl_zero]
  · have hx : (0 : ℚ) < n := by exact_mod_cast hpos
    obtain ⟨h1, h2⟩ := binade_spec hx
    have hle : binade (n : ℚ) ≤ 52 := by
      by_contra hc
      have h53 : (2 : ℚ) ^ (53 : ℤ) ≤ 2 ^ binade (n : ℚ) :=
        zpow_le_zpow_right₀ (by norm_num) (by omega)
      have : ((2 ^ 53 : ℕ) : ℚ) ≤ n := by
        push_cast
        calc (2 : ℚ) ^ (53 : ℕ) = 2 ^ (53 : ℤ) := by norm_cast
          _ ≤ n := le_trans h53 h1
      have := Nat.cast_le.mp this
      omega
    obtain ⟨k, hk⟩ : ∃ k : ℕ, binade (n : ℚ) - 52 = -(k : ℤ) := ⟨(52 - binade (n : ℚ)).toNat, by omega⟩
    rw [fl_pos_eq hx, hk]
    have hdiv : (n : ℚ) / 2 ^ (-(k : ℤ)) = ((n * 2 ^ k : ℕ) : ℤ) := by
      rw [zpow_neg, zpow_natCast]
      push_cast
      field_simp
    rw [hdiv, roundHalfEven_intCast, zpow_neg, zpow_natCast]
    push_cast
    field_simp


theorem fl_one : fl 1 = 1 := by
  have := fl_natCast 1 (by norm_num)
  simpa using this

/-- The double `(x) * c` of a ratio `x` in `[0, 1]` by a whole number `c`. -/
theorem fl_ratio_mul (x : ℚ) (c : ℕ) (hc : c < 2 ^ 53) (h0 : 0 ≤ x) (h1 : x ≤ 1) :
    0 ≤ fl (fl x * c) ∧ fl (fl x * c) ≤ c ∧ |fl (fl x * c) - x * c| ≤ 2 * c / 2 ^ (53 : ℕ) := by
  have hc0 : (0 : ℚ) ≤ c := by positivity
  have hf0 : 0 ≤ fl x := fl_nonneg h0
  have hf1 : fl x ≤ 1 := by
    have := fl_mono h0 h1
    rwa [fl_one] at this
  have hp0 : 0 ≤ fl x * c := mul_nonneg hf0 hc0
  have hp1 : fl x * c ≤ c := by nlinarith
  have hfp : fl (fl x * c) ≤ c := by
    have := fl_mono hp0 hp1
    rwa [fl_natCast c hc] at this
  refine ⟨fl_nonneg hp0, hfp, ?_⟩
  have e1 := fl_error h0
  have e2 := fl_error hp0
  have hP : (0 : ℚ) < 2 ^ (53 : ℕ) := by positivity
  have b1 : |fl x - x| ≤ 1 / 2 ^ (53 : ℕ) :=
    le_trans e1 (div_le_div_of_nonneg_right h1 hP.le)
  have b2 : |fl (fl x * c) - fl x * c| ≤ c / 2 ^ (53 : ℕ) :=
    le_trans e2 (div_le_div_of_nonneg_right hp1 hP.le)
  have b3 : |fl x * c - x * c| ≤ c / 2 ^ (53 : ℕ) := by
    have : fl x * c - x * c = (fl x - x) * c := by ring
    rw [this, abs_mul, abs_of_nonneg hc0]
    calc |fl x - x| * c ≤ 1 / 2 ^ (53 : ℕ) * c := mul_le_mul_of_nonneg_right b1 hc0
      _ = c / 2 ^ (53 : ℕ) := by ring
  calc |fl (fl x * c) - x * c|
      = |(fl (fl x * c) - fl x * c) + (fl x * c - x * c)| := by ring_nf
    _ ≤ |fl (fl x * c) - fl x * c| + |fl x * c - x * c| := abs_add _ _
    _ ≤ c / 2 ^ (53 : ℕ) + c / 2 ^ (53 : ℕ) := add_le_add b2 b3
    _ = 2 * c / 2 ^ (53 : ℕ) := by ring

/-- The double `s * w` of a score `s` in `[0, 100]` by a weight literal `w = fl w0`,
`0 <= w0 <= 1`. -/
theorem fl_weighted (s w0 : ℚ) (hs0 : 0 ≤ s) (hs1 : s ≤ 100) (hw0 : 0 ≤ w0) (hw1 : w0 ≤ 1) :
    0 ≤ fl (s * fl w0) ∧ fl (s * fl w0) ≤ 100 ∧
      |fl (s * fl w0) - s * w0| ≤ 200 / 2 ^ (53 : ℕ) := by
  have hf0 : 0 ≤ fl w0 := fl_nonneg hw0
  have hf1 : fl w0 ≤ 1 := by
    have := fl_mono hw0 hw1
    rwa [fl_one] at this
  have hp0 : 0 ≤ s * fl w0 := mul_nonneg hs0 hf0
  have hp1 : s * fl w0 ≤ 100 := by nlinarith
  have hfp : fl (s * fl w0) ≤ 100 := by
    have := fl_mono hp0 hp1
    have h100 := fl_natCast 100 (by norm_num)
    push_cast at h100
    rwa [h100] at this
  refine ⟨fl_nonneg hp0, hfp, ?_⟩
  have e1 := fl_error hw0
  have e2 := fl_error hp0
  have hP : (0 : ℚ) < 2 ^ (53 : ℕ) := by positivity
  have b1 : |fl w0 - w0| ≤ 1 / 2 ^ (53 : ℕ) :=
    le_trans e1 (div_le_div_of_nonneg_right hw1 hP.le)
  have b2 : |fl (s * fl w0) - s * fl w0| ≤ 100 / 2 ^ (53 : ℕ) :=
    le_trans e2 (div_le_div_of_nonneg_right hp1 hP.le)
  have b3 : |s * fl w0 - s * w0| ≤ 100 / 2 ^ (53 : ℕ) := by
    have : s * fl w0 - s * w0 = s * (fl w0 - w0) := by ring
    rw [this, abs_mul, abs_of_nonneg hs0]
    calc s * |fl w0 - w0| ≤ 100 * (1 / 2 ^ (53 : ℕ)) :=
          mul_le_mul hs1 b1 (abs_nonneg _) (by norm_num)
      _ = 100 / 2 ^ (53 : ℕ) := by ring
  calc |fl (s * fl w0) - s * w0|
      = |(fl (s * fl w0) - s * fl w0) + (s * fl w0 - s * w0)| := by ring_nf
    _ ≤ |fl (s * fl w0) - s * fl w0| + |s * fl w0 - s * w0| := abs_add _ _
    _ ≤ 100 / 2 ^ (53 : ℕ) + 100 / 2 ^ (53 : ℕ) := add_le_add b2 b3
    _ = 200 / 2 ^ (53 : ℕ) := by ring

/-- The double sum of two numbers in `[0, 100]`. -/
theorem fl_add_error (a b : ℚ) (ha0 : 0 ≤ a) (ha1 : a ≤ 100) (hb0 : 0 ≤ b) (hb1 : b ≤ 100) :
    0 ≤ fl (a + b) ∧ |fl (a + b) - (a + b)| ≤ 200 / 2 ^ (53 : ℕ) := by
  have h0 : 0 ≤ a + b := add_nonneg ha0 hb0
  refine ⟨fl_nonneg h0, le_trans (fl_error h0) ?_⟩
  exact div_le_div_of_nonneg_right (by linarith) (by positivity)

/-- Two numbers closer than `1/d` round alike when the exact one, `X`, is a fraction over
`d` after adding one half and is not a tie; at a tie the other may round one lower. -/
theorem jsRound_near (X Y : ℚ) (d : ℕ) (a : ℤ) (hd : 0 < d) (hX : X + 1 / 2 = (a : ℚ) / d)
    (h : |Y - X| < 1 / d) :
    (jsRound Y = jsRound X ∨ jsRound Y = jsRound X - 1) ∧
      ((∀ k : ℤ, X ≠ k + 1 / 2) → jsRound Y = jsRound X) := by
  have hdq : (0 : ℚ) < d := by exact_mod_cast hd
  obtain ⟨h1, h2⟩ := abs_lt.mp h
  have hk1 := Int.floor_le (X + 1 / 2)
  have hk2 := Int.lt_floor_add_one (X + 1 / 2)
  have hone : (1 : ℚ) / d ≤ 1 := by
    rw [div_le_one hdq]
    exact_mod_cast hd
  unfold jsRound
  generalize hk : ⌊X + 1 / 2⌋ = k at hk1 hk2
  by_cases htie : X + 1 / 2 = k
  · constructor
    · by_cases hy : (k : ℚ) ≤ Y + 1 / 2
      · left
        exact Int.floor_eq_iff.mpr ⟨hy, by linarith⟩
      · right
        exact Int.floor_eq_iff.mpr ⟨by push_cast; linarith, by push_cast; linarith⟩
    · intro hno
      exact absurd (show X = ((k - 1 : ℤ) : ℚ) + 1 / 2 by push_cast; linarith) (hno (k - 1))
  · have hlt : (k : ℚ) < X + 1 / 2 := lt_of_le_of_ne hk1 (Ne.symm htie)
    rw [hX] at hlt hk2
    rw [lt_div_iff₀ hdq] at hlt
    rw [div_lt_iff₀ hdq] at hk2
    have i1 : k * (d : ℤ) < a := by exact_mod_cast hlt
    have i2 : a < (k + 1) * (d : ℤ) := by exact_mod_cast hk2
    have j1 : ((k * (d : ℤ) + 1 : ℤ) : ℚ) ≤ a := by exact_mod_cast (show k * (d : ℤ) + 1 ≤ a by omega)
    have j2 : (a : ℚ) ≤ (((k + 1) * (d : ℤ) - 1 : ℤ) : ℚ) := by
      exact_mod_cast (show a ≤ (k + 1) * (d : ℤ) - 1 by omega)
    push_cast at j1 j2
    have l1 : (k : ℚ) + 1 / d ≤ X + 1 / 2 := by
      rw [hX, le_div_iff₀ hdq]
      have : ((k : ℚ) + 1 / d) * d = k * d + 1 := by field_simp
      linarith
    have l2 : X + 1 / 2 ≤ (k : ℚ) + 1 - 1 / d := by
      rw [hX, div_le_iff₀ hdq]
      have : ((k : ℚ) + 1 - 1 / d) * d = (k + 1) * d - 1 := by field_simp
      linarith
    have : ⌊Y + 1 / 2⌋ = k := Int.floor_eq_iff.mpr ⟨by linarith, by linarith⟩
    exact ⟨Or.inl this, fun _ => this⟩

/-! ### `screenResume` -/

theorem jsRound_eq_round (x : ℚ) : jsRound x = round x := by
  unfold jsRound; exact (round_eq x).symm

theorem jsRound_eq_iff (x : ℚ) (n : ℤ) : jsRound x = n ↔ (n : ℚ) - 1 / 2 ≤ x ∧ x < (n : ℚ) + 1 / 2 := by
  unfold jsRound
  rw [Int.floor_eq_iff]
  constructor
  · rintro ⟨h1, h2⟩; constructor <;> linarith
  · rintro ⟨h1, h2⟩; constructor <;> linarith

theorem includes_iff (s t : String) : includes s t = true ↔ t.data <:+: s.data := by
  unfold includes
  simp only [List.any_eq_true, List.mem_tails, List.isPrefixOf_iff_prefix]
  constructor
  · rintro ⟨u, hu, hp⟩
    exact List.IsInfix.trans hp.isInfix hu.isInfix
  · intro h
    obtain ⟨a, b, hab⟩ := h
    exact ⟨t.data ++ b, ⟨a, by simpa [List.append_assoc] using hab⟩, List.prefix_append _ _⟩

theorem foldl_skillStep (text : String) (skills : List String) (acc : SkillAcc) :
    skills.foldl (skillStep text) acc =
      ⟨acc.skillsMatch + (skills.filter (fun k => includes text k)).length,
       acc.matchedKeywords ++ skills.filter (fun k => includes text k),
       acc.missingKeywords ++ skills.filter (fun k => !includes text k)⟩ := by
  induction skills generalizing acc with
  | nil => simp
  | cons k ks ih =>
    rw [List.foldl_cons, ih]
    by_cases h : includes text k = true
    · simp [skillStep, h, Nat.add_assoc, Nat.add_comm 1]
    · simp [skillStep, h]

theorem checkSkills_eq (text : String) (skills : List String) :
    checkSkills text skills =
      ⟨(skills.filter (fun k => includes text k)).length,
       skills.filter (fun k => includes text k),
       skills.filter (fun k => !includes text k)⟩ := by
  unfold checkSkills
  rw [foldl_skillStep]
  simp


theorem matched_eq (resume : Resume) (job : Job) :
    (screenResume resume job).matchedKeywords =
      (job.skills.map toLowerCase).filter (fun k => includes (resumeTextOf resume) k) := by
  simp [screenResume, checkSkills_eq]

theorem missing_eq (resume : Resume) (job : Job) :
    (screenResume resume job).missingKeywords =
      (job.skills.map toLowerCase).filter (fun k => !includes (resumeTextOf resume) k) := by
  simp [screenResume, checkSkills_eq]

theorem jsRound_mem_range (x : ℚ) (h0 : 0 ≤ x) (h1 : x ≤ 100) :
    0 ≤ jsRound x ∧ jsRound x ≤ 100 := by
  unfold jsRound
  constructor
  · apply Int.floor_nonneg.mpr; linarith
  · have : ⌊x + 1 / 2⌋ < 101 := by
      apply Int.floor_lt.mpr
      push_cast; linarith
    omega

theorem skillsScoreOf_mem_range (m n : ℕ) (h : m ≤ n) :
    0 ≤ skillsScoreOf m n ∧ skillsScoreOf m n ≤ 100 := by
  unfold skillsScoreOf
  split_ifs with hn
  · have hn' : (0 : ℚ) < n := by exact_mod_cast hn
    have hm : (m : ℚ) ≤ n := by exact_mod_cast h
    have hr := fl_ratio_mul ((m : ℚ) / n) 100 (by norm_num) (by positivity)
      ((div_le_one hn').mpr hm)
    push_cast at hr
    exact ⟨hr.1, hr.2.1⟩
  · constructor <;> norm_num

/-- The double skills percentage is within `200 * 2^-53` of the exact one. -/
theorem skillsScoreOf_error (m n : ℕ) (hn : 0 < n) (h : m ≤ n) :
    |skillsScoreOf m n - 100 * (m : ℚ) / n| ≤ 200 / 2 ^ (53 : ℕ) := by
  unfold skillsScoreOf
  rw [if_pos hn]
  have hn' : (0 : ℚ) < n := by exact_mod_cast hn
  have hm : (m : ℚ) ≤ n := by exact_mod_cast h
  have hr := (fl_ratio_mul ((m : ℚ) / n) 100 (by norm_num) (by positivity)
    ((div_le_one hn').mpr hm)).2.2
  push_cast at hr
  have e : 100 * (m : ℚ) / n = (m : ℚ) / n * 100 := by ring
  rw [e]
  calc _ ≤ 2 * 100 / 2 ^ (53 : ℕ) := hr
    _ = 200 / 2 ^ (53 : ℕ) := by norm_num

/-- The double weighted total is within `600 * 2^-53` of the exact one. -/
theorem overallScoreOf_error (s : ℚ) (e : ℤ) (hs0 : 0 ≤ s) (hs1 : s ≤ 100) (he0 : 0 ≤ e)
    (he1 : e ≤ 100) :
    0 ≤ fl (fl (s * fl (3 / 5)) + fl ((e : ℚ) * fl (2 / 5))) ∧
    |fl (fl (s * fl (3 / 5)) + fl ((e : ℚ) * fl (2 / 5))) - (s * (3 / 5) + (e : ℚ) * (2 / 5))|
      ≤ 600 / 2 ^ (53 : ℕ) := by
  have he0' : (0 : ℚ) ≤ e := by exact_mod_cast he0
  have he1' : (e : ℚ) ≤ 100 := by exact_mod_cast he1
  obtain ⟨a0, a1, a2⟩ := fl_weighted s (3 / 5) hs0 hs1 (by norm_num) (by norm_num)
  obtain ⟨b0, b1, b2⟩ := fl_weighted (e : ℚ) (2 / 5) he0' he1' (by norm_num) (by norm_num)
  obtain ⟨c0, c2⟩ := fl_add_error _ _ a0 a1 b0 b1
  refine ⟨c0, ?_⟩
  have a2' := abs_le.mp a2
  have b2' := abs_le.mp b2
  have c2' := abs_le.mp c2
  rw [abs_le]
  constructor <;> linarith [a2'.1, a2'.2, b2'.1, b2'.2, c2'.1, c2'.2]

/-- The weighted total of a skills score `s` that is close to `sx`. -/
theorem overallScoreOf_near (s sx : ℚ) (e : ℤ) (hs0 : 0 ≤ s) (hs1 : s ≤ 100) (he0 : 0 ≤ e)
    (he1 : e ≤ 100) (hsx : |s - sx| ≤ 200 / 2 ^ (53 : ℕ)) :
    |fl (fl (s * fl (3 / 5)) + fl ((e : ℚ) * fl (2 / 5))) - (sx * (3 / 5) + (e : ℚ) * (2 / 5))|
      ≤ 800 / 2 ^ (53 : ℕ) := by
  have h := abs_le.mp (overallScoreOf_error s e hs0 hs1 he0 he1).2
  have h' := abs_le.mp hsx
  rw [abs_le]
  constructor <;> linarith [h.1, h.2, h'.1, h'.2]

/-- The weighted total when the exact value keeps clear of the ties. -/
theorem overallScoreOf_eq_of_gap (s sx : ℚ) (e k : ℤ) (hs0 : 0 ≤ s) (hs1 : s ≤ 100)
    (he0 : 0 ≤ e) (he1 : e ≤ 100) (hsx : |s - sx| ≤ 200 / 2 ^ (53 : ℕ))
    (h1 : (k : ℚ) - 1 / 2 + 1 / 2 ^ (40 : ℕ) ≤ sx * (3 / 5) + (e : ℚ) * (2 / 5))
    (h2 : sx * (3 / 5) + (e : ℚ) * (2 / 5) ≤ (k : ℚ) + 1 / 2 - 1 / 2 ^ (40 : ℕ)) :
    overallScoreOf s e = k := by
  have h := abs_le.mp (overallScoreOf_near s sx e hs0 hs1 he0 he1 hsx)
  have hu : (800 : ℚ) / 2 ^ (53 : ℕ) < 1 / 2 ^ (40 : ℕ) := by norm_num
  unfold overallScoreOf
  rw [jsRound_eq_iff]
  constructor <;> linarith [h.1, h.2]

/-- The stored skills percentage when the exact value keeps clear of the ties. -/
theorem jsRound_skillsScoreOf_eq (m n : ℕ) (k : ℤ) (hn : 0 < n) (h : m ≤ n)
    (h1 : (k : ℚ) - 1 / 2 + 1 / 2 ^ (40 : ℕ) ≤ 100 * (m : ℚ) / n)
    (h2 : 100 * (m : ℚ) / n ≤ (k : ℚ) + 1 / 2 - 1 / 2 ^ (40 : ℕ)) :
    jsRound (skillsScoreOf m n) = k := by
  have he := abs_le.mp (skillsScoreOf_error m n hn h)
  have hu : (200 : ℚ) / 2 ^ (53 : ℕ) < 1 / 2 ^ (40 : ℕ) := by norm_num
  rw [jsRound_eq_iff]
  constructor <;> linarith [he.1, he.2]

theorem checkSkills_count_le (text : String) (skills : List String) :
    (checkSkills text skills).skillsMatch ≤ skills.length := by
  rw [checkSkills_eq]
  exact List.length_filter_le _ _

theorem matched_length_le (resume : Resume) (job : Job) :
    (screenResume resume job).matchedKeywords.length ≤ job.skills.length := by
  rw [matched_eq]
  have := List.length_filter_le (fun k => includes (resumeTextOf resume) k)
    (job.skills.map toLowerCase)
  rwa [List.length_map] at this

/-- The skills percentage of line 58 in terms of the returned record. -/
theorem skillsScore_eq (resume : Resume) (job : Job) :
    skillsScoreOf (checkSkills (resumeTextOf resume) (job.skills.map toLowerCase)).skillsMatch
        (job.skills.map toLowerCase).length =
      skillsScoreOf (screenResume resume job).matchedKeywords.length job.skills.length := by
  rw [matched_eq, checkSkills_eq, List.length_map]

/-- The stored `skillsMatch` is the rounding of the skills percentage (line 62). -/
theorem skillsMatch_field (resume : Resume) (job : Job) :
    (screenResume resume job).skillsMatch =
      jsRound (skillsScoreOf (screenResume resume job).matchedKeywords.length
        job.skills.length) := by
  rw [← skillsScore_eq]
  rfl

theorem overallScore_field (resume : Resume) (job : Job) :
    (screenResume resume job).overallScore =
      overallScoreOf (skillsScoreOf (screenResume resume job).matchedKeywords.length
        job.skills.length) (screenResume resume job).experienceMatch := by
  rw [← skillsScore_eq]
  rfl

theorem experienceMatch_field (resume : Resume) (job : Job) :
    (screenResume resume job).experienceMatch =
      experienceMatchOf (screenResume resume job).foundExperience (minExpOf job) := rfl

theorem experienceMatchOf_mem_range (found : ℕ) (minExp : ℚ) :
    0 ≤ experienceMatchOf found minExp ∧ experienceMatchOf found minExp ≤ 100 := by
  unfold experienceMatchOf
  split_ifs with h1 h2
  · constructor <;> norm_num
  · constructor <;> norm_num
  · have hlt : (found : ℚ) < minExp := lt_of_not_ge h2
    have hf : (0 : ℚ) ≤ found := by positivity
    have hpos : 0 < minExp := lt_of_le_of_lt hf hlt
    have hr := fl_ratio_mul ((found : ℚ) / minExp) 100 (by norm_num) (by positivity)
      ((div_le_one hpos).mpr hlt.le)
    push_cast at hr
    exact jsRound_mem_range _ hr.1 hr.2.1

/-- The double experience percentage is within `200 * 2^-53` of the exact one. -/
theorem experiencePercent_error (found : ℕ) (minExp : ℚ) (hlt : (found : ℚ) < minExp) :
    |fl (fl ((found : ℚ) / minExp) * 100) - 100 * (found : ℚ) / minExp| ≤ 200 / 2 ^ (53 : ℕ) := by
  have hf : (0 : ℚ) ≤ found := by positivity
  have hpos : 0 < minExp := lt_of_le_of_lt hf hlt
  have hr := (fl_ratio_mul ((found : ℚ) / minExp) 100 (by norm_num) (by positivity)
    ((div_le_one hpos).mpr hlt.le)).2.2
  push_cast at hr
  have e : 100 * (found : ℚ) / minExp = (found : ℚ) / minExp * 100 := by ring
  rw [e]
  calc _ ≤ 2 * 100 / 2 ^ (53 : ℕ) := hr
    _ = 200 / 2 ^ (53 : ℕ) := by norm_num

/-- C4: the three scores of every screening are integers between 0 and 100. -/
theorem scores_in_range (resume : Resume) (job : Job) :
    (0 ≤ (screenResume resume job).skillsMatch ∧ (screenResume resume job).skillsMatch ≤ 100) ∧
    (0 ≤ (screenResume resume job).experienceMatch ∧
      (screenResume resume job).experienceMatch ≤ 100) ∧
    (0 ≤ (screenResume resume job).overallScore ∧ (screenResume resume job).overallScore ≤ 100) := by
  have hs := skillsScoreOf_mem_range _ _ (matched_length_le resume job)
  have he := experienceMatchOf_mem_range (screenResume resume job).foundExperience (minExpOf job)
  rw [← experienceMatch_field] at he
  refine ⟨?_, he, ?_⟩
  · rw [skillsMatch_field]
    exact jsRound_mem_range _ hs.1 hs.2
  · rw [overallScore_field, overallScoreOf]
    have h0 : (0 : ℚ) ≤ ((screenResume resume job).experienceMatch : ℚ) := by exact_mod_cast he.1
    have h1 : ((screenResume resume job).experienceMatch : ℚ) ≤ 100 := by exact_mod_cast he.2
    obtain ⟨y0, yerr⟩ := overallScoreOf_error _ _ hs.1 hs.2 he.1 he.2
    have yb := abs_le.mp yerr
    have hu : (600 : ℚ) / 2 ^ (53 : ℕ) < 1 / 2 := by norm_num
    unfold jsRound
    constructor
    · apply Int.floor_nonneg.mpr; linarith
    · have : ⌊fl (fl (skillsScoreOf (screenResume resume job).matchedKeywords.length
          job.skills.length * fl (3 / 5)) +
          fl (((screenResume resume job).experienceMatch : ℚ) * fl (2 / 5))) + 1 / 2⌋ < 101 := by
        apply Int.floor_lt.mpr
        push_cast
        linarith [yb.2, hs.2]
      omega

/-- Evaluation of `fl` at a number of binade `e` within half a unit of `m * 2^(e-52)`. -/
theorem fl_eval (x y : ℚ) (e m : ℤ) (h1 : (2 : ℚ) ^ e ≤ x) (h2 : x < (2 : ℚ) ^ (e + 1))
    (h : |x / 2 ^ (e - 52) - m| < 1 / 2) (hy : (m : ℚ) * 2 ^ (e - 52) = y) : fl x = y := by
  rw [fl_eq_of_near x e m h1 h2 h, hy]

/-- The literal `0.6`. -/
theorem fl_three_fifths : fl (3 / 5) = 5404319552844595 / 9007199254740992 :=
  fl_eval _ _ (-1) 5404319552844595 (by norm_num) (by norm_num)
    (by rw [abs_lt]; constructor <;> norm_num) (by norm_num)

/-- The literal `0.4`. -/
theorem fl_two_fifths : fl (2 / 5) = 3602879701896397 / 9007199254740992 :=
  fl_eval _ _ (-2) 7205759403792794 (by norm_num) (by norm_num)
    (by rw [abs_lt]; constructor <;> norm_num) (by norm_num)

/-- The double `(1 / 24) * 100` is `4.166666666666666`. -/
theorem skillsScoreOf_one_twentyfour :
    skillsScoreOf 1 24 = 2345624805922133 / 562949953421312 := by
  have h1 : fl ((1 : ℚ) / 24) = 6004799503160661 / 144115188075855872 :=
    fl_eval _ _ (-5) 6004799503160661 (by norm_num) (by norm_num)
      (by rw [abs_lt]; constructor <;> norm_num) (by norm_num)
  have h2 : fl ((6004799503160661 : ℚ) / 144115188075855872 * 100) =
      2345624805922133 / 562949953421312 :=
    fl_eval _ _ 2 4691249611844266 (by norm_num) (by norm_num)
      (by rw [abs_lt]; constructor <;> norm_num) (by norm_num)
  unfold skillsScoreOf
  rw [if_pos (by norm_num)]
  push_cast
  rw [h1, h2]

/-- The double `4.166666666666666 * 0.6 + 0 * 0.4` is `2.4999999999999996`, which
`Math.round` takes to 2. -/
theorem overallScoreOf_one_twentyfour : overallScoreOf (skillsScoreOf 1 24) 0 = 2 := by
  have h3 : fl ((2345624805922133 : ℚ) / 562949953421312 *
      (5404319552844595 / 9007199254740992)) = 5629499534213119 / 2251799813685248 :=
    fl_eval _ _ 1 5629499534213119 (by norm_num) (by norm_num)
      (by rw [abs_lt]; constructor <;> norm_num) (by norm_num)
  have h4 : fl ((5629499534213119 : ℚ) / 2251799813685248) =
      5629499534213119 / 2251799813685248 :=
    fl_eval _ _ 1 5629499534213119 (by norm_num) (by norm_num)
      (by rw [abs_lt]; constructor <;> norm_num) (by norm_num)
  unfold overallScoreOf
  rw [skillsScoreOf_one_twentyfour, fl_three_fifths, h3]
  simp only [Int.cast_zero, zero_mul, fl_zero, add_zero]
  rw [h4, jsRound_eq_iff]
  norm_num

/-- C1 fails as stated: with 1 of 24 job skills found and an experience sub-score of 0
the exact value `0.6 * 4.1666... + 0.4 * 0` is `2.5`, which rounds to 3, while the code
computes `2.4999999999999996` and returns 2. -/
theorem overallScore_tie_counterexample :
    (screenResume ⟨some "a", []⟩
        ⟨["a", "b", "c", "d", "e", "f", "g", "h", "i", "j", "k", "l", "m", "n", "o", "p",
          "q", "r", "s", "t", "u", "v", "w", "x"], [], some ⟨5, 10⟩⟩).matchedKeywords = ["a"] ∧
    (screenResume ⟨some "a", []⟩
        ⟨["a", "b", "c", "d", "e", "f", "g", "h", "i", "j", "k", "l", "m", "n", "o", "p",
          "q", "r", "s", "t", "u", "v", "w", "x"], [], some ⟨5, 10⟩⟩).experienceMatch = 0 ∧
    (screenResume ⟨some "a", []⟩
        ⟨["a", "b", "c", "d", "e", "f", "g", "h", "i", "j", "k", "l", "m", "n", "o", "p",
          "q", "r", "s", "t", "u", "v", "w", "x"], [], some ⟨5, 10⟩⟩).overallScore = 2 ∧
    round ((3 / 5 : ℚ) * (100 * (1 : ℚ) / 24) + (2 / 5 : ℚ) * 0) = 3 ∧
    ¬ ((screenResume ⟨some "a", []⟩
        ⟨["a", "b", "c", "d", "e", "f", "g", "h", "i", "j", "k", "l", "m", "n", "o", "p",
          "q", "r", "s", "t", "u", "v", "w", "x"], [], some ⟨5, 10⟩⟩).overallScore =
      round ((3 / 5 : ℚ) * (100 * (1 : ℚ) / 24) + (2 / 5 : ℚ) * 0)) := by
  have hm : (screenResume ⟨some "a", []⟩
        ⟨["a", "b", "c", "d", "e", "f", "g", "h", "i", "j", "k", "l", "m", "n", "o", "p",
          "q", "r", "s", "t", "u", "v", "w", "x"], [], some ⟨5, 10⟩⟩).matchedKeywords = ["a"] := by
    rw [matched_eq]
    decide
  have hf : findExperience (resumeTextOf ⟨some "a", []⟩) = 0 := by decide
  have he : (screenResume ⟨some "a", []⟩
        ⟨["a", "b", "c", "d", "e", "f", "g", "h", "i", "j", "k", "l", "m", "n", "o", "p",
          "q", "r", "s", "t", "u", "v", "w", "x"], [], some ⟨5, 10⟩⟩).experienceMatch = 0 := by
    rw [experienceMatch_field]
    simp only [screenResume, hf, minExpOf, experienceMatchOf]
    norm_num [fl_zero, jsRound]
  have ho : (screenResume ⟨some "a", []⟩
        ⟨["a", "b", "c", "d", "e", "f", "g", "h", "i", "j", "k", "l", "m", "n", "o", "p",
          "q", "r", "s", "t", "u", "v", "w", "x"], [], some ⟨5, 10⟩⟩).overallScore = 2 := by
    rw [overallScore_field, he, hm]
    exact overallScoreOf_one_twentyfour
  have hr : round ((3 / 5 : ℚ) * (100 * (1 : ℚ) / 24) + (2 / 5 : ℚ) * 0) = 3 := by
    rw [← jsRound_eq_round, jsRound_eq_iff]; norm_num
  refine ⟨hm, he, ho, hr, ?_⟩
  rw [ho, hr]
  decide

/-- The exact weighted total, plus one half, as a fraction over `10 * n`. -/
theorem exact_total_fraction (m n : ℕ) (e : ℤ) (hn : 0 < n) :
    (3 / 5 : ℚ) * (100 * (m : ℚ) / n) + (2 / 5 : ℚ) * (e : ℚ) + 1 / 2 =
      ((600 * (m : ℤ) + 4 * e * (n : ℤ) + 5 * (n : ℤ) : ℤ) : ℚ) / ((10 * n : ℕ) : ℚ) := by
  have hn' : (n : ℚ) ≠ 0 := by positivity
  push_cast
  field_simp
  ring

/-- C1, as the code has it: the overall score is `Math.round` of the double
`skillsScore * 0.6 + experienceMatch * 0.4`, `skillsScore` being the double
`(matched / |job skills|) * 100` (`0` without job skills).  For a job with fewer than
`2^32` skills it is `round(0.6 * skillsScore + 0.4 * experienceMatch)` of exact
arithmetic, or one less, and it is that value whenever the exact total is not of the
form `k + 1/2`.  The sub-scores `(100,100)`, `(0,0)`, `(50,50)` and `(50,67)` give `100`,
`0`, `50` and `57`. -/
theorem overallScore_formula (resume : Resume) (job : Job) :
    (screenResume resume job).overallScore =
        jsRound (fl (fl ((if job.skills = [] then 0
            else fl (fl (((screenResume resume job).matchedKeywords.length : ℚ) /
                    (job.skills.length : ℚ)) * 100)) * fl (3 / 5)) +
          fl (((screenResume resume job).experienceMatch : ℚ) * fl (2 / 5)))) ∧
      (job.skills.length < 2 ^ 32 →
        ((screenResume resume job).overallScore =
            round ((3 / 5 : ℚ) *
                (if job.skills = [] then 0
                 else 100 * ((screenResume resume job).matchedKeywords.length : ℚ) /
                        (job.skills.length : ℚ)) +
              (2 / 5 : ℚ) * ((screenResume resume job).experienceMatch : ℚ)) ∨
          (screenResume resume job).overallScore =
            round ((3 / 5 : ℚ) *
                (if job.skills = [] then 0
                 else 100 * ((screenResume resume job).matchedKeywords.length : ℚ) /
                        (job.skills.length : ℚ)) +
              (2 / 5 : ℚ) * ((screenResume resume job).experienceMatch : ℚ)) - 1) ∧
        ((∀ k : ℤ, (3 / 5 : ℚ) *
                (if job.skills = [] then 0
                 else 100 * ((screenResume resume job).matchedKeywords.length : ℚ) /
                        (job.skills.length : ℚ)) +
              (2 / 5 : ℚ) * ((screenResume resume job).experienceMatch : ℚ) ≠ k + 1 / 2) →
          (screenResume resume job).overallScore =
            round ((3 / 5 : ℚ) *
                (if job.skills = [] then 0
                 else 100 * ((screenResume resume job).matchedKeywords.length : ℚ) /
                        (job.skills.length : ℚ)) +
              (2 / 5 : ℚ) * ((screenResume resume job).experienceMatch : ℚ)))) ∧
      overallScoreOf 100 100 = 100 ∧ overallScoreOf 0 0 = 0 ∧
      overallScoreOf 50 50 = 50 ∧ overallScoreOf 50 67 = 57 := by
  have hE := (scores_in_range resume job).2.1
  have hmn := matched_length_le resume job
  have hS := skillsScoreOf_mem_range _ _ hmn
  refine ⟨?_, ?_, ?_, ?_, ?_, ?_⟩
  · rw [overallScore_field]
    unfold overallScoreOf skillsScoreOf
    by_cases hj : job.skills = []
    · simp [hj]
    · have hpos : 0 < job.skills.length := List.length_pos.mpr hj
      rw [if_pos hpos, if_neg hj]
  · intro hb
    rw [overallScore_field]
    simp only [← jsRound_eq_round]
    by_cases hj : job.skills = []
    · have hlen : job.skills.length = 0 := by simp [hj]
      have hS0 : skillsScoreOf (screenResume resume job).matchedKeywords.length
          job.skills.length = 0 := by simp [skillsScoreOf, hlen]
      rw [hS0]
      simp only [hj, if_true]
      have herr := (overallScoreOf_error 0 (screenResume resume job).experienceMatch
        (le_refl _) (by norm_num) hE.1 hE.2).2
      have hX : (3 / 5 : ℚ) * 0 + (2 / 5 : ℚ) * ((screenResume resume job).experienceMatch : ℚ)
          + 1 / 2 = ((4 * (screenResume resume job).experienceMatch + 5 : ℤ) : ℚ) /
            ((10 : ℕ) : ℚ) := by push_cast; ring
      have hlt : |fl (fl (0 * fl (3 / 5)) +
          fl (((screenResume resume job).experienceMatch : ℚ) * fl (2 / 5))) -
          ((3 / 5 : ℚ) * 0 + (2 / 5 : ℚ) * ((screenResume resume job).experienceMatch : ℚ))|
          < 1 / ((10 : ℕ) : ℚ) := by
        have : (0 : ℚ) * (3 / 5) + ((screenResume resume job).experienceMatch : ℚ) * (2 / 5) =
            (3 / 5 : ℚ) * 0 + (2 / 5 : ℚ) * ((screenResume resume job).experienceMatch : ℚ) := by
          ring
        rw [this] at herr
        refine lt_of_le_of_lt herr ?_
        norm_num
      exact jsRound_near _ _ 10 _ (by norm_num) hX hlt
    · have hpos : 0 < job.skills.length := List.length_pos.mpr hj
      simp only [hj, if_false]
      have hsx := skillsScoreOf_error _ _ hpos hmn
      have herr := overallScoreOf_near _ _ (screenResume resume job).experienceMatch
        hS.1 hS.2 hE.1 hE.2 hsx
      have hX := exact_total_fraction (screenResume resume job).matchedKeywords.length
        job.skills.length (screenResume resume job).experienceMatch hpos
      have hlt : |fl (fl (skillsScoreOf (screenResume resume job).matchedKeywords.length
            job.skills.length * fl (3 / 5)) +
          fl (((screenResume resume job).experienceMatch : ℚ) * fl (2 / 5))) -
          ((3 / 5 : ℚ) * (100 * ((screenResume resume job).matchedKeywords.length : ℚ) /
              (job.skills.length : ℚ)) +
            (2 / 5 : ℚ) * ((screenResume resume job).experienceMatch : ℚ))|
          < 1 / ((10 * job.skills.length : ℕ) : ℚ) := by
        have : 100 * ((screenResume resume job).matchedKeywords.length : ℚ) /
              (job.skills.length : ℚ) * (3 / 5) +
            ((screenResume resume job).experienceMatch : ℚ) * (2 / 5) =
            (3 / 5 : ℚ) * (100 * ((screenResume resume job).matchedKeywords.length : ℚ) /
              (job.skills.length : ℚ)) +
            (2 / 5 : ℚ) * ((screenResume resume job).experienceMatch : ℚ) := by ring
        rw [this] at herr
        refine lt_of_le_of_lt herr ?_
        have hnq : ((10 * job.skills.length : ℕ) : ℚ) < 10 * 2 ^ (32 : ℕ) := by
          have : 10 * job.skills.length < 10 * 2 ^ 32 := by omega
          exact_mod_cast this
        have hdpos : (0 : ℚ) < ((10 * job.skills.length : ℕ) : ℚ) := by
          have : 0 < 10 * job.skills.length := by omega
          exact_mod_cast this
        rw [lt_div_iff₀ hdpos]
        calc (800 : ℚ) / 2 ^ (53 : ℕ) * ((10 * job.skills.length : ℕ) : ℚ)
            < 800 / 2 ^ (53 : ℕ) * (10 * 2 ^ (32 : ℕ)) :=
              mul_lt_mul_of_pos_left hnq (by norm_num)
          _ < 1 := by norm_num
      exact jsRound_near _ _ (10 * job.skills.length) _ (by omega) hX hlt
  · exact overallScoreOf_eq_of_gap 100 100 100 100 (by norm_num) (by norm_num) (by norm_num)
      (by norm_num) (by norm_num) (by norm_num) (by norm_num)
  · exact overallScoreOf_eq_of_gap 0 0 0 0 (by norm_num) (by norm_num) (by norm_num)
      (by norm_num) (by norm_num) (by norm_num) (by norm_num)
  · exact overallScoreOf_eq_of_gap 50 50 50 50 (by norm_num) (by norm_num) (by norm_num)
      (by norm_num) (by norm_num) (by norm_num) (by norm_num)
  · exact overallScoreOf_eq_of_gap 50 50 67 57 (by norm_num) (by norm_num) (by norm_num)
      (by norm_num) (by norm_num) (by norm_num) (by norm_num)

/-- A use of `overallScore_formula`: one of seven job skills found, no experience floor;
the exact total `48.57...` is no tie and the score is 49. -/
theorem overallScore_formula_witness :
    (["b", "c", "d", "e", "f", "g", "a"] : List String).length < 2 ^ 32 ∧
    (∀ k : ℤ, (3 / 5 : ℚ) *
        (if (["b", "c", "d", "e", "f", "g", "a"] : List String) = [] then 0
         else 100 * ((screenResume ⟨some "a", []⟩
            ⟨["b", "c", "d", "e", "f", "g", "a"], [], none⟩).matchedKeywords.length : ℚ) /
              ((["b", "c", "d", "e", "f", "g", "a"] : List String).length : ℚ)) +
        (2 / 5 : ℚ) * ((screenResume ⟨some "a", []⟩
            ⟨["b", "c", "d", "e", "f", "g", "a"], [], none⟩).experienceMatch : ℚ) ≠ k + 1 / 2) ∧
    (screenResume ⟨some "a", []⟩ ⟨["b", "c", "d", "e", "f", "g", "a"], [], none⟩).overallScore =
      round ((3 / 5 : ℚ) *
        (if (["b", "c", "d", "e", "f", "g", "a"] : List String) = [] then 0
         else 100 * ((screenResume ⟨some "a", []⟩
            ⟨["b", "c", "d", "e", "f", "g", "a"], [], none⟩).matchedKeywords.length : ℚ) /
              ((["b", "c", "d", "e", "f", "g", "a"] : List String).length : ℚ)) +
        (2 / 5 : ℚ) * ((screenResume ⟨some "a", []⟩
            ⟨["b", "c", "d", "e", "f", "g", "a"], [], none⟩).experienceMatch : ℚ)) := by
  have hm : (screenResume ⟨some "a", []⟩
      ⟨["b", "c", "d", "e", "f", "g", "a"], [], none⟩).matchedKeywords = ["a"] := by
    rw [matched_eq]; decide
  have he : (screenResume ⟨some "a", []⟩
      ⟨["b", "c", "d", "e", "f", "g", "a"], [], none⟩).experienceMatch = 100 := by
    simp [screenResume, minExpOf, experienceMatchOf]
  have hno : ∀ k : ℤ, (3 / 5 : ℚ) *
        (if (["b", "c", "d", "e", "f", "g", "a"] : List String) = [] then 0
         else 100 * ((screenResume ⟨some "a", []⟩
            ⟨["b", "c", "d", "e", "f", "g", "a"], [], none⟩).matchedKeywords.length : ℚ) /
              ((["b", "c", "d", "e", "f", "g", "a"] : List String).length : ℚ)) +
        (2 / 5 : ℚ) * ((screenResume ⟨some "a", []⟩
            ⟨["b", "c", "d", "e", "f", "g", "a"], [], none⟩).experienceMatch : ℚ) ≠ k + 1 / 2 := by
    intro k hk
    rw [hm, he] at hk
    simp only [List.length_cons, List.length_nil, if_neg (List.cons_ne_nil _ _)] at hk
    have h2 : ((680 : ℤ) : ℚ) = ((14 * k + 7 : ℤ) : ℚ) := by
      push_cast at hk ⊢
      linarith
    have := Int.cast_injective h2
    omega
  exact ⟨by decide, hno,
    ((overallScore_formula ⟨some "a", []⟩ ⟨["b", "c", "d", "e", "f", "g", "a"], [], none⟩).2.1
      (by decide)).2 hno⟩

theorem round_sub_round_le (x y : ℚ) (h : |x - y| < 1) : |round x - round y| ≤ 1 := by
  rw [round_eq, round_eq]
  have hx1 := Int.floor_le (x + 1 / 2)
  have hx2 := Int.lt_floor_add_one (x + 1 / 2)
  have hy1 := Int.floor_le (y + 1 / 2)
  have hy2 := Int.lt_floor_add_one (y + 1 / 2)
  obtain ⟨h1, h2⟩ := abs_lt.mp h
  rw [abs_le]
  constructor
  · have : ((-2 : ℤ) : ℚ) < ((⌊x + 1 / 2⌋ - ⌊y + 1 / 2⌋ : ℤ) : ℚ) := by
      push_cast; linarith
    have := Int.cast_lt.mp this
    omega
  · have : ((⌊x + 1 / 2⌋ - ⌊y + 1 / 2⌋ : ℤ) : ℚ) < ((2 : ℤ) : ℚ) := by
      push_cast; linarith
    have := Int.cast_lt.mp this
    omega

/-- A total `(3 * j + 2 * e) / 5` of whole numbers is never of the form `k + 1/2`. -/
theorem stored_total_no_tie (j e k : ℤ) :
    (j : ℚ) * (3 / 5) + (e : ℚ) * (2 / 5) ≠ k + 1 / 2 := by
  intro h
  have h2 : ((6 * j + 4 * e : ℤ) : ℚ) = ((10 * k + 5 : ℤ) : ℚ) := by
    push_cast
    linarith
  have := Int.cast_injective h2
  omega

/-- C2, as the code has it: the overall score is computed from the unrounded skills
percentage, whose rounding is the stored `skillsMatch`; it is within 1 of
`round(skillsMatch * 0.6 + experienceMatch * 0.4)` over the stored fields, and equal to
it whenever `100 * matched / |job skills|` is a whole number. -/
theorem overallScore_vs_stored_fields (resume : Resume) (job : Job) :
    (screenResume resume job).overallScore =
        overallScoreOf
          (skillsScoreOf (screenResume resume job).matchedKeywords.length job.skills.length)
          (screenResume resume job).experienceMatch ∧
    (screenResume resume job).skillsMatch =
        jsRound
          (skillsScoreOf (screenResume resume job).matchedKeywords.length job.skills.length) ∧
      |(screenResume resume job).overallScore -
          round (((screenResume resume job).skillsMatch : ℚ) * (3 / 5) +
                 ((screenResume resume job).experienceMatch : ℚ) * (2 / 5))| ≤ 1 ∧
      ((job.skills.length : ℤ) ∣ 100 * ((screenResume resume job).matchedKeywords.length : ℤ) →
        (screenResume resume job).overallScore =
          round (((screenResume resume job).skillsMatch : ℚ) * (3 / 5) +
                 ((screenResume resume job).experienceMatch : ℚ) * (2 / 5))) := by
  have hE := (scores_in_range resume job).2.1
  have hmn := matched_length_le resume job
  have hS := skillsScoreOf_mem_range _ _ hmn
  have hsm := skillsMatch_field resume job
  have hov := overallScore_field resume job
  refine ⟨hov, hsm, ?_, ?_⟩
  · rw [hov, hsm]
    generalize skillsScoreOf (screenResume resume job).matchedKeywords.length
      job.skills.length = sc at hS
    have herr := abs_le.mp (overallScoreOf_error sc _ hS.1 hS.2 hE.1 hE.2).2
    have hr := abs_le.mp (abs_sub_round sc)
    unfold overallScoreOf
    rw [jsRound_eq_round, jsRound_eq_round]
    apply round_sub_round_le
    have hu : (600 : ℚ) / 2 ^ (53 : ℕ) < 1 / 10 := by norm_num
    rw [abs_lt]
    constructor <;> linarith [herr.1, herr.2, hr.1, hr.2]
  · intro hdvd
    obtain ⟨j, hj⟩ : ∃ j : ℤ, |skillsScoreOf (screenResume resume job).matchedKeywords.length
        job.skills.length - (j : ℚ)| ≤ 200 / 2 ^ (53 : ℕ) := by
      by_cases hn : job.skills.length = 0
      · exact ⟨0, by simp only [skillsScoreOf, hn, gt_iff_lt, lt_self_iff_false, if_false, Int.cast_zero, sub_zero, abs_zero]; positivity⟩
      · have hpos : 0 < job.skills.length := Nat.pos_of_ne_zero hn
        obtain ⟨j, hj⟩ := hdvd
        refine ⟨j, ?_⟩
        have hposq : (0 : ℚ) < (job.skills.length : ℚ) := by exact_mod_cast hpos
        have hq : 100 * ((screenResume resume job).matchedKeywords.length : ℚ) /
            (job.skills.length : ℚ) = (j : ℚ) := by
          rw [div_eq_iff hposq.ne']
          have : ((100 * ((screenResume resume job).matchedKeywords.length : ℤ) : ℤ) : ℚ) =
              (((job.skills.length : ℤ) * j : ℤ) : ℚ) := by rw [hj]
          push_cast at this
          linarith
        rw [← hq]
        exact skillsScoreOf_error _ _ hpos hmn
    have hjr : jsRound (skillsScoreOf (screenResume resume job).matchedKeywords.length
        job.skills.length) = j := by
      have hb := abs_le.mp hj
      have hu : (200 : ℚ) / 2 ^ (53 : ℕ) < 1 / 2 := by norm_num
      rw [jsRound_eq_iff]
      constructor <;> linarith [hb.1, hb.2]
    rw [hov, hsm, hjr]
    have herr := overallScoreOf_near _ (j : ℚ) _ hS.1 hS.2 hE.1 hE.2 hj
    have hX : (j : ℚ) * (3 / 5) + ((screenResume resume job).experienceMatch : ℚ) * (2 / 5)
        + 1 / 2 = ((6 * j + 4 * (screenResume resume job).experienceMatch + 5 : ℤ) : ℚ) /
          ((10 : ℕ) : ℚ) := by push_cast; ring
    have hlt := lt_of_le_of_lt herr
      (show (800 : ℚ) / 2 ^ (53 : ℕ) < 1 / ((10 : ℕ) : ℚ) by norm_num)
    rw [← jsRound_eq_round]
    exact (jsRound_near _ _ 10 _ (by norm_num) hX hlt).2 (stored_total_no_tie j _)

/-- C2 fails as stated: with one of seven job skills found and no experience floor the
record holds `skillsMatch = 14`, `experienceMatch = 100` and `overallScore = 49`, while
`round(14 * 0.6 + 100 * 0.4) = 48`. -/
theorem overallScore_stored_fields_counterexample :
    (screenResume ⟨some "a", []⟩ ⟨["b", "c", "d", "e", "f", "g", "a"], [], none⟩).skillsMatch = 14 ∧
    (screenResume ⟨some "a", []⟩ ⟨["b", "c", "d", "e", "f", "g", "a"], [], none⟩).experienceMatch = 100 ∧
    (screenResume ⟨some "a", []⟩ ⟨["b", "c", "d", "e", "f", "g", "a"], [], none⟩).overallScore = 49 ∧
    ¬ ((screenResume ⟨some "a", []⟩
          ⟨["b", "c", "d", "e", "f", "g", "a"], [], none⟩).overallScore =
        round (((screenResume ⟨some "a", []⟩
                  ⟨["b", "c", "d", "e", "f", "g", "a"], [], none⟩).skillsMatch : ℚ) * (3 / 5) +
               ((screenResume ⟨some "a", []⟩
                  ⟨["b", "c", "d", "e", "f", "g", "a"], [], none⟩).experienceMatch : ℚ) * (2 / 5))) := by
  have hm : (screenResume ⟨some "a", []⟩
      ⟨["b", "c", "d", "e", "f", "g", "a"], [], none⟩).matchedKeywords = ["a"] := by
    rw [matched_eq]; decide
  have h1 : (screenResume ⟨some "a", []⟩
      ⟨["b", "c", "d", "e", "f", "g", "a"], [], none⟩).skillsMatch = 14 := by
    rw [skillsMatch_field, hm]
    exact jsRound_skillsScoreOf_eq 1 7 14 (by norm_num) (by norm_num) (by norm_num)
      (by norm_num)
  have h2 : (screenResume ⟨some "a", []⟩
      ⟨["b", "c", "d", "e", "f", "g", "a"], [], none⟩).experienceMatch = 100 := by
    simp [screenResume, minExpOf, experienceMatchOf]
  have h3 : (screenResume ⟨some "a", []⟩
      ⟨["b", "c", "d", "e", "f", "g", "a"], [], none⟩).overallScore = 49 := by
    rw [overallScore_field, h2, hm]
    exact overallScoreOf_eq_of_gap _ (100 * (1 : ℕ) / (7 : ℕ)) 100 49
      (skillsScoreOf_mem_range 1 7 (by norm_num)).1 (skillsScoreOf_mem_range 1 7 (by norm_num)).2
      (by norm_num) (by norm_num) (skillsScoreOf_error 1 7 (by norm_num) (by norm_num))
      (by norm_num) (by norm_num)
  refine ⟨h1, h2, h3, ?_⟩
  rw [h1, h2, h3]
  have : round ((14 : ℤ) * (3 / 5 : ℚ) + (100 : ℤ) * (2 / 5)) = 48 := by
    rw [← jsRound_eq_round, jsRound_eq_iff]; norm_num
  rw [this]
  decide

/-- A use of `overallScore_vs_stored_fields`: one of two job skills found. -/
theorem overallScore_vs_stored_fields_witness :
    ((["a", "b"].length : ℤ) ∣
        100 * ((screenResume ⟨some "a", []⟩ ⟨["a", "b"], [], none⟩).matchedKeywords.length : ℤ)) ∧
      (screenResume ⟨some "a", []⟩ ⟨["a", "b"], [], none⟩).overallScore =
        round (((screenResume ⟨some "a", []⟩ ⟨["a", "b"], [], none⟩).skillsMatch : ℚ) * (3 / 5) +
               ((screenResume ⟨some "a", []⟩ ⟨["a", "b"], [], none⟩).experienceMatch : ℚ) *
                 (2 / 5)) :=
  ⟨by decide, (overallScore_vs_stored_fields ⟨some "a", []⟩ ⟨["a", "b"], [], none⟩).2.2.2 (by decide)⟩

theorem round_sub_round_of_close (x y : ℚ) (h : |x - y| < 1) : |jsRound x - round y| ≤ 1 := by
  rw [jsRound_eq_round]
  exact round_sub_round_le x y h

/-- C3, as the code has it: the experience sub-score is `100` when the job has no
minimum (absent or `0`), `100` when the found experience reaches the minimum, otherwise
`Math.round` of the double `(foundExperience / min) * 100`; this last value is within 1
of `round(100 * foundExperience / min)` of exact arithmetic and, for a whole minimum
below `2^32`, it is that value or one less, and that value whenever
`100 * foundExperience / min` is not of the form `k + 1/2`.  The maximum has no
influence. -/
theorem experienceMatch_policy (resume : Resume) (job : Job) :
    (screenResume resume job).experienceMatch =
        (match job.experience with
         | none => 100
         | some band =>
           if band.min = 0 then 100
           else if band.min ≤ ((screenResume resume job).foundExperience : ℚ) then 100
           else jsRound (fl (fl (((screenResume resume job).foundExperience : ℚ) / band.min)
                  * 100))) ∧
      (∀ band, job.experience = some band →
        ((screenResume resume job).foundExperience : ℚ) < band.min →
        |(screenResume resume job).experienceMatch -
          round ((100 : ℚ) * ((screenResume resume job).foundExperience : ℚ) / band.min)| ≤ 1) ∧
      (∀ band (n : ℕ), job.experience = some band → band.min = (n : ℚ) → n < 2 ^ 32 →
        (screenResume resume job).foundExperience < n →
        ((screenResume resume job).experienceMatch =
            round ((100 : ℚ) * ((screenResume resume job).foundExperience : ℚ) / (n : ℚ)) ∨
          (screenResume resume job).experienceMatch =
            round ((100 : ℚ) * ((screenResume resume job).foundExperience : ℚ) / (n : ℚ)) - 1) ∧
        ((∀ k : ℤ, (100 : ℚ) * ((screenResume resume job).foundExperience : ℚ) / (n : ℚ) ≠
            k + 1 / 2) →
          (screenResume resume job).experienceMatch =
            round ((100 : ℚ) * ((screenResume resume job).foundExperience : ℚ) / (n : ℚ)))) ∧
      (∀ (skills requirements : List String) (min max max' : ℚ),
        (screenResume resume ⟨skills, requirements, some ⟨min, max⟩⟩).experienceMatch =
          (screenResume resume ⟨skills, requirements, some ⟨min, max'⟩⟩).experienceMatch) := by
  have hbranch : ∀ band, job.experience = some band →
      ((screenResume resume job).foundExperience : ℚ) < band.min →
      (screenResume resume job).experienceMatch =
        jsRound (fl (fl (((screenResume resume job).foundExperience : ℚ) / band.min) * 100)) := by
    intro band hb hlt
    have hpos : (0 : ℚ) < band.min :=
      lt_of_le_of_lt (by positivity) hlt
    rw [experienceMatch_field]
    unfold experienceMatchOf minExpOf
    simp only [hb]
    rw [if_neg hpos.ne', if_neg (not_le.mpr hlt)]
  refine ⟨?_, ?_, ?_, ?_⟩
  · rw [experienceMatch_field]
    unfold experienceMatchOf minExpOf
    cases hexp : job.experience with
    | none => simp
    | some band =>
      simp only [ge_iff_le]
  · intro band hb hlt
    rw [hbranch band hb hlt]
    apply round_sub_round_of_close
    have herr := experiencePercent_error _ _ hlt
    exact lt_of_le_of_lt herr (by norm_num)
  · intro band n hb hn hbound hlt
    have hltq : ((screenResume resume job).foundExperience : ℚ) < band.min := by
      rw [hn]; exact_mod_cast hlt
    rw [hbranch band hb hltq, hn]
    simp only [← jsRound_eq_round]
    have hnpos : 0 < n := by omega
    have hnq : (0 : ℚ) < (n : ℚ) := by exact_mod_cast hnpos
    have herr := experiencePercent_error (screenResume resume job).foundExperience (n : ℚ)
      (by exact_mod_cast hlt)
    have hX : (100 : ℚ) * ((screenResume resume job).foundExperience : ℚ) / (n : ℚ) + 1 / 2 =
        ((200 * ((screenResume resume job).foundExperience : ℤ) + (n : ℤ) : ℤ) : ℚ) /
          ((2 * n : ℕ) : ℚ) := by
      push_cast
      field_simp
      ring
    have hdpos : (0 : ℚ) < ((2 * n : ℕ) : ℚ) := by
      have : 0 < 2 * n := by omega
      exact_mod_cast this
    have hlt2 : |fl (fl (((screenResume resume job).foundExperience : ℚ) / (n : ℚ)) * 100) -
        (100 : ℚ) * ((screenResume resume job).foundExperience : ℚ) / (n : ℚ)| <
        1 / ((2 * n : ℕ) : ℚ) := by
      refine lt_of_le_of_lt herr ?_
      have hnb : ((2 * n : ℕ) : ℚ) < 2 * 2 ^ (32 : ℕ) := by
        have : 2 * n < 2 * 2 ^ 32 := by omega
        exact_mod_cast this
      rw [lt_div_iff₀ hdpos]
      calc (200 : ℚ) / 2 ^ (53 : ℕ) * ((2 * n : ℕ) : ℚ)
          < 200 / 2 ^ (53 : ℕ) * (2 * 2 ^ (32 : ℕ)) := mul_lt_mul_of_pos_left hnb (by norm_num)
        _ < 1 := by norm_num
    exact jsRound_near _ _ (2 * n) _ (by omega) hX hlt2
  · intro skills requirements min max max'
    rfl

/-- C3 fails as stated: for a text with `23 years` and a minimum of 40 the exact value
`100 * 23 / 40` is `57.5`, which rounds to 58, while the code computes
`57.49999999999999` and returns 57. -/
theorem experienceMatch_tie_counterexample :
    (screenResume ⟨some "23 years", []⟩ ⟨[], [], some ⟨40, 50⟩⟩).foundExperience = 23 ∧
    (screenResume ⟨some "23 years", []⟩ ⟨[], [], some ⟨40, 50⟩⟩).experienceMatch = 57 ∧
    round ((100 : ℚ) * 23 / 40) = 58 ∧
    ¬ ((screenResume ⟨some "23 years", []⟩ ⟨[], [], some ⟨40, 50⟩⟩).experienceMatch =
      round ((100 : ℚ) *
        ((screenResume ⟨some "23 years", []⟩ ⟨[], [], some ⟨40, 50⟩⟩).foundExperience : ℚ) /
          40)) := by
  have hf : (screenResume ⟨some "23 years", []⟩ ⟨[], [], some ⟨40, 50⟩⟩).foundExperience = 23 := by
    decide
  have h1 : fl ((23 : ℚ) / 40) = 2589569785738035 / 4503599627370496 :=
    fl_eval _ _ (-1) 5179139571476070 (by norm_num) (by norm_num)
      (by rw [abs_lt]; constructor <;> norm_num) (by norm_num)
  have h2 : fl ((2589569785738035 : ℚ) / 4503599627370496 * 100) =
      8092405580431359 / 140737488355328 :=
    fl_eval _ _ 5 8092405580431359 (by norm_num) (by norm_num)
      (by rw [abs_lt]; constructor <;> norm_num) (by norm_num)
  have he : (screenResume ⟨some "23 years", []⟩ ⟨[], [], some ⟨40, 50⟩⟩).experienceMatch = 57 := by
    rw [experienceMatch_field, hf]
    simp only [minExpOf, experienceMatchOf]
    rw [if_neg (by norm_num), if_neg (by norm_num)]
    push_cast
    rw [h1, h2, jsRound_eq_iff]
    norm_num
  have hr : round ((100 : ℚ) * 23 / 40) = 58 := by
    rw [← jsRound_eq_round, jsRound_eq_iff]; norm_num
  refine ⟨hf, he, hr, ?_⟩
  rw [he, hf]
  push_cast
  rw [hr]
  decide

/-- A use of `experienceMatch_policy`: `3 years` against a minimum of 5 gives 60. -/
theorem experienceMatch_policy_witness :
    (screenResume ⟨some "3 years", []⟩ ⟨[], [], some ⟨5, 8⟩⟩).foundExperience < 5 ∧
    (∀ k : ℤ, (100 : ℚ) *
      ((screenResume ⟨some "3 years", []⟩ ⟨[], [], some ⟨5, 8⟩⟩).foundExperience : ℚ) /
        ((5 : ℕ) : ℚ) ≠ k + 1 / 2) ∧
    (screenResume ⟨some "3 years", []⟩ ⟨[], [], some ⟨5, 8⟩⟩).experienceMatch =
      round ((100 : ℚ) *
        ((screenResume ⟨some "3 years", []⟩ ⟨[], [], some ⟨5, 8⟩⟩).foundExperience : ℚ) /
          ((5 : ℕ) : ℚ)) := by
  have hf : (screenResume ⟨some "3 years", []⟩ ⟨[], [], some ⟨5, 8⟩⟩).foundExperience = 3 := by
    decide
  have hno : ∀ k : ℤ, (100 : ℚ) *
      ((screenResume ⟨some "3 years", []⟩ ⟨[], [], some ⟨5, 8⟩⟩).foundExperience : ℚ) /
        ((5 : ℕ) : ℚ) ≠ k + 1 / 2 := by
    intro k hk
    rw [hf] at hk
    have h2 : ((120 : ℤ) : ℚ) = ((2 * k + 1 : ℤ) : ℚ) := by
      push_cast at hk ⊢
      linarith
    have := Int.cast_injective h2
    omega
  exact ⟨by rw [hf]; decide, hno,
    ((experienceMatch_policy ⟨some "3 years", []⟩ ⟨[], [], some ⟨5, 8⟩⟩).2.2.1 ⟨5, 8⟩ 5 rfl
      (by norm_num) (by norm_num) (by rw [hf]; decide)).2 hno⟩

theorem matched_add_missing_length (resume : Resume) (job : Job) :
    (screenResume resume job).matchedKeywords.length +
      (screenResume resume job).missingKeywords.length = job.skills.length := by
  rw [matched_eq, missing_eq]
  have h := List.length_eq_length_filter_add (l := job.skills.map toLowerCase)
    (fun k => includes (resumeTextOf resume) k)
  simp only [List.length_map] at h
  rw [h]

/-- The double `(199 / 200) * 100` is `99.5`. -/
theorem percent_199_200 : fl (fl ((199 : ℚ) / 200) * 100) = 199 / 2 := by
  have h1 : fl ((199 : ℚ) / 200) = 8962163258467287 / 9007199254740992 :=
    fl_eval _ _ (-1) 8962163258467287 (by norm_num) (by norm_num)
      (by rw [abs_lt]; constructor <;> norm_num) (by norm_num)
  have h2 : fl ((8962163258467287 : ℚ) / 9007199254740992 * 100) = 199 / 2 :=
    fl_eval _ _ 6 7001690045677568 (by norm_num) (by norm_num)
      (by rw [abs_lt]; constructor <;> norm_num) (by norm_num)
  rw [h1, h2]

/-- The double skills percentage reaches `99.5` exactly when the exact one does. -/
theorem skillsScoreOf_ge_iff (m n : ℕ) (hn : 0 < n) (h : m ≤ n) (hb : n < 2 ^ 32) :
    (199 / 2 : ℚ) ≤ skillsScoreOf m n ↔ 199 * n ≤ 200 * m := by
  have hnq : (0 : ℚ) < (n : ℚ) := by exact_mod_cast hn
  constructor
  · intro hge
    by_contra hlt
    have hlt' : 200 * m + 1 ≤ 199 * n := by omega
    have hq : (200 * (m : ℚ) + 1) ≤ 199 * (n : ℚ) := by exact_mod_cast hlt'
    have hx : 100 * (m : ℚ) / n ≤ 199 / 2 - 1 / (2 * (n : ℚ)) := by
      rw [div_le_iff₀ hnq]
      have : (199 / 2 - 1 / (2 * (n : ℚ))) * n = 199 / 2 * n - 1 / 2 := by
        field_simp
        ring
      rw [this]
      linarith
    have herr := abs_le.mp (skillsScoreOf_error m n hn h)
    have hsmall : (200 : ℚ) / 2 ^ (53 : ℕ) < 1 / (2 * (n : ℚ)) := by
      have hnb : (n : ℚ) < 2 ^ (32 : ℕ) := by exact_mod_cast hb
      rw [lt_div_iff₀ (by positivity)]
      calc (200 : ℚ) / 2 ^ (53 : ℕ) * (2 * (n : ℚ))
          < 200 / 2 ^ (53 : ℕ) * (2 * 2 ^ (32 : ℕ)) := by
            apply mul_lt_mul_of_pos_left _ (by norm_num)
            linarith
        _ < 1 := by norm_num
    linarith [herr.2]
  · intro hle
    have hq : (199 : ℚ) * n ≤ 200 * m := by exact_mod_cast hle
    have hx : (199 : ℚ) / 200 ≤ (m : ℚ) / n := by
      rw [le_div_iff₀ hnq]
      linarith
    have h1 : fl ((199 : ℚ) / 200) ≤ fl ((m : ℚ) / n) := fl_mono (by norm_num) hx
    have h0 : (0 : ℚ) ≤ fl ((199 : ℚ) / 200) := fl_nonneg (by norm_num)
    have h2 : fl (fl ((199 : ℚ) / 200) * 100) ≤ fl (fl ((m : ℚ) / n) * 100) :=
      fl_mono (by positivity) (by linarith)
    rw [percent_199_200] at h2
    unfold skillsScoreOf
    rwa [if_pos hn]

theorem skillsMatch_eq_hundred_iff (resume : Resume) (job : Job)
    (hb : job.skills.length < 2 ^ 32) :
    (screenResume resume job).skillsMatch = 100 ↔
      job.skills ≠ [] ∧
        200 * (screenResume resume job).missingKeywords.length ≤ job.skills.length := by
  have hlen := matched_add_missing_length resume job
  have hmn := matched_length_le resume job
  have hS := skillsScoreOf_mem_range _ _ hmn
  rw [skillsMatch_field, jsRound_eq_iff]
  by_cases hj : job.skills = []
  · have h0 : job.skills.length = 0 := by simp [hj]
    have : skillsScoreOf (screenResume resume job).matchedKeywords.length job.skills.length = 0 := by
      simp [skillsScoreOf, h0]
    rw [this]
    simp only [hj, ne_eq, not_true_eq_false, false_and, iff_false]
    norm_num
  · have hpos : 0 < job.skills.length := List.length_pos.mpr hj
    have hiff := skillsScoreOf_ge_iff _ _ hpos hmn hb
    simp only [hj, ne_eq, not_false_eq_true, true_and]
    constructor
    · rintro ⟨h1, _⟩
      have := hiff.mp (by push_cast at h1 ⊢; linarith)
      omega
    · intro h
      have := hiff.mpr (by omega)
      constructor
      · push_cast; linarith
      · push_cast; linarith [hS.2]

/-- C5, as the code has it: `skillsMatch = 100` exactly when the job lists skills and
at most one in 200 of them is missing (the percentage is rounded), for a skill list of
fewer than `2^32` entries, as every array has; for a job with fewer than 200 skills this
is exactly when the job lists skills and none is missing. -/
theorem skillsMatch_hundred_iff (resume : Resume) (job : Job) :
    (job.skills.length < 2 ^ 32 →
      ((screenResume resume job).skillsMatch = 100 ↔
        job.skills ≠ [] ∧
          200 * (screenResume resume job).missingKeywords.length ≤ job.skills.length)) ∧
      (job.skills.length < 200 →
        ((screenResume resume job).skillsMatch = 100 ↔
          job.skills ≠ [] ∧ (screenResume resume job).missingKeywords = [])) := by
  refine ⟨skillsMatch_eq_hundred_iff resume job, fun hlt => ?_⟩
  rw [skillsMatch_eq_hundred_iff resume job (by omega)]
  constructor
  · rintro ⟨h1, h2⟩
    refine ⟨h1, List.length_eq_zero.mp ?_⟩
    omega
  · rintro ⟨h1, h2⟩
    exact ⟨h1, by simp [h2]⟩

/-- A use of `skillsMatch_hundred_iff`: a job with two skills. -/
theorem skillsMatch_hundred_iff_witness :
    (["a", "b"].length < 200) ∧
      ((screenResume ⟨some "a b", []⟩ ⟨["a", "b"], [], none⟩).skillsMatch = 100 ↔
        (["a", "b"] : List String) ≠ [] ∧
          (screenResume ⟨some "a b", []⟩ ⟨["a", "b"], [], none⟩).missingKeywords = []) :=
  ⟨by decide, (skillsMatch_hundred_iff ⟨some "a b", []⟩ ⟨["a", "b"], [], none⟩).2 (by decide)⟩

/-- C5 fails as stated: with 199 of 200 job skills found, `skillsMatch` is
`round(99.5) = 100` although one skill is missing. -/
theorem skillsMatch_hundred_counterexample :
    (screenResume ⟨some "a", []⟩ ⟨List.replicate 199 "a" ++ ["b"], [], none⟩).skillsMatch = 100 ∧
    (screenResume ⟨some "a", []⟩ ⟨List.replicate 199 "a" ++ ["b"], [], none⟩).missingKeywords
      = ["b"] ∧
    ¬ ((screenResume ⟨some "a", []⟩ ⟨List.replicate 199 "a" ++ ["b"], [], none⟩).skillsMatch = 100 ↔
        (List.replicate 199 "a" ++ ["b"] : List String) ≠ [] ∧
        (screenResume ⟨some "a", []⟩
          ⟨List.replicate 199 "a" ++ ["b"], [], none⟩).missingKeywords = []) := by
  have ha : includes (resumeTextOf ⟨some "a", []⟩) (toLowerCase "a") = true := by decide
  have hb : includes (resumeTextOf ⟨some "a", []⟩) (toLowerCase "b") = false := by decide
  have hmiss : (screenResume ⟨some "a", []⟩
      ⟨List.replicate 199 "a" ++ ["b"], [], none⟩).missingKeywords = ["b"] := by
    rw [missing_eq]
    simp only [List.map_append, List.map_replicate, List.filter_append, List.map_cons,
      List.map_nil]
    rw [List.filter_replicate_of_neg (by simp [ha])]
    simp only [List.filter_cons, hb, Bool.not_false, if_true, List.filter_nil, List.nil_append]
    decide
  have h100 : (screenResume ⟨some "a", []⟩
      ⟨List.replicate 199 "a" ++ ["b"], [], none⟩).skillsMatch = 100 := by
    rw [skillsMatch_eq_hundred_iff _ _
      (by simp only [List.length_append, List.length_replicate, List.length_cons,
        List.length_nil]; norm_num), hmiss]
    constructor
    · intro h
      exact absurd (List.append_eq_nil.mp h).2 (List.cons_ne_nil _ _)
    · simp only [List.length_append, List.length_replicate, List.length_cons, List.length_nil]
      decide
  refine ⟨h100, hmiss, ?_⟩
  rw [hmiss]
  intro h
  have := (h.mp h100).2
  simp at this

/-- C6 fails as stated: a candidate whose skill list holds `Java` but whose extracted
text is empty has the job skill `java` reported missing, not matched. -/
theorem matched_by_skill_set_counterexample :
    inCandidateSkills ⟨some "", ["Java"]⟩ "java" ∧
    (screenResume ⟨some "", ["Java"]⟩ ⟨["java"], [], none⟩).matchedKeywords = [] ∧
    (screenResume ⟨some "", ["Java"]⟩ ⟨["java"], [], none⟩).missingKeywords = ["java"] ∧
    ¬ (toLowerCase "java" ∈
          (screenResume ⟨some "", ["Java"]⟩ ⟨["java"], [], none⟩).matchedKeywords ↔
        inCandidateSkills ⟨some "", ["Java"]⟩ "java") := by
  have hin : inCandidateSkills ⟨some "", ["Java"]⟩ "java" := by
    unfold inCandidateSkills; decide
  have hm : (screenResume ⟨some "", ["Java"]⟩ ⟨["java"], [], none⟩).matchedKeywords = [] := by
    decide
  have hmiss : (screenResume ⟨some "", ["Java"]⟩ ⟨["java"], [], none⟩).missingKeywords
      = ["java"] := by decide
  refine ⟨hin, hm, hmiss, ?_⟩
  rw [hm]
  intro h
  exact absurd (h.mpr hin) (List.not_mem_nil _)

/-- C6, as the code has it: a lower-cased job skill is reported in `matchedKeywords`
exactly when it occurs as a substring of the lower-cased extracted text, and in
`missingKeywords` otherwise; the candidate's skill list is not consulted. -/
theorem matched_by_text_substring (resume : Resume) (job : Job) :
    (∀ k : String, k ∈ (screenResume resume job).matchedKeywords ↔
        k ∈ job.skills.map toLowerCase ∧ k.data <:+: (resumeTextOf resume).data) ∧
    (∀ k : String, k ∈ (screenResume resume job).missingKeywords ↔
        k ∈ job.skills.map toLowerCase ∧ ¬ k.data <:+: (resumeTextOf resume).data) ∧
    (∀ skills : List String,
        screenResume ⟨resume.extractedText, skills⟩ job = screenResume resume job) := by
  refine ⟨fun k => ?_, fun k => ?_, fun skills => rfl⟩
  · rw [matched_eq, List.mem_filter, includes_iff]
  · rw [missing_eq, List.mem_filter, Bool.not_eq_true', ← Bool.not_eq_true, includes_iff]

/-- C7 fails as stated: listing the job skill `a` twice next to `b`, with only `a` in
the text, gives `skillsMatch = 67`, from two of three entries, while the percentage
over distinct skills is `50`, which is also what the job `[a, b]` gets. -/
theorem skillsMatch_distinct_counterexample :
    (screenResume ⟨some "a", []⟩ ⟨["a", "a", "b"], [], none⟩).skillsMatch = 67 ∧
    distinctSkillsMatch ⟨some "a", []⟩ ⟨["a", "a", "b"], [], none⟩ = 50 ∧
    (screenResume ⟨some "a", []⟩ ⟨["a", "b"], [], none⟩).skillsMatch = 50 ∧
    (screenResume ⟨some "a", []⟩ ⟨["a", "a", "b"], [], none⟩).skillsMatch ≠
      distinctSkillsMatch ⟨some "a", []⟩ ⟨["a", "a", "b"], [], none⟩ := by
  have hm3 : (screenResume ⟨some "a", []⟩ ⟨["a", "a", "b"], [], none⟩).matchedKeywords =
      ["a", "a"] := by rw [matched_eq]; decide
  have hm2 : (screenResume ⟨some "a", []⟩ ⟨["a", "b"], [], none⟩).matchedKeywords =
      ["a"] := by rw [matched_eq]; decide
  have h67 : (screenResume ⟨some "a", []⟩ ⟨["a", "a", "b"], [], none⟩).skillsMatch = 67 := by
    rw [skillsMatch_field, hm3]
    exact jsRound_skillsScoreOf_eq 2 3 67 (by norm_num) (by norm_num) (by norm_num)
      (by norm_num)
  have h50 : (screenResume ⟨some "a", []⟩ ⟨["a", "b"], [], none⟩).skillsMatch = 50 := by
    rw [skillsMatch_field, hm2]
    exact jsRound_skillsScoreOf_eq 1 2 50 (by norm_num) (by norm_num) (by norm_num)
      (by norm_num)
  have hS : ((["a", "a", "b"] : List String).map toLowerCase).dedup = ["a", "b"] := by decide
  have hM : (["a", "b"] : List String).filter
      (fun k => includes (resumeTextOf ⟨some "a", []⟩) k) = ["a"] := by decide
  have hd : distinctSkillsMatch ⟨some "a", []⟩ ⟨["a", "a", "b"], [], none⟩ = 50 := by
    simp only [distinctSkillsMatch, hS, hM]
    rw [← jsRound_eq_round]
    simp only [List.length_cons, List.length_nil]
    rw [if_neg (by decide), jsRound_eq_iff]; norm_num
  refine ⟨h67, hd, h50, ?_⟩
  rw [h67, hd]
  decide

/-- C7, as the code has it: `skillsMatch` is `Math.round` of the double
`(matched / |job.skills|) * 100`, where both counts run over the entries of the job's
skill list, repeated entries included (`0` for an empty list).  For a list of fewer
than `2^32` entries it is `round(100 * matched / |job.skills|)` of exact arithmetic, or
one less, and it is that value whenever the exact percentage is not of the form
`k + 1/2`; it then agrees with the percentage over distinct skills when the lower-cased
job skills hold no repetition. -/
theorem skillsMatch_counts_entries (resume : Resume) (job : Job) :
    (screenResume resume job).skillsMatch =
        (if job.skills = [] then 0
         else jsRound (fl (fl ((((job.skills.map toLowerCase).filter
                (fun k => includes (resumeTextOf resume) k)).length : ℚ) /
            (job.skills.length : ℚ)) * 100))) ∧
      (job.skills ≠ [] → job.skills.length < 2 ^ 32 →
        ((screenResume resume job).skillsMatch =
            round ((100 : ℚ) *
              (((job.skills.map toLowerCase).filter
                  (fun k => includes (resumeTextOf resume) k)).length : ℚ) /
              (job.skills.length : ℚ)) ∨
          (screenResume resume job).skillsMatch =
            round ((100 : ℚ) *
              (((job.skills.map toLowerCase).filter
                  (fun k => includes (resumeTextOf resume) k)).length : ℚ) /
              (job.skills.length : ℚ)) - 1) ∧
        ((∀ k : ℤ, (100 : ℚ) *
              (((job.skills.map toLowerCase).filter
                  (fun k => includes (resumeTextOf resume) k)).length : ℚ) /
              (job.skills.length : ℚ) ≠ k + 1 / 2) →
          (screenResume resume job).skillsMatch =
            round ((100 : ℚ) *
              (((job.skills.map toLowerCase).filter
                  (fun k => includes (resumeTextOf resume) k)).length : ℚ) /
              (job.skills.length : ℚ)) ∧
          ((job.skills.map toLowerCase).Nodup →
            (screenResume resume job).skillsMatch = distinctSkillsMatch resume job))) := by
  have hmn := matched_length_le resume job
  have hfield := skillsMatch_field resume job
  rw [matched_eq] at hfield hmn
  refine ⟨?_, ?_⟩
  · rw [hfield]
    unfold skillsScoreOf
    by_cases hj : job.skills = []
    · simp [hj, jsRound]
      norm_num
    · rw [if_pos (List.length_pos.mpr hj), if_neg hj]
  · intro hj hb
    have hpos : 0 < job.skills.length := List.length_pos.mpr hj
    have herr := skillsScoreOf_error _ _ hpos hmn
    have hX : (100 : ℚ) * (((job.skills.map toLowerCase).filter
          (fun k => includes (resumeTextOf resume) k)).length : ℚ) / (job.skills.length : ℚ)
        + 1 / 2 =
        ((200 * (((job.skills.map toLowerCase).filter
            (fun k => includes (resumeTextOf resume) k)).length : ℤ) +
          (job.skills.length : ℤ) : ℤ) : ℚ) / ((2 * job.skills.length : ℕ) : ℚ) := by
      have : (job.skills.length : ℚ) ≠ 0 := by positivity
      push_cast
      field_simp
      ring
    have hdpos : (0 : ℚ) < ((2 * job.skills.length : ℕ) : ℚ) := by
      have : 0 < 2 * job.skills.length := by omega
      exact_mod_cast this
    have hlt : |skillsScoreOf ((job.skills.map toLowerCase).filter
          (fun k => includes (resumeTextOf resume) k)).length job.skills.length -
        (100 : ℚ) * (((job.skills.map toLowerCase).filter
          (fun k => includes (resumeTextOf resume) k)).length : ℚ) / (job.skills.length : ℚ)| <
        1 / ((2 * job.skills.length : ℕ) : ℚ) := by
      refine lt_of_le_of_lt herr ?_
      have hnb : ((2 * job.skills.length : ℕ) : ℚ) < 2 * 2 ^ (32 : ℕ) := by
        have : 2 * job.skills.length < 2 * 2 ^ 32 := by omega
        exact_mod_cast this
      rw [lt_div_iff₀ hdpos]
      calc (200 : ℚ) / 2 ^ (53 : ℕ) * ((2 * job.skills.length : ℕ) : ℚ)
          < 200 / 2 ^ (53 : ℕ) * (2 * 2 ^ (32 : ℕ)) := mul_lt_mul_of_pos_left hnb (by norm_num)
        _ < 1 := by norm_num
    have hnear := jsRound_near _ _ (2 * job.skills.length) _ (by omega) hX hlt
    rw [hfield]
    simp only [← jsRound_eq_round]
    refine ⟨hnear.1, fun hno => ⟨hnear.2 hno, fun hnd => ?_⟩⟩
    rw [hnear.2 hno]
    unfold distinctSkillsMatch
    simp only [hnd.dedup, List.length_map, List.length_eq_zero, hj, if_false, jsRound_eq_round]

/-- A use of `skillsMatch_counts_entries`: a job with two different skills. -/
theorem skillsMatch_counts_entries_witness :
    (["A", "b"] : List String) ≠ [] ∧ (["A", "b"] : List String).length < 2 ^ 32 ∧
    (∀ k : ℤ, (100 : ℚ) *
        ((((["A", "b"] : List String).map toLowerCase).filter
            (fun k => includes (resumeTextOf ⟨some "a", []⟩) k)).length : ℚ) /
        ((["A", "b"] : List String).length : ℚ) ≠ k + 1 / 2) ∧
    ((["A", "b"] : List String).map toLowerCase).Nodup ∧
      (screenResume ⟨some "a", []⟩ ⟨["A", "b"], [], none⟩).skillsMatch =
        distinctSkillsMatch ⟨some "a", []⟩ ⟨["A", "b"], [], none⟩ := by
  have hf : (((["A", "b"] : List String).map toLowerCase).filter
      (fun k => includes (resumeTextOf ⟨some "a", []⟩) k)) = ["a"] := by decide
  have hno : ∀ k : ℤ, (100 : ℚ) *
        ((((["A", "b"] : List String).map toLowerCase).filter
            (fun k => includes (resumeTextOf ⟨some "a", []⟩) k)).length : ℚ) /
        ((["A", "b"] : List String).length : ℚ) ≠ k + 1 / 2 := by
    intro k hk
    rw [hf] at hk
    simp only [List.length_cons, List.length_nil] at hk
    have h2 : ((99 : ℤ) : ℚ) = ((2 * k : ℤ) : ℚ) := by
      push_cast at hk ⊢
      linarith
    have := Int.cast_injective h2
    omega
  exact ⟨by decide, by decide, hno, by decide,
    (((skillsMatch_counts_entries ⟨some "a", []⟩ ⟨["A", "b"], [], none⟩).2 (by decide)
      (by decide)).2 hno).2 (by decide)⟩

/-- C8: `matchedKeywords` and `missingKeywords` are disjoint subsequences of the
lower-cased job skill list, in job-skill order, that together hold every entry exactly
once; job skills `[javascript, react]` against a resume mentioning javascript and
python give matched `[javascript]`, missing `[react]` and `skillsMatch = 50`. -/
theorem keywords_partition (resume : Resume) (job : Job) :
    List.Sublist (screenResume resume job).matchedKeywords (job.skills.map toLowerCase) ∧
    List.Sublist (screenResume resume job).missingKeywords (job.skills.map toLowerCase) ∧
    List.Disjoint (screenResume resume job).matchedKeywords
      (screenResume resume job).missingKeywords ∧
    ((screenResume resume job).matchedKeywords ++
      (screenResume resume job).missingKeywords).Perm (job.skills.map toLowerCase) ∧
    (screenResume resume job).matchedKeywords.length +
      (screenResume resume job).missingKeywords.length = job.skills.length ∧
    (screenResume ⟨some "JavaScript and Python", ["javascript", "python"]⟩
        ⟨["javascript", "react"], [], none⟩).matchedKeywords = ["javascript"] ∧
    (screenResume ⟨some "JavaScript and Python", ["javascript", "python"]⟩
        ⟨["javascript", "react"], [], none⟩).missingKeywords = ["react"] ∧
    (screenResume ⟨some "JavaScript and Python", ["javascript", "python"]⟩
        ⟨["javascript", "react"], [], none⟩).skillsMatch = 50 := by
  have hm : (screenResume ⟨some "JavaScript and Python", ["javascript", "python"]⟩
        ⟨["javascript", "react"], [], none⟩).matchedKeywords = ["javascript"] := by
    rw [matched_eq]; decide
  have hmiss : (screenResume ⟨some "JavaScript and Python", ["javascript", "python"]⟩
        ⟨["javascript", "react"], [], none⟩).missingKeywords = ["react"] := by
    rw [missing_eq]; decide
  refine ⟨?_, ?_, ?_, ?_, matched_add_missing_length resume job, hm, hmiss, ?_⟩
  · rw [matched_eq]; exact List.filter_sublist _
  · rw [missing_eq]; exact List.filter_sublist _
  · intro k hk hk'
    rw [matched_eq, List.mem_filter] at hk
    rw [missing_eq, List.mem_filter] at hk'
    simp [hk.2] at hk'
  · rw [matched_eq, missing_eq]
    exact List.filter_append_perm _ _
  · rw [skillsMatch_field, hm]
    exact jsRound_skillsScoreOf_eq 1 2 50 (by norm_num) (by norm_num) (by norm_num)
      (by norm_num)

theorem asStrings_ofStrings (xs : List String) :
    (JsVal.ofStrings xs).asStrings = .ok xs := by
  unfold JsVal.ofStrings JsVal.asStrings
  induction xs with
  | nil => rfl
  | cons x xs ih =>
    simp only [List.map_cons, List.mapM_cons, JsVal.asString, bind, Except.bind] at ih ⊢
    rw [ih]
    rfl

/-- On schema-conforming documents the whole function returns the record of the `try`
block: the `catch` handler is not entered. -/
theorem screenResumeDyn_toDyn (resume : Resume) (job : Job) :
    screenResumeDyn (some resume.toDyn) (some job.toDyn) =
      .ok (screenResume resume job).toDyn := by
  obtain ⟨text, skills⟩ := resume
  obtain ⟨jskills, reqs, band⟩ := job
  cases text <;>
    simp [screenResumeDyn, tryBlock, Resume.toDyn, Job.toDyn, asStrings_ofStrings,
      JsVal.asOptionalText]

/-- C9 fails as stated: with a `null` job reference the `try` block throws and the
`catch` handler, reading `job.skills`, throws again; the promise is rejected. -/
theorem null_job_counterexample :
    tryBlock (some ⟨.str "5 years of experience", []⟩) none = .error .typeError ∧
    screenResumeDyn (some ⟨.str "5 years of experience", []⟩) none = .error .typeError ∧
    ¬ ∃ r : DynResult,
        screenResumeDyn (some ⟨.str "5 years of experience", []⟩) none = .ok r := by
  refine ⟨rfl, rfl, ?_⟩
  rintro ⟨r, hr⟩
  have h : screenResumeDyn (some ⟨.str "5 years of experience", []⟩) none
      = .error .typeError := rfl
  rw [h] at hr
  cases hr

theorem tryBlock_error_of_malformed (resume : Option DynResume) (job : DynJob)
    (h : resume = none ∨ (∃ e, job.skills.asStrings = .error e) ∨
      (∃ e, job.requirements.asStrings = .error e)) :
    ∃ e, tryBlock resume (some job) = .error e := by
  cases resume with
  | none => exact ⟨_, rfl⟩
  | some r =>
    cases ht : r.extractedText.asOptionalText with
    | error e => exact ⟨e, by simp [tryBlock, ht]⟩
    | ok text =>
      cases hs : job.skills.asStrings with
      | error e => exact ⟨e, by simp [tryBlock, ht, hs]⟩
      | ok skills =>
        cases hr : job.requirements.asStrings with
        | error e => exact ⟨e, by simp [tryBlock, ht, hs, hr]⟩
        | ok reqs =>
          rcases h with h | ⟨e, h⟩ | ⟨e, h⟩
          · cases h
          · rw [hs] at h; cases h
          · rw [hr] at h; cases h

/-- C9, as the code has it: whenever scoring throws internally and the job reference is
not `null` — in particular for a `null` resume or a missing, non-array or non-string job
skill or requirement list — the function returns the record with all scores and the
found experience `0`, no matched keyword, and `missingKeywords` the job's `skills` value
as stored. -/
theorem fallback_on_failure (resume : Option DynResume) (job : DynJob) :
    (∀ e, tryBlock resume (some job) = .error e →
      screenResumeDyn resume (some job) =
        .ok { skillsMatch := 0, experienceMatch := 0, overallScore := 0,
              matchedKeywords := [], missingKeywords := job.skills, foundExperience := 0 }) ∧
    ((resume = none ∨ (∃ e, job.skills.asStrings = .error e) ∨
        (∃ e, job.requirements.asStrings = .error e)) →
      screenResumeDyn resume (some job) =
        .ok { skillsMatch := 0, experienceMatch := 0, overallScore := 0,
              matchedKeywords := [], missingKeywords := job.skills, foundExperience := 0 }) := by
  have key : ∀ e, tryBlock resume (some job) = .error e →
      screenResumeDyn resume (some job) =
        .ok { skillsMatch := 0, experienceMatch := 0, overallScore := 0,
              matchedKeywords := [], missingKeywords := job.skills, foundExperience := 0 } := by
    intro e h
    unfold screenResumeDyn
    rw [h]
    rfl
  refine ⟨key, fun h => ?_⟩
  obtain ⟨e, he⟩ := tryBlock_error_of_malformed resume job h
  exact key e he

/-- A use of `fallback_on_failure`: a job whose skill list is missing. -/
theorem fallback_on_failure_witness :
    (JsVal.asStrings .undefined = .error .typeError) ∧
    (tryBlock (some ⟨.str "5 years of experience", []⟩)
        (some ⟨.undefined, .arr [], none⟩) = .error .typeError) ∧
    screenResumeDyn (some ⟨.str "5 years of experience", []⟩)
        (some ⟨.undefined, .arr [], none⟩) =
      .ok { skillsMatch := 0, experienceMatch := 0, overallScore := 0, matchedKeywords := [],
            missingKeywords := .undefined, foundExperience := 0 } ∧
    screenResumeDyn none (some ⟨.arr [.str "React"], .arr [], none⟩) =
      .ok { skillsMatch := 0, experienceMatch := 0, overallScore := 0, matchedKeywords := [],
            missingKeywords := .arr [.str "React"], foundExperience := 0 } :=
  ⟨rfl, rfl,
   (fallback_on_failure (some ⟨.str "5 years of experience", []⟩)
      ⟨.undefined, .arr [], none⟩).2 (Or.inr (Or.inl ⟨.typeError, rfl⟩)),
   (fallback_on_failure none ⟨.arr [.str "React"], .arr [], none⟩).1 .typeError rfl⟩

theorem isDigitChar_toLower (c : Char) : isDigitChar c.toLower = isDigitChar c := by
  unfold Char.toLower
  simp only
  split_ifs with h
  · unfold isDigitChar
    obtain ⟨h1, h2⟩ := h
    generalize c.toNat = n at h1 h2 ⊢
    interval_cases n <;> decide
  · rfl

theorem length_takeWhile_notDigit_le_reach (s : List Char) :
    (s.takeWhile (fun c => !isDigitChar c)).length ≤ reach s := by
  unfold reach
  cases s with
  | nil => simp
  | cons c rest =>
    by_cases hc : isDigitChar c = true
    · simp [List.takeWhile_cons, hc]
    · simp [List.takeWhile_cons, List.dropWhile_cons, hc]

theorem reach_cons_le (c : Char) (rest : List Char) : reach (c :: rest) ≤ 1 + reach rest := by
  by_cases hc : isDigitChar c = true
  · unfold reach
    simp only [List.takeWhile_cons, List.dropWhile_cons, hc, if_true, List.length_cons]
    omega
  · have h := length_takeWhile_notDigit_le_reach rest
    have : reach (c :: rest) = 1 + (rest.takeWhile (fun c => !isDigitChar c)).length := by
      unfold reach
      simp [List.takeWhile_cons, List.dropWhile_cons, hc, Nat.add_comm]
    omega

theorem length_le_takeWhile_of_append (p : Char → Bool) (a b : List Char)
    (h : ∀ c ∈ a, p c = true) : a.length ≤ ((a ++ b).takeWhile p).length := by
  rw [List.takeWhile_append_of_pos h]
  simp

theorem matchLit_spec (p s : List Char) (m : ℕ) (h : matchLit p s = some m) :
    m = p.length ∧ ∃ a b, s = a ++ b ∧ a.map Char.toLower = p := by
  unfold matchLit at h
  split_ifs at h with hp
  · refine ⟨(Option.some.inj h).symm, ?_⟩
    rw [List.isPrefixOf_iff_prefix] at hp
    obtain ⟨t, ht⟩ := hp
    obtain ⟨a, b, hab, ha, _⟩ := List.map_eq_append_iff.mp ht.symm
    exact ⟨a, b, hab, ha⟩


theorem matchOpt_le (b : List Char) :
    matchOpt 's' b ≤ (b.takeWhile (fun c => !isDigitChar c)).length := by
  cases b with
  | nil => simp [matchOpt]
  | cons d rest =>
    simp only [matchOpt]
    split_ifs with hd
    · have h1 : isDigitChar d = false := by
        rw [← isDigitChar_toLower, hd]; decide
      simp [List.takeWhile_cons, h1]
    · exact Nat.zero_le _

theorem matchLit_le (p s : List Char) (m : ℕ) (h : matchLit p s = some m)
    (hp : ∀ x ∈ p, isDigitChar x = false) :
    m ≤ (s.takeWhile (fun c => !isDigitChar c)).length ∧
      m + matchOpt 's' (s.drop m) ≤ (s.takeWhile (fun c => !isDigitChar c)).length := by
  obtain ⟨hm, a, b, hs, ha⟩ := matchLit_spec p s m h
  have hlen : a.length = m := by rw [hm, ← ha, List.length_map]
  have hnd : ∀ c ∈ a, (fun c => !isDigitChar c) c = true := by
    intro c hc
    have : c.toLower ∈ p := by rw [← ha]; exact List.mem_map_of_mem _ hc
    have h1 := hp _ this
    rw [isDigitChar_toLower] at h1
    simp [h1]
  have hdrop : s.drop m = b := by rw [hs, ← hlen, List.drop_left]
  rw [hdrop, hs, List.takeWhile_append_of_pos hnd, List.length_append, hlen]
  exact ⟨Nat.le_add_right _ _, Nat.add_le_add_left (matchOpt_le b) _⟩

theorem matchUnit_le (s : List Char) (n : ℕ) (h : matchUnit s = some n) :
    n ≤ (s.takeWhile (fun c => !isDigitChar c)).length := by
  unfold matchUnit at h
  split at h
  · next m hm =>
    rw [← Option.some.inj h]
    exact (matchLit_le _ s m hm (by decide)).2
  · split at h
    · next m hm =>
      rw [← Option.some.inj h]
      exact (matchLit_le _ s m hm (by decide)).2
    · split at h
      · next m hm =>
        rw [← Option.some.inj h]
        exact (matchLit_le _ s m hm (by decide)).2
      · exact (matchLit_le _ s n h (by decide)).1

theorem isSpaceChar_notDigit (c : Char) (h : isSpaceChar c = true) : isDigitChar c = false := by
  unfold isSpaceChar at h
  unfold isDigitChar
  simp only [Bool.or_eq_true, Bool.and_eq_true, decide_eq_true_eq, beq_iff_eq] at h
  simp only [Bool.and_eq_false_imp, decide_eq_true_eq, decide_eq_false_iff_not, not_le]
  omega

theorem matchAt_le_reach (s ds : List Char) (len : ℕ) (h : matchAt s = some (ds, len)) :
    len ≤ reach s := by
  unfold matchAt at h
  simp only at h
  split_ifs at h with hds
  split at h
  · next n hn =>
    have hlen : len = (s.takeWhile isDigitChar).length +
        ((s.dropWhile isDigitChar).takeWhile isSpaceChar).length + n := by
      have := Option.some.inj h
      exact (congrArg Prod.snd this).symm
    have hu := matchUnit_le _ n hn
    have hsplit : s.dropWhile isDigitChar =
        (s.dropWhile isDigitChar).takeWhile isSpaceChar ++
          (s.dropWhile isDigitChar).dropWhile isSpaceChar :=
      (List.takeWhile_append_dropWhile _ _).symm
    have hws : ∀ c ∈ (s.dropWhile isDigitChar).takeWhile isSpaceChar,
        (fun c => !isDigitChar c) c = true := by
      intro c hc
      have := isSpaceChar_notDigit c (List.mem_takeWhile_imp hc)
      simp [this]
    unfold reach
    rw [hlen]
    conv_rhs => rw [hsplit, List.takeWhile_append_of_pos hws, List.length_append]
    omega
  · cases h


theorem matchAt_phrase (post : List Char) : matchAt (phrase ++ post) = some (['5'], 7) := by
  rfl

theorem mem_matchAllFrom_phrase (post : List Char) :
    ['5'] ∈ matchAllFrom (phrase ++ post) 0 := by
  have h : phrase ++ post = '5' :: (phrase.tail ++ post) := rfl
  rw [h, matchAllFrom, ← h, matchAt_phrase]
  exact List.mem_cons_self _ _

theorem mem_matchAllFrom_of_reach (post : List Char) (c : Char) (hc : isDigitChar c = false)
    (pre : List Char) (k : ℕ) (hk : k ≤ reach (pre ++ c :: (phrase ++ post))) :
    ['5'] ∈ matchAllFrom (pre ++ c :: (phrase ++ post)) k := by
  induction pre generalizing k with
  | nil =>
    have hr : reach (c :: (phrase ++ post)) = 1 := by
      have h : phrase ++ post = '5' :: (phrase.tail ++ post) := rfl
      have h5 : isDigitChar '5' = true := by decide
      rw [h]
      unfold reach
      simp [List.takeWhile_cons, List.dropWhile_cons, hc, h5]
    rw [List.nil_append] at hk ⊢
    rw [hr] at hk
    cases k with
    | zero =>
      have hnone : matchAt (c :: (phrase ++ post)) = none := by
        unfold matchAt
        simp [List.takeWhile_cons, hc]
      rw [matchAllFrom, hnone]
      exact mem_matchAllFrom_phrase post
    | succ k =>
      have : k = 0 := by omega
      subst this
      rw [matchAllFrom]
      exact mem_matchAllFrom_phrase post
  | cons d rest ih =>
    have hle := reach_cons_le d (rest ++ c :: (phrase ++ post))
    rw [List.cons_append] at hk ⊢
    cases k with
    | zero =>
      rw [matchAllFrom]
      cases hm : matchAt (d :: (rest ++ c :: (phrase ++ post))) with
      | none => exact ih 0 (Nat.zero_le _)
      | some res =>
        obtain ⟨ds, len⟩ := res
        have hlen := matchAt_le_reach _ ds len hm
        exact List.mem_cons_of_mem _ (ih (len - 1) (by omega))
    | succ k =>
      rw [matchAllFrom]
      exact ih k (by omega)

theorem mem_matchAllFrom_text (pre post : List Char)
    (hpre : ∀ c, pre.getLast? = some c → isDigitChar c = false) :
    ['5'] ∈ matchAllFrom (pre ++ phrase ++ post) 0 := by
  rcases List.eq_nil_or_concat pre with h | ⟨pre0, c, h⟩
  · subst h
    exact mem_matchAllFrom_phrase post
  · subst h
    have hc : isDigitChar c = false := hpre c (by simp)
    have := mem_matchAllFrom_of_reach post c hc pre0 0 (Nat.zero_le _)
    simpa [List.append_assoc] using this


theorem foldl_max_ge (xs : List ℕ) (a : ℕ) :
    a ≤ xs.foldl max a ∧ ∀ x ∈ xs, x ≤ xs.foldl max a := by
  induction xs generalizing a with
  | nil => simp
  | cons y ys ih =>
    obtain ⟨h1, h2⟩ := ih (max a y)
    rw [List.foldl_cons]
    refine ⟨le_trans (le_max_left a y) h1, ?_⟩
    intro x hx
    rcases List.mem_cons.mp hx with rfl | hx
    · exact le_trans (le_max_right a x) h1
    · exact h2 x hx

theorem foldl_max_le (xs : List ℕ) (a b : ℕ) (ha : a ≤ b) (h : ∀ x ∈ xs, x ≤ b) :
    xs.foldl max a ≤ b := by
  induction xs generalizing a with
  | nil => simpa using ha
  | cons y ys ih =>
    rw [List.foldl_cons]
    exact ih (max a y) (max_le ha (h y (List.mem_cons_self _ _)))
      (fun x hx => h x (List.mem_cons_of_mem _ hx))

theorem findExperience_le (text : String) : findExperience text ≤ 50 := by
  unfold findExperience
  simp only
  split_ifs
  · apply foldl_max_le _ _ _ (Nat.zero_le _)
    intro x hx
    have := (List.mem_filter.mp hx).2
    simpa using this
  · exact Nat.zero_le _
  · exact Nat.zero_le _

theorem le_findExperience (text : String) (ds : List Char) (hmem : ds ∈ expMatches text)
    (h50 : parseInt ds ≤ 50) : parseInt ds ≤ findExperience text := by
  have hx : parseInt ds ∈ ((expMatches text).map parseInt).filter (fun exp => decide (exp ≤ 50)) := by
    rw [List.mem_filter]
    exact ⟨List.mem_map_of_mem _ hmem, by simpa using h50⟩
  unfold findExperience
  simp only
  rw [if_pos (List.length_pos_of_mem hmem), if_pos (List.length_pos_of_mem hx)]
  exact (foldl_max_ge _ 0).2 _ hx

theorem matchAllFrom_no_digit (s : List Char) (h : ∀ c ∈ s, isDigitChar c = false) (k : ℕ) :
    matchAllFrom s k = [] := by
  induction s generalizing k with
  | nil => rfl
  | cons c rest ih =>
    have hrest : ∀ c ∈ rest, isDigitChar c = false := fun x hx => h x (List.mem_cons_of_mem _ hx)
    cases k with
    | zero =>
      have hc := h c (List.mem_cons_self _ _)
      have hnone : matchAt (c :: rest) = none := by
        unfold matchAt
        simp [List.takeWhile_cons, hc]
      rw [matchAllFrom, hnone]
      exact ih hrest 0
    | succ k =>
      rw [matchAllFrom]
      exact ih hrest k

theorem matchAllFrom_append_no_digit (pre s : List Char)
    (h : ∀ c ∈ pre, isDigitChar c = false) :
    matchAllFrom (pre ++ s) 0 = matchAllFrom s 0 := by
  induction pre with
  | nil => rfl
  | cons c rest ih =>
    have hc := h c (List.mem_cons_self _ _)
    have hnone : matchAt (c :: (rest ++ s)) = none := by
      unfold matchAt
      simp [List.takeWhile_cons, hc]
    rw [List.cons_append, matchAllFrom, hnone]
    exact ih (fun x hx => h x (List.mem_cons_of_mem _ hx))

theorem matchAllFrom_only_phrase (pre post : List Char)
    (h : ∀ c ∈ pre ++ post, isDigitChar c = false) :
    matchAllFrom (pre ++ phrase ++ post) 0 = [['5']] := by
  have hpre : ∀ c ∈ pre, isDigitChar c = false := fun c hc => h c (List.mem_append_left _ hc)
  have hpost : ∀ c ∈ post, isDigitChar c = false := fun c hc => h c (List.mem_append_right _ hc)
  rw [List.append_assoc, matchAllFrom_append_no_digit pre _ hpre]
  have hph : phrase ++ post = '5' :: (phrase.tail ++ post) := rfl
  rw [hph, matchAllFrom, ← hph, matchAt_phrase]
  simp only
  rw [matchAllFrom_no_digit]
  intro c hc
  rcases List.mem_append.mp hc with hc | hc
  · have : ∀ x ∈ phrase.tail, isDigitChar x = false := by decide
    exact this c hc
  · exact hpost c hc

theorem toLowerCase_text (pre post : List Char) :
    (toLowerCase ⟨pre ++ phrase ++ post⟩).data =
      pre.map Char.toLower ++ phrase ++ post.map Char.toLower := by
  have : phrase.map Char.toLower = phrase := by decide
  simp [toLowerCase, this]


theorem foundExperience_field (resume : Resume) (job : Job) :
    (screenResume resume job).foundExperience = findExperience (resumeTextOf resume) := rfl

/-- C10 fails as stated: `75 years of experience` contains the phrase but the digits
captured are `75`, filtered out as above 50, so `foundExperience = 0` and, for a minimum
of 5, `experienceMatch = 0`; and with a second mention of 12 years after the phrase
`foundExperience` is `12`, not `5`. -/
theorem round_trip_counterexample :
    phrase <:+: "75 years of experience".data ∧
    (screenResume ⟨some "75 years of experience", []⟩
      ⟨[], [], some ⟨5, 10⟩⟩).foundExperience = 0 ∧
    (screenResume ⟨some "75 years of experience", []⟩
      ⟨[], [], some ⟨5, 10⟩⟩).experienceMatch = 0 ∧
    phrase <:+: "5 years of experience, 12 years in total".data ∧
    (screenResume ⟨some "5 years of experience, 12 years in total", []⟩
      ⟨[], [], some ⟨5, 10⟩⟩).foundExperience = 12 := by
  have hf : (screenResume ⟨some "75 years of experience", []⟩
      ⟨[], [], some ⟨5, 10⟩⟩).foundExperience = 0 := by decide
  refine ⟨by decide, hf, ?_, by decide, by decide⟩
  rw [experienceMatch_field, hf]
  simp only [experienceMatchOf, minExpOf]
  norm_num [jsRound, fl_zero]

/-- C10, as the code has it: when the resume text contains `5 years of experience` not
directly preceded by a digit and the job's minimum experience is 5, `foundExperience` is
the largest mention of at most 50 years, hence between 5 and 50, and
`experienceMatch = 100`; `foundExperience = 5` when the text holds no other digit. -/
theorem round_trip_found_experience (pre post : List Char) (candidateSkills : List String)
    (jobSkills requirements : List String) (max : ℚ)
    (hpre : ∀ c, pre.getLast? = some c → isDigitChar c = false) :
    5 ≤ (screenResume ⟨some ⟨pre ++ phrase ++ post⟩, candidateSkills⟩
          ⟨jobSkills, requirements, some ⟨5, max⟩⟩).foundExperience ∧
    (screenResume ⟨some ⟨pre ++ phrase ++ post⟩, candidateSkills⟩
          ⟨jobSkills, requirements, some ⟨5, max⟩⟩).foundExperience ≤ 50 ∧
    (screenResume ⟨some ⟨pre ++ phrase ++ post⟩, candidateSkills⟩
          ⟨jobSkills, requirements, some ⟨5, max⟩⟩).experienceMatch = 100 ∧
    ((∀ c ∈ pre ++ post, isDigitChar c = false) →
      (screenResume ⟨some ⟨pre ++ phrase ++ post⟩, candidateSkills⟩
          ⟨jobSkills, requirements, some ⟨5, max⟩⟩).foundExperience = 5) := by
  have htext : (resumeTextOf ⟨some ⟨pre ++ phrase ++ post⟩, candidateSkills⟩).data =
      pre.map Char.toLower ++ phrase ++ post.map Char.toLower := toLowerCase_text pre post
  have hpre' : ∀ c, (pre.map Char.toLower).getLast? = some c → isDigitChar c = false := by
    intro c hc
    rw [List.getLast?_map] at hc
    cases hl : pre.getLast? with
    | none => rw [hl] at hc; cases hc
    | some d =>
      rw [hl] at hc
      have hd := hpre d hl
      have : d.toLower = c := Option.some.inj hc
      rw [← this, isDigitChar_toLower]
      exact hd
  have hmem : ['5'] ∈ expMatches (resumeTextOf ⟨some ⟨pre ++ phrase ++ post⟩, candidateSkills⟩) := by
    unfold expMatches
    rw [htext]
    exact mem_matchAllFrom_text _ _ hpre'
  have h5 : parseInt ['5'] = 5 := by decide
  have hge : 5 ≤ (screenResume ⟨some ⟨pre ++ phrase ++ post⟩, candidateSkills⟩
          ⟨jobSkills, requirements, some ⟨5, max⟩⟩).foundExperience := by
    rw [foundExperience_field]
    have := le_findExperience _ _ hmem (by rw [h5]; decide)
    rwa [h5] at this
  refine ⟨hge, ?_, ?_, ?_⟩
  · rw [foundExperience_field]
    exact findExperience_le _
  · rw [experienceMatch_field]
    simp only [experienceMatchOf, minExpOf]
    have hq : (5 : ℚ) ≤ ((screenResume ⟨some ⟨pre ++ phrase ++ post⟩, candidateSkills⟩
          ⟨jobSkills, requirements, some ⟨5, max⟩⟩).foundExperience : ℚ) := by
      exact_mod_cast hge
    rw [if_neg (by norm_num), if_pos hq]
  · intro hnd
    rw [foundExperience_field]
    have hnd' : ∀ c ∈ pre.map Char.toLower ++ post.map Char.toLower,
        isDigitChar c = false := by
      intro c hc
      rw [← List.map_append] at hc
      obtain ⟨d, hd, rfl⟩ := List.mem_map.mp hc
      rw [isDigitChar_toLower]
      exact hnd d hd
    have hall : expMatches (resumeTextOf ⟨some ⟨pre ++ phrase ++ post⟩, candidateSkills⟩)
        = [['5']] := by
      unfold expMatches
      rw [htext]
      exact matchAllFrom_only_phrase _ _ hnd'
    unfold findExperience
    rw [hall]
    decide

/-- A use of `round_trip_found_experience`: the phrase inside a sentence. -/
theorem round_trip_found_experience_witness :
    (∀ c, "I have ".data.getLast? = some c → isDigitChar c = false) ∧
    (∀ c ∈ "I have ".data ++ " in Java".data, isDigitChar c = false) ∧
    (screenResume ⟨some ⟨"I have ".data ++ phrase ++ " in Java".data⟩, []⟩
          ⟨["java"], [], some ⟨5, 8⟩⟩).experienceMatch = 100 ∧
    (screenResume ⟨some ⟨"I have ".data ++ phrase ++ " in Java".data⟩, []⟩
          ⟨["java"], [], some ⟨5, 8⟩⟩).foundExperience = 5 :=
  ⟨by decide, by decide,
   (round_trip_found_experience "I have ".data " in Java".data [] ["java"] [] 8
      (by decide)).2.2.1,
   (round_trip_found_experience "I have ".data " in Java".data [] ["java"] [] 8
      (by decide)).2.2.2 (by decide)⟩

theorem parseResume_of_try_error (steps : ParseSteps) (dataBuffer : Buffer) (e : JsError)
    (h : parseResumeTry steps dataBuffer = .error e) :
    parseResume steps dataBuffer = .ok emptyFacts := by
  unfold parseResume
  rw [h]

theorem parseResumeTry_sub_error (steps : ParseSteps) (dataBuffer : Buffer) (text : String)
    (hpdf : steps.pdf dataBuffer = .ok text)
    (h : (∃ e, steps.extractEmail text = .error e) ∨ (∃ e, steps.extractPhone text = .error e) ∨
      (∃ e, steps.extractSkills text = .error e) ∨
      (∃ e, steps.extractExperience text = .error e) ∨
      (∃ e, steps.extractEducation text = .error e)) :
    ∃ e, parseResumeTry steps dataBuffer = .error e := by
  cases h1 : steps.extractEmail text with
  | error e => exact ⟨e, by simp [parseResumeTry, hpdf, h1]⟩
  | ok v1 =>
    cases h2 : steps.extractPhone text with
    | error e => exact ⟨e, by simp [parseResumeTry, hpdf, h1, h2]⟩
    | ok v2 =>
      cases h3 : steps.extractSkills text with
      | error e => exact ⟨e, by simp [parseResumeTry, hpdf, h1, h2, h3]⟩
      | ok v3 =>
        cases h4 : steps.extractExperience text with
        | error e => exact ⟨e, by simp [parseResumeTry, hpdf, h1, h2, h3, h4]⟩
        | ok v4 =>
          cases h5 : steps.extractEducation text with
          | error e => exact ⟨e, by simp [parseResumeTry, hpdf, h1, h2, h3, h4, h5]⟩
          | ok v5 =>
            rcases h with ⟨e, h⟩ | ⟨e, h⟩ | ⟨e, h⟩ | ⟨e, h⟩ | ⟨e, h⟩
            · rw [h1] at h; cases h
            · rw [h2] at h; cases h
            · rw [h3] at h; cases h
            · rw [h4] at h; cases h
            · rw [h5] at h; cases h

/-- C11: `parseResume` never throws, whatever the bytes and whatever its steps do, and
whenever the PDF text extraction or a later step throws it returns the record with text
`''`, email `''`, phone `''`, skills `[]`, experience `0` and education `''`. -/
theorem parseResume_fail_soft (steps : ParseSteps) (dataBuffer : Buffer) :
    (∃ facts, parseResume steps dataBuffer = .ok facts) ∧
    ((∃ e, steps.pdf dataBuffer = .error e) →
      parseResume steps dataBuffer = .ok ⟨"", "", "", [], 0, ""⟩) ∧
    (∀ text, steps.pdf dataBuffer = .ok text →
      ((∃ e, steps.extractEmail text = .error e) ∨ (∃ e, steps.extractPhone text = .error e) ∨
        (∃ e, steps.extractSkills text = .error e) ∨
        (∃ e, steps.extractExperience text = .error e) ∨
        (∃ e, steps.extractEducation text = .error e)) →
      parseResume steps dataBuffer = .ok ⟨"", "", "", [], 0, ""⟩) ∧
    (∀ e, parseResumeTry steps dataBuffer = .error e →
      parseResume steps dataBuffer = .ok ⟨"", "", "", [], 0, ""⟩) := by
  refine ⟨?_, ?_, ?_, ?_⟩
  · unfold parseResume
    cases parseResumeTry steps dataBuffer with
    | ok facts => exact ⟨facts, rfl⟩
    | error e => exact ⟨emptyFacts, rfl⟩
  · rintro ⟨e, he⟩
    apply parseResume_of_try_error steps dataBuffer e
    unfold parseResumeTry
    rw [he]
  · intro text hpdf h
    obtain ⟨e, he⟩ := parseResumeTry_sub_error steps dataBuffer text hpdf h
    exact parseResume_of_try_error steps dataBuffer e he
  · intro e he
    exact parseResume_of_try_error steps dataBuffer e he

/-- A use of `parseResume_fail_soft`: bytes that the PDF library rejects, and a text on
which a step throws. -/
theorem parseResume_fail_soft_witness :
    parseResume (classSteps (fun _ => .error .typeError) (fun _ => "")) [37, 80, 68] =
        .ok ⟨"", "", "", [], 0, ""⟩ ∧
      parseResume { classSteps (fun _ => .ok "Java") (fun _ => "") with
          extractEducation := fun _ => .error .typeError } [37, 80, 68] =
        .ok ⟨"", "", "", [], 0, ""⟩ :=
  ⟨(parseResume_fail_soft (classSteps (fun _ => .error .typeError) (fun _ => ""))
      [37, 80, 68]).2.1 ⟨.typeError, rfl⟩,
   (parseResume_fail_soft { classSteps (fun _ => .ok "Java") (fun _ => "") with
      extractEducation := fun _ => .error .typeError } [37, 80, 68]).2.2.1 "Java" rfl
      (Or.inr (Or.inr (Or.inr (Or.inr ⟨.typeError, rfl⟩))))⟩

/-- C12 fails as stated: when phone extraction throws on a successfully extracted text,
the record returned is the empty one; the text and the skills found by the other steps
are lost. -/
theorem fault_isolation_counterexample :
    (({ classSteps (fun _ => .ok "Java") (fun _ => "") with
        extractPhone := fun _ => .error .typeError } : ParseSteps).pdf [37, 80, 68]
      = .ok "Java") ∧
    (({ classSteps (fun _ => .ok "Java") (fun _ => "") with
        extractPhone := fun _ => .error .typeError } : ParseSteps).extractSkills "Java"
      = .ok ["Java"]) ∧
    parseResume { classSteps (fun _ => .ok "Java") (fun _ => "") with
        extractPhone := fun _ => .error .typeError } [37, 80, 68] = .ok emptyFacts ∧
    ¬ ∃ facts, parseResume { classSteps (fun _ => .ok "Java") (fun _ => "") with
        extractPhone := fun _ => .error .typeError } [37, 80, 68] = .ok facts ∧
      facts.text = "Java" ∧ facts.skills = ["Java"] ∧ facts.applicantPhone = "" := by
  have hs : ResumeScreener.extractSkills "Java" = ["Java"] := by decide
  have hp : parseResume { classSteps (fun _ => .ok "Java") (fun _ => "") with
        extractPhone := fun _ => .error .typeError } [37, 80, 68] = .ok emptyFacts := rfl
  refine ⟨rfl, ?_, hp, ?_⟩
  · show Except.ok (ResumeScreener.extractSkills "Java") = Except.ok ["Java"]
    rw [hs]
  · rintro ⟨facts, hf, ht, _⟩
    rw [hp] at hf
    have : facts = emptyFacts := (Except.ok.inj hf).symm
    rw [this] at ht
    exact absurd ht (by decide)

/-- C12, as the code has it: one `try`/`catch` surrounds all steps, so when a
sub-extraction throws on a successfully extracted text the whole record degrades to the
empty one, and when none throws the record carries the text and the five results; the
sub-extractions of the class do not throw on a string. -/
theorem single_try_catch (steps : ParseSteps) (dataBuffer : Buffer) (text : String)
    (hpdf : steps.pdf dataBuffer = .ok text) :
    (((∃ e, steps.extractEmail text = .error e) ∨ (∃ e, steps.extractPhone text = .error e) ∨
        (∃ e, steps.extractSkills text = .error e) ∨
        (∃ e, steps.extractExperience text = .error e) ∨
        (∃ e, steps.extractEducation text = .error e)) →
      parseResume steps dataBuffer = .ok emptyFacts) ∧
    (∀ email phone skills experience education,
      steps.extractEmail text = .ok email → steps.extractPhone text = .ok phone →
      steps.extractSkills text = .ok skills → steps.extractExperience text = .ok experience →
      steps.extractEducation text = .ok education →
      parseResume steps dataBuffer = .ok ⟨text, email, phone, skills, experience, education⟩) ∧
    (∀ (pdf : Buffer → Except JsError String) (extractEmail : String → String),
      pdf dataBuffer = .ok text →
      parseResume (classSteps pdf extractEmail) dataBuffer =
        .ok ⟨text, extractEmail text, ResumeScreener.extractPhone text,
             ResumeScreener.extractSkills text, ResumeScreener.extractExperience text,
             ResumeScreener.extractEducation text⟩) := by
  refine ⟨?_, ?_, ?_⟩
  · intro h
    obtain ⟨e, he⟩ := parseResumeTry_sub_error steps dataBuffer text hpdf h
    exact parseResume_of_try_error steps dataBuffer e he
  · intro email phone skills experience education h1 h2 h3 h4 h5
    simp only [parseResume, parseResumeTry, hpdf, h1, h2, h3, h4, h5]
  · intro pdf extractEmail h
    simp only [parseResume, parseResumeTry, classSteps, h]

/-- A use of `single_try_catch`: the text `Java` and a failing phone step. -/
theorem single_try_catch_witness :
    parseResume { classSteps (fun _ => .ok "Java") (fun _ => "") with
        extractPhone := fun _ => .error .typeError } [37, 80, 68] = .ok emptyFacts ∧
    parseResume (classSteps (fun _ => .ok "Java") (fun _ => "")) [37, 80, 68] =
        .ok ⟨"Java", "", ResumeScreener.extractPhone "Java", ResumeScreener.extractSkills "Java",
             ResumeScreener.extractExperience "Java", ResumeScreener.extractEducation "Java"⟩ :=
  ⟨(single_try_catch { classSteps (fun _ => .ok "Java") (fun _ => "") with
      extractPhone := fun _ => .error .typeError } [37, 80, 68] "Java" rfl).1
      (Or.inr (Or.inl ⟨.typeError, rfl⟩)),
   (single_try_catch (classSteps (fun _ => .ok "Java") (fun _ => "")) [37, 80, 68] "Java"
      rfl).2.2 (fun _ => .ok "Java") (fun _ => "") rfl⟩

theorem foldl_foundSkillsStep (lowerText : String) (skills acc : List String) :
    skills.foldl (foundSkillsStep lowerText) acc =
      acc ++ skills.filter (fun skill => includes lowerText (toLowerCase skill)) := by
  induction skills generalizing acc with
  | nil => simp
  | cons k ks ih =>
    rw [List.foldl_cons, ih]
    by_cases h : includes lowerText (toLowerCase k) = true
    · simp [foundSkillsStep, h]
    · simp [foundSkillsStep, h]

theorem extractSkills_eq (text : String) :
    extractSkills text =
      (commonSkills.filter
        (fun skill => includes (toLowerCase text) (toLowerCase skill))).take 10 := by
  unfold extractSkills
  simp only [foldl_foundSkillsStep, List.nil_append]

/-- C13: `extractSkills` returns the first 10 (or all, if fewer) vocabulary entries, in
vocabulary order and spelling, whose lower-cased form occurs in the lower-cased text;
the result has at most 10 entries and no duplicate. -/
theorem extractSkills_first_ten (text : String) :
    extractSkills text =
        (commonSkills.filter
          (fun skill => includes (toLowerCase text) (toLowerCase skill))).take 10 ∧
    (∀ skill, skill ∈ commonSkills.filter
          (fun skill => includes (toLowerCase text) (toLowerCase skill)) ↔
        skill ∈ commonSkills ∧ (toLowerCase skill).data <:+: (toLowerCase text).data) ∧
    List.Sublist (extractSkills text) commonSkills ∧
    (extractSkills text).length ≤ 10 ∧
    (extractSkills text).Nodup := by
  have hsub : List.Sublist (extractSkills text) commonSkills := by
    rw [extractSkills_eq]
    exact (List.take_sublist _ _).trans (List.filter_sublist _)
  refine ⟨extractSkills_eq text, ?_, hsub, ?_, ?_⟩
  · intro skill
    rw [List.mem_filter, includes_iff]
  · rw [extractSkills_eq, List.length_take]
    exact Nat.min_le_left _ _
  · have hnd : commonSkills.Nodup := by decide
    exact hnd.sublist hsub

theorem firstValidYears_eq (ms : List RegexMatch) :
    firstValidYears ms =
      (ms.map yearsOfMatch).find? (fun y => decide (y ≠ 0 ∧ y ≤ 50)) := by
  induction ms with
  | nil => rfl
  | cons m rest ih =>
    rw [firstValidYears, List.map_cons, List.find?_cons]
    by_cases h : yearsOfMatch m ≠ 0 ∧ yearsOfMatch m ≤ 50
    · simp [h]
    · rw [if_neg h, ih]
      simp [h]

theorem tryPatterns_eq (ps : List (List Char → Option RegexMatch)) (text : List Char) :
    tryPatterns ps text =
      (ps.flatMap (fun pattern => (scanAll pattern text 0).map yearsOfMatch)).find?
        (fun y => decide (y ≠ 0 ∧ y ≤ 50)) := by
  induction ps with
  | nil => rfl
  | cons p rest ih =>
    rw [tryPatterns, List.flatMap_cons, List.find?_append, ← firstValidYears_eq, ih]
    by_cases hlen : (scanAll p text 0).length > 0
    · rw [if_pos hlen]
      cases firstValidYears (scanAll p text 0) <;> rfl
    · rw [if_neg hlen]
      have : scanAll p text 0 = [] := List.length_eq_zero.mp (by omega)
      rw [this]
      rfl

theorem foldl_fallback_eq (ys : List ℕ) (a : ℕ) :
    ys.foldl (fun maxYears years =>
        if years ≠ 0 ∧ years > maxYears ∧ years ≤ 50 then years else maxYears) a =
      (ys.filter (fun years => decide (years ≤ 50))).foldl max a := by
  induction ys generalizing a with
  | nil => rfl
  | cons y rest ih =>
    rw [List.foldl_cons, ih, List.filter_cons]
    by_cases h50 : y ≤ 50
    · simp only [h50, decide_True, if_true, List.foldl_cons]
      congr 1
      by_cases hgt : y > a
      · have : y ≠ 0 := by omega
        simp [this, hgt, h50]
        omega
      · simp [hgt]
        omega
    · simp [h50]

theorem mem_scanAll (p : List Char → Option RegexMatch) (s : List Char) (k : ℕ)
    (m : RegexMatch) (h : m ∈ scanAll p s k) : ∃ s', p s' = some m := by
  induction s generalizing k with
  | nil => simp [scanAll] at h
  | cons c rest ih =>
    cases k with
    | succ k =>
      rw [scanAll] at h
      exact ih k h
    | zero =>
      rw [scanAll] at h
      cases hp : p (c :: rest) with
      | none =>
        rw [hp] at h
        exact ih 0 h
      | some r =>
        rw [hp] at h
        rcases List.mem_cons.mp h with rfl | h
        · exact ⟨_, hp⟩
        · exact ih _ h

theorem litNoCase_head (p : List Char) (c : Char) (s y : List Char)
    (h : litNoCase (c :: p) s = some y) : ∃ d t, y = d :: t ∧ d.toLower = c := by
  unfold litNoCase at h
  split_ifs at h with hp
  cases s with
  | nil => simp at hp
  | cons d rest =>
    simp only [List.map_cons, List.isPrefixOf, Bool.and_eq_true, beq_iff_eq] at hp
    refine ⟨d, rest.take p.length, ?_, hp.1.symm⟩
    rw [← Option.some.inj h]
    simp

theorem yearsUnit_noCase_head (s u : List Char) (h : yearsUnit true s = some u) :
    ∃ d t, u = d :: t ∧ isDigitChar d = false := by
  unfold yearsUnit at h
  simp only [lit, if_true] at h
  have key : ∀ y : List Char, litNoCase "year".data s = some y ∨ litNoCase "yr".data s = some y →
      ∃ d t, y = d :: t ∧ isDigitChar d = false := by
    intro y hy
    rcases hy with hy | hy
    · obtain ⟨d, t, hd, hl⟩ := litNoCase_head _ 'y' s y hy
      exact ⟨d, t, hd, by rw [← isDigitChar_toLower, hl]; decide⟩
    · obtain ⟨d, t, hd, hl⟩ := litNoCase_head _ 'y' s y hy
      exact ⟨d, t, hd, by rw [← isDigitChar_toLower, hl]; decide⟩
  split at h
  · next y hy =>
    obtain ⟨d, t, hd, hnd⟩ := key y (Or.inl hy)
    rw [← Option.some.inj h, hd]
    exact ⟨d, _, rfl, hnd⟩
  · split at h
    · next y hy =>
      obtain ⟨d, t, hd, hnd⟩ := key y (Or.inr hy)
      rw [← Option.some.inj h, hd]
      exact ⟨d, _, rfl, hnd⟩
    · cases h

theorem takeWhile_digits_append (ds tail : List Char) (hds : ∀ c ∈ ds, isDigitChar c = true)
    (htail : ∀ d t, tail = d :: t → isDigitChar d = false) :
    (ds ++ tail).takeWhile isDigitChar = ds := by
  rw [List.takeWhile_append_of_pos hds]
  cases tail with
  | nil => simp
  | cons d t =>
    have := htail d t rfl
    simp [List.takeWhile_cons, this]

theorem yearMentionRe_digits (s : List Char) (m : RegexMatch) (h : yearMentionRe s = some m) :
    m.full.takeWhile isDigitChar = m.group1 := by
  unfold yearMentionRe at h
  simp only at h
  split_ifs at h with hds
  split at h
  · next u hu =>
    rw [← Option.some.inj h]
    simp only [List.append_assoc]
    apply takeWhile_digits_append
    · intro c hc
      exact List.mem_takeWhile_imp hc
    · intro d t hdt
      obtain ⟨d', t', hu', hnd⟩ := yearsUnit_noCase_head _ u hu
      cases hws : (s.dropWhile isDigitChar).takeWhile isSpaceChar with
      | nil =>
        rw [hws, List.nil_append, hu'] at hdt
        have := (List.cons.inj hdt).1
        rw [← this]; exact hnd
      | cons w ws =>
        rw [hws, List.cons_append] at hdt
        have hw : w ∈ (s.dropWhile isDigitChar).takeWhile isSpaceChar := by
          rw [hws]; exact List.mem_cons_self _ _
        have := (List.cons.inj hdt).1
        rw [← this]
        exact isSpaceChar_notDigit w (List.mem_takeWhile_imp hw)
  · cases h

theorem fallback_foldl_eq (ms : List RegexMatch)
    (h : ∀ m ∈ ms, m.full.takeWhile isDigitChar = m.group1) (a : ℕ) :
    (ms.map (·.full)).foldl fallbackStep a =
      ((ms.map yearsOfMatch).filter (fun years => decide (years ≤ 50))).foldl max a := by
  rw [← foldl_fallback_eq, List.foldl_map, List.foldl_map]
  induction ms generalizing a with
  | nil => rfl
  | cons m rest ih =>
    have hm := h m (List.mem_cons_self _ _)
    rw [List.foldl_cons, List.foldl_cons]
    have hstep : fallbackStep a m.full =
        (if yearsOfMatch m ≠ 0 ∧ yearsOfMatch m > a ∧ yearsOfMatch m ≤ 50 then yearsOfMatch m
         else a) := by
      unfold fallbackStep yearsOfMatch
      rw [hm]
    rw [hstep]
    exact ih (fun x hx => h x (List.mem_cons_of_mem _ hx)) _

theorem extractExperience_eq (text : String) :
    extractExperience text =
      match (familyYears text).find? (fun y => decide (y ≠ 0 ∧ y ≤ 50)) with
      | some years => years
      | none => maxYearMention text := by
  unfold extractExperience familyYears maxYearMention mathMax
  rw [tryPatterns_eq]
  cases (experiencePatterns.flatMap
      (fun pattern => (scanAll pattern text.data 0).map yearsOfMatch)).find?
      (fun y => decide (y ≠ 0 ∧ y ≤ 50)) with
  | some y => rfl
  | none =>
    simp only
    have hall : ∀ m ∈ scanAll yearMentionRe text.data 0,
        m.full.takeWhile isDigitChar = m.group1 := by
      intro m hm
      obtain ⟨s', hs'⟩ := mem_scanAll _ _ _ m hm
      exact yearMentionRe_digits s' m hs'
    rw [← fallback_foldl_eq _ hall 0]
    split_ifs with hne
    · rfl
    · have : List.map (fun x => x.full) (scanAll yearMentionRe text.data 0) = [] := by
        simpa using hne
      rw [this]
      rfl

/-- C14 fails as stated: in `0 years of experience, 3 years of experience` the first
family matches `0` and then `3`; the first matched integer that is at most 50 is `0`, but
a `years` of `0` is falsy and skipped, and the function returns `3`. -/
theorem first_matched_integer_counterexample :
    familyYears "0 years of experience, 3 years of experience" = [0, 3] ∧
    (familyYears "0 years of experience, 3 years of experience").find?
        (fun y => decide (y ≤ 50)) = some 0 ∧
    extractExperience "0 years of experience, 3 years of experience" = 3 := by
  refine ⟨by decide, by decide, by decide⟩

/-- C14, as the code has it: `extractExperience` returns the first matched integer
between 1 and 50, trying the three families in order and, within a family, the matches
in text order; when no family yields such an integer it returns the largest "N years"
mention of at most 50 years, and `0` when there is none.  The result is at most 50. -/
theorem extractExperience_first_valid (text : String) :
    extractExperience text =
        (match (familyYears text).find? (fun y => decide (y ≠ 0 ∧ y ≤ 50)) with
         | some years => years
         | none => maxYearMention text) ∧
    maxYearMention text =
      mathMax (((scanAll yearMentionRe text.data 0).map yearsOfMatch).filter
        (fun years => decide (years ≤ 50))) ∧
    (scanAll yearMentionRe text.data 0 = [] → maxYearMention text = 0) ∧
    extractExperience text ≤ 50 := by
  have hmax : maxYearMention text ≤ 50 := by
    unfold maxYearMention mathMax
    apply foldl_max_le _ _ _ (Nat.zero_le _)
    intro x hx
    simpa using (List.mem_filter.mp hx).2
  refine ⟨extractExperience_eq text, rfl, ?_, ?_⟩
  · intro h
    unfold maxYearMention
    rw [h]
    rfl
  · rw [extractExperience_eq]
    cases hf : (familyYears text).find? (fun y => decide (y ≠ 0 ∧ y ≤ 50)) with
    | some y =>
      have := List.find?_some hf
      simp only [decide_eq_true_eq] at this
      exact this.2
    | none => exact hmax

/-- A use of `extractExperience_first_valid`: a text without any mention of years. -/
theorem extractExperience_first_valid_witness :
    scanAll yearMentionRe "Java developer".data 0 = [] ∧ maxYearMention "Java developer" = 0 :=
  ⟨by decide, (extractExperience_first_valid "Java developer").2.2.1 (by decide)⟩

theorem filter_dropWhile_space (q : Char → Bool)
    (hq : ∀ c, isSpaceChar c = true → q c = false) (l : List Char) :
    (l.dropWhile isSpaceChar).filter q = l.filter q := by
  conv_rhs => rw [← List.takeWhile_append_dropWhile isSpaceChar l]
  rw [List.filter_append]
  have : (l.takeWhile isSpaceChar).filter q = [] := by
    rw [List.filter_eq_nil_iff]
    intro c hc
    rw [hq c (List.mem_takeWhile_imp hc)]
    simp
  rw [this, List.nil_append]

theorem filter_jsTrim (q : Char → Bool)
    (hq : ∀ c, isSpaceChar c = true → q c = false) (l : List Char) :
    (jsTrim l).filter q = l.filter q := by
  unfold jsTrim
  rw [List.filter_reverse, filter_dropWhile_space q hq, List.filter_reverse,
    List.reverse_reverse, filter_dropWhile_space q hq]

theorem countP_digit_jsTrim (l : List Char) :
    (jsTrim l).countP isDigitChar = l.countP isDigitChar := by
  rw [List.countP_eq_length_filter, List.countP_eq_length_filter,
    filter_jsTrim isDigitChar isSpaceChar_notDigit]

theorem cleanNumber_jsTrim (l : List Char) : cleanNumber (jsTrim l) = cleanNumber l := by
  unfold cleanNumber
  apply filter_jsTrim
  intro c hc
  simp [hc]

theorem countP_digit_cleanNumber (l : List Char) :
    (cleanNumber l).countP isDigitChar = l.countP isDigitChar := by
  unfold cleanNumber
  rw [List.countP_filter]
  apply List.countP_congr
  intro c _
  constructor
  · intro h
    simp only [Bool.and_eq_true] at h
    exact h.1
  · intro h
    have hs : isSpaceChar c = false := by
      cases hsp : isSpaceChar c with
      | false => rfl
      | true => rw [isSpaceChar_notDigit c hsp] at h; cases h
    have h1 : (c == '-') = false := by
      rw [beq_eq_false_iff_ne]; rintro rfl; revert h; decide
    have h2 : (c == '(') = false := by
      rw [beq_eq_false_iff_ne]; rintro rfl; revert h; decide
    have h3 : (c == ')') = false := by
      rw [beq_eq_false_iff_ne]; rintro rfl; revert h; decide
    simp [h, hs, h1, h2, h3]

theorem digitsExactly_countP (n : ℕ) (s d : List Char) (h : digitsExactly n s = some d) :
    d.countP isDigitChar = n := by
  unfold digitsExactly at h
  split_ifs at h with hc
  rw [← Option.some.inj h]
  obtain ⟨hlen, hall⟩ := hc
  rw [List.all_eq_true] at hall
  rw [List.countP_eq_length.mpr hall, hlen]

theorem optChar_length_le (p : Char → Bool) (s : List Char) : (optChar p s).length ≤ 1 := by
  unfold optChar
  split
  · split_ifs <;> simp
  · simp

theorem phoneInternationalRe_shape (s : List Char) (m : RegexMatch)
    (h : phoneInternationalRe s = some m) :
    (cleanNumber m.full).length ≤ m.full.countP isDigitChar + 1 := by
  unfold phoneInternationalRe at h
  simp only at h
  split_ifs at h with hlen
  rw [← Option.some.inj h]
  simp only
  set plus := optChar (fun c => c == '+') s
  set run := ((s.drop plus.length).takeWhile isPhoneChar).take 15
  have hrun : ∀ c ∈ run, isPhoneChar c = true := by
    intro c hc
    exact List.mem_takeWhile_imp (List.mem_of_mem_take hc)
  have h1 : (cleanNumber plus).length ≤ 1 :=
    le_trans (List.length_filter_le _ _) (optChar_length_le _ _)
  have h2 : (cleanNumber run).length ≤ run.countP isDigitChar := by
    unfold cleanNumber
    rw [← List.countP_eq_length_filter]
    apply List.countP_mono_left
    intro c hc hk
    have hp := hrun c hc
    unfold isPhoneChar at hp
    simp only [Bool.not_eq_true', Bool.or_eq_false_iff] at hk
    obtain ⟨⟨⟨hk1, hk2⟩, hk3⟩, hk4⟩ := hk
    simpa [hk1, hk2, hk3, hk4] using hp
  have hsplit : cleanNumber (plus ++ run) = cleanNumber plus ++ cleanNumber run := by
    unfold cleanNumber; rw [List.filter_append]
  rw [hsplit, List.length_append, List.countP_append]
  omega

theorem phoneDigitsRe_shape (s : List Char) (m : RegexMatch) (h : phoneDigitsRe s = some m) :
    (cleanNumber m.full).length ≤ m.full.countP isDigitChar + 1 := by
  unfold phoneDigitsRe at h
  simp only at h
  split_ifs at h with hlen
  rw [← Option.some.inj h]
  simp only
  have hall : ∀ c ∈ (s.takeWhile isDigitChar).take 15, isDigitChar c = true := by
    intro c hc
    exact List.mem_takeWhile_imp (List.mem_of_mem_take hc)
  rw [List.countP_eq_length.mpr hall]
  exact le_trans (List.length_filter_le _ _) (Nat.le_succ _)

theorem phoneUsRe_shape (s : List Char) (m : RegexMatch) (h : phoneUsRe s = some m) :
    10 ≤ m.full.countP isDigitChar := by
  unfold phoneUsRe at h
  simp only at h
  split at h
  · cases h
  · next d1 h1 =>
    split at h
    · cases h
    · next d2 h2 =>
      split at h
      · cases h
      · next d3 h3 =>
        rw [← Option.some.inj h]
        simp only [List.countP_append]
        have e1 := digitsExactly_countP _ _ _ h1
        have e2 := digitsExactly_countP _ _ _ h2
        have e3 := digitsExactly_countP _ _ _ h3
        omega

theorem phoneIndiaRe_shape (s : List Char) (m : RegexMatch) (h : phoneIndiaRe s = some m) :
    10 ≤ m.full.countP isDigitChar := by
  unfold phoneIndiaRe at h
  simp only at h
  split at h
  · cases h
  · next d1 h1 =>
    split at h
    · cases h
    · next d2 h2 =>
      rw [← Option.some.inj h]
      simp only [List.countP_append]
      have e1 := digitsExactly_countP _ _ _ h1
      have e2 := digitsExactly_countP _ _ _ h2
      omega

theorem firstValidPhone_some (ms : List RegexMatch) (r : List Char)
    (h : firstValidPhone ms = some r) :
    ∃ m ∈ ms, 7 ≤ (cleanNumber m.full).length ∧ (cleanNumber m.full).length ≤ 15 ∧
      r = jsTrim m.full := by
  induction ms with
  | nil => cases h
  | cons m rest ih =>
    rw [firstValidPhone] at h
    split_ifs at h with hv
    · exact ⟨m, List.mem_cons_self _ _, hv.1, hv.2, (Option.some.inj h).symm⟩
    · obtain ⟨m', hm', hrest⟩ := ih h
      exact ⟨m', List.mem_cons_of_mem _ hm', hrest⟩

theorem tryPhonePatterns_some (ps : List (List Char → Option RegexMatch)) (text r : List Char)
    (h : tryPhonePatterns ps text = some r) :
    ∃ p ∈ ps, ∃ m ∈ scanAll p text 0, 7 ≤ (cleanNumber m.full).length ∧
      (cleanNumber m.full).length ≤ 15 ∧ r = jsTrim m.full := by
  induction ps with
  | nil => cases h
  | cons p rest ih =>
    rw [tryPhonePatterns] at h
    have hrest : tryPhonePatterns rest text = some r →
        ∃ p' ∈ p :: rest, ∃ m ∈ scanAll p' text 0, 7 ≤ (cleanNumber m.full).length ∧
          (cleanNumber m.full).length ≤ 15 ∧ r = jsTrim m.full := by
      intro h'
      obtain ⟨p', hp', hm⟩ := ih h'
      exact ⟨p', List.mem_cons_of_mem _ hp', hm⟩
    split_ifs at h with hne
    · cases hf : firstValidPhone (scanAll p text 0) with
      | some phone =>
        rw [hf] at h
        have hr : phone = r := Option.some.inj h
        subst hr
        obtain ⟨m, hm, hv⟩ := firstValidPhone_some _ _ hf
        exact ⟨p, List.mem_cons_self _ _, m, hm, hv⟩
      | none =>
        rw [hf] at h
        exact hrest h
    · exact hrest h

theorem phonePatterns_shape (p : List Char → Option RegexMatch) (hp : p ∈ phonePatterns)
    (s : List Char) (m : RegexMatch) (h : p s = some m) :
    10 ≤ m.full.countP isDigitChar ∨
      (cleanNumber m.full).length ≤ m.full.countP isDigitChar + 1 := by
  unfold phonePatterns at hp
  simp only [List.mem_cons, List.mem_singleton, List.not_mem_nil, or_false] at hp
  rcases hp with rfl | rfl | rfl | rfl
  · exact Or.inr (phoneInternationalRe_shape s m h)
  · exact Or.inl (phoneUsRe_shape s m h)
  · exact Or.inl (phoneIndiaRe_shape s m h)
  · exact Or.inr (phoneDigitsRe_shape s m h)

/-- C15 fails as stated: in `+1 (23) 45-6` the first pattern matches the whole text;
stripped of spaces, hyphens and parentheses it is `+123456`, 7 characters long, so it is
returned, with 6 digits. -/
theorem phone_digits_counterexample :
    extractPhone "+1 (23) 45-6" = "+1 (23) 45-6" ∧
    digitCount (extractPhone "+1 (23) 45-6") = 6 ∧
    ¬ (extractPhone "+1 (23) 45-6" ≠ "" →
        7 ≤ digitCount (extractPhone "+1 (23) 45-6") ∧
        digitCount (extractPhone "+1 (23) 45-6") ≤ 15) := by
  have h1 : extractPhone "+1 (23) 45-6" = "+1 (23) 45-6" := by decide
  refine ⟨h1, ?_, ?_⟩
  · rw [h1]; decide
  · rw [h1]; decide

/-- C15, as the code has it: a non-empty phone string returned by `extractPhone`,
stripped of white space, hyphens and parentheses, has between 7 and 15 characters (a
leading `+` and dots count); it contains at most 15 and at least 6 digits. -/
theorem phone_digits_bounds (text : String) (h : extractPhone text ≠ "") :
    7 ≤ (cleanNumber (extractPhone text).data).length ∧
    (cleanNumber (extractPhone text).data).length ≤ 15 ∧
    6 ≤ digitCount (extractPhone text) ∧ digitCount (extractPhone text) ≤ 15 := by
  unfold extractPhone at h ⊢
  cases ht : tryPhonePatterns phonePatterns text.data with
  | none => rw [ht] at h; exact absurd rfl h
  | some r =>
    simp only [digitCount]
    obtain ⟨p, hp, m, hm, h7, h15, hr⟩ := tryPhonePatterns_some _ _ _ ht
    obtain ⟨s', hs'⟩ := mem_scanAll p _ _ m hm
    have hshape := phonePatterns_shape p hp s' m hs'
    have hclean : cleanNumber r = cleanNumber m.full := by rw [hr, cleanNumber_jsTrim]
    have hdig : r.countP isDigitChar = m.full.countP isDigitChar := by
      rw [hr, countP_digit_jsTrim]
    have hle : m.full.countP isDigitChar ≤ (cleanNumber m.full).length := by
      rw [← countP_digit_cleanNumber]
      exact List.countP_le_length _
    rw [hclean, hdig]
    refine ⟨h7, h15, ?_, ?_⟩
    · rcases hshape with h10 | h1 <;> omega
    · omega

/-- A use of `phone_digits_bounds`: an international number. -/
theorem phone_digits_bounds_witness :
    extractPhone "Call +44 20 7946 0958" ≠ "" ∧
    6 ≤ digitCount (extractPhone "Call +44 20 7946 0958") ∧
    digitCount (extractPhone "Call +44 20 7946 0958") ≤ 15 :=
  ⟨by decide, (phone_digits_bounds "Call +44 20 7946 0958" (by decide)).2.2⟩

theorem firstEducationLine_eq (lines : List (List Char)) :
    firstEducationLine lines =
      (lines.find? hasEducationKeyword).map (fun line => (jsTrim line).take 100) := by
  induction lines with
  | nil => rfl
  | cons l rest ih =>
    rw [firstEducationLine, List.find?_cons]
    by_cases h : hasEducationKeyword l = true
    · simp [h]
    · rw [if_neg h, ih]
      simp [h]

theorem splitLines_ne_nil (s : List Char) : splitLines s ≠ [] := by
  cases s with
  | nil => simp [splitLines]
  | cons c rest =>
    rw [splitLines]
    split_ifs
    · simp
    · split <;> simp

theorem splitLines_intercalate (s : List Char) :
    List.intercalate ['\n'] (splitLines s) = s := by
  induction s with
  | nil => rfl
  | cons c rest ih =>
    rw [splitLines]
    split_ifs with hc
    · have hne := splitLines_ne_nil rest
      cases hsp : splitLines rest with
      | nil => exact absurd hsp hne
      | cons l ls =>
        rw [hsp] at ih
        rw [hc]
        simp only [List.intercalate, List.intersperse_cons_cons, List.flatten_cons,
          List.nil_append, List.singleton_append] at ih ⊢
        rw [ih]
    · cases hsp : splitLines rest with
      | nil => exact absurd hsp (splitLines_ne_nil rest)
      | cons l ls =>
        rw [hsp] at ih
        simp only
        cases ls with
        | nil =>
          simp only [List.intercalate, List.intersperse_single, List.flatten_cons,
            List.flatten_nil, List.append_nil] at ih ⊢
          rw [ih]
        | cons l2 ls2 =>
          simp only [List.intercalate, List.intersperse_cons_cons, List.flatten_cons,
            List.cons_append] at ih ⊢
          rw [ih]

theorem splitLines_no_newline (s : List Char) : ∀ l ∈ splitLines s, '\n' ∉ l := by
  induction s with
  | nil => simp [splitLines]
  | cons c rest ih =>
    rw [splitLines]
    split_ifs with hc
    · intro l hl
      rcases List.mem_cons.mp hl with rfl | hl
      · simp
      · exact ih l hl
    · cases hsp : splitLines rest with
      | nil => exact absurd hsp (splitLines_ne_nil rest)
      | cons l0 ls =>
        rw [hsp] at ih
        intro l hl
        simp only at hl
        rcases List.mem_cons.mp hl with rfl | hl
        · intro hmem
          rcases List.mem_cons.mp hmem with h | h
          · exact hc h.symm
          · exact ih l0 (List.mem_cons_self _ _) h
        · exact ih l (List.mem_cons_of_mem _ hl)

theorem not_space_of_toLower_letter (d : Char)
    (h : 97 ≤ d.toLower.toNat ∧ d.toLower.toNat ≤ 122) : isSpaceChar d = false := by
  cases hsp : isSpaceChar d with
  | false => rfl
  | true =>
    exfalso
    have hsp' := hsp
    unfold isSpaceChar at hsp'
    simp only [Bool.or_eq_true, Bool.and_eq_true, decide_eq_true_eq, beq_iff_eq] at hsp'
    have hlow : d.toLower = d := by
      unfold Char.toLower
      simp only
      rw [if_neg]
      omega
    rw [hlow] at h
    omega

theorem jsTrim_ne_nil (l : List Char) (d : Char) (hd : d ∈ l) (hs : isSpaceChar d = false) :
    jsTrim l ≠ [] := by
  intro h
  have hf := filter_jsTrim (fun c => !isSpaceChar c) (by intro c hc; simp [hc]) l
  rw [h, List.filter_nil] at hf
  have : d ∈ l.filter (fun c => !isSpaceChar c) := by
    rw [List.mem_filter]
    exact ⟨hd, by simp [hs]⟩
  rw [← hf] at this
  exact absurd this (List.not_mem_nil _)

theorem hasEducationKeyword_iff (line : List Char) :
    hasEducationKeyword line = true ↔
      ∃ keyword ∈ educationKeywords, keyword.data <:+: (toLowerCase ⟨line⟩).data := by
  unfold hasEducationKeyword
  rw [List.any_eq_true]
  constructor
  · rintro ⟨k, hk, hi⟩
    exact ⟨k, hk, (includes_iff _ _).mp hi⟩
  · rintro ⟨k, hk, hi⟩
    exact ⟨k, hk, (includes_iff _ _).mpr hi⟩

theorem jsTrim_ne_nil_of_keyword (line : List Char) (h : hasEducationKeyword line = true) :
    jsTrim line ≠ [] := by
  obtain ⟨k, hk, hi⟩ := (hasEducationKeyword_iff line).mp h
  have hletters : ∀ kw ∈ educationKeywords, kw.data ≠ [] ∧
      ∀ c ∈ kw.data, 97 ≤ c.toNat ∧ c.toNat ≤ 122 := by decide
  obtain ⟨hne, hall⟩ := hletters k hk
  obtain ⟨c, hck⟩ := List.exists_mem_of_ne_nil _ hne
  have hc := hall c hck
  have hcmem : c ∈ (toLowerCase ⟨line⟩).data := hi.subset hck
  simp only [toLowerCase, List.mem_map] at hcmem
  obtain ⟨d, hd, hdc⟩ := hcmem
  apply jsTrim_ne_nil line d hd
  apply not_space_of_toLower_letter
  rw [hdc]
  exact hc

/-- C16: `extractEducation` returns the first line of the text (split on newline) whose
lower-cased form contains a degree keyword, trimmed and cut to its first 100 characters;
it returns `''` exactly when no line contains a keyword, and never more than 100
characters. -/
theorem extractEducation_first_line (text : String) :
    extractEducation text =
        (match (splitLines text.data).find? hasEducationKeyword with
         | some line => ⟨(jsTrim line).take 100⟩
         | none => "") ∧
    (List.intercalate ['\n'] (splitLines text.data) = text.data ∧
      ∀ line ∈ splitLines text.data, '\n' ∉ line) ∧
    (∀ line, hasEducationKeyword line = true ↔
      ∃ keyword ∈ educationKeywords, keyword.data <:+: (toLowerCase ⟨line⟩).data) ∧
    (extractEducation text = "" ↔
      ∀ line ∈ splitLines text.data, hasEducationKeyword line = false) ∧
    (extractEducation text).length ≤ 100 := by
  have heq : extractEducation text =
        (match (splitLines text.data).find? hasEducationKeyword with
         | some line => ⟨(jsTrim line).take 100⟩
         | none => "") := by
    unfold extractEducation
    rw [firstEducationLine_eq]
    cases (splitLines text.data).find? hasEducationKeyword <;> rfl
  refine ⟨heq, ⟨splitLines_intercalate _, splitLines_no_newline _⟩,
    hasEducationKeyword_iff, ?_, ?_⟩
  · rw [heq]
    cases hf : (splitLines text.data).find? hasEducationKeyword with
    | none =>
      simp only [true_iff]
      intro line hl
      have := List.find?_eq_none.mp hf line hl
      simpa using this
    | some line =>
      have hkw : hasEducationKeyword line = true := List.find?_some hf
      have hmem : line ∈ splitLines text.data := List.mem_of_find?_eq_some hf
      have hne := jsTrim_ne_nil_of_keyword line hkw
      constructor
      · intro h
        exfalso
        have hd : (jsTrim line).take 100 = [] := congrArg String.data h
        cases hj : jsTrim line with
        | nil => exact hne hj
        | cons a b => rw [hj] at hd; simp at hd
      · intro h
        have := h line hmem
        rw [hkw] at this
        cases this
  · rw [heq]
    cases (splitLines text.data).find? hasEducationKeyword with
    | none => decide
    | some line =>
      show ((jsTrim line).take 100).length ≤ 100
      rw [List.length_take]
      exact Nat.min_le_left _ _

theorem setHas_candidateSkillSetOf (candidateSkills : List String) (skill : String) :
    setHas (candidateSkillSetOf candidateSkills) skill =
      decide (skill ∈ candidateSkills.map toLowerCase) := by
  unfold setHas candidateSkillSetOf
  simp only [List.mem_dedup]

theorem jsRound_mono (x y : ℚ) (h : x ≤ y) : jsRound x ≤ jsRound y := by
  unfold jsRound
  exact Int.floor_mono (by linarith)

theorem jsRound_intCast (n : ℤ) : jsRound (n : ℚ) = n := by
  rw [jsRound_eq_iff]
  constructor <;> linarith

/-- A tier percentage `(m / n) * w` as a double: its range and its distance from the
exact value. -/
theorem tier_percentage_range (m n w : ℕ) (hw : w < 2 ^ 53) (h : m ≤ n) :
    0 ≤ (if n > 0 then fl (fl ((m : ℚ) / (n : ℚ)) * (w : ℚ)) else 0) ∧
      (if n > 0 then fl (fl ((m : ℚ) / (n : ℚ)) * (w : ℚ)) else 0) ≤ (w : ℚ) ∧
      |(if n > 0 then fl (fl ((m : ℚ) / (n : ℚ)) * (w : ℚ)) else 0) -
        (if n > 0 then ((m : ℚ) / (n : ℚ)) * (w : ℚ) else 0)| ≤ 2 * (w : ℚ) / 2 ^ (53 : ℕ) := by
  split_ifs with hn
  · have hn' : (0 : ℚ) < n := by exact_mod_cast hn
    have hm : (m : ℚ) ≤ n := by exact_mod_cast h
    exact fl_ratio_mul _ w hw (by positivity) ((div_le_one hn').mpr hm)
  · refine ⟨le_refl _, by positivity, ?_⟩
    simp only [sub_self, abs_zero]
    positivity

theorem tier_percentage_mono (m m' n w : ℕ) (h : m ≤ m') :
    (if n > 0 then fl (fl ((m : ℚ) / (n : ℚ)) * (w : ℚ)) else 0) ≤
      (if n > 0 then fl (fl ((m' : ℚ) / (n : ℚ)) * (w : ℚ)) else 0) := by
  split_ifs with hn
  · have hn' : (0 : ℚ) < n := by exact_mod_cast hn
    have hm : (m : ℚ) ≤ m' := by exact_mod_cast h
    have h0 : (0 : ℚ) ≤ (m : ℚ) / n := by positivity
    have h1 := fl_mono h0 (div_le_div_of_nonneg_right hm hn'.le)
    have hw : (0 : ℚ) ≤ (w : ℚ) := by positivity
    exact fl_mono (mul_nonneg (fl_nonneg h0) hw) (mul_le_mul_of_nonneg_right h1 hw)
  · exact le_refl _

theorem matchScore_score_eq (candidateSkills jobRequiredSkills jobPreferredSkills : List String) :
    (MatchingAlgorithm.calculateMatchScore candidateSkills jobRequiredSkills
        jobPreferredSkills).score =
      min 100 (jsRound (fl (
        (if jobRequiredSkills.length > 0 then
          fl (fl ((((jobRequiredSkills.map toLowerCase).filter
            (fun skill => decide (skill ∈ candidateSkills.map toLowerCase))).length : ℚ) /
              (jobRequiredSkills.length : ℚ)) * ((70 : ℕ) : ℚ))
         else 0) +
        (if jobPreferredSkills.length > 0 then
          fl (fl ((((jobPreferredSkills.map toLowerCase).filter
            (fun skill => decide (skill ∈ candidateSkills.map toLowerCase))).length : ℚ) /
              (jobPreferredSkills.length : ℚ)) * ((30 : ℕ) : ℚ))
         else 0)))) := by
  simp only [MatchingAlgorithm.calculateMatchScore, setHas_candidateSkillSetOf, List.length_map,
    Nat.cast_ofNat]

/-- The exact total of two tiers, plus one half, as a fraction. -/
theorem exact_tiers_fraction (m n m' n' : ℕ) (h : m ≤ n) (h' : m' ≤ n') :
    (if n > 0 then ((m : ℚ) / (n : ℚ)) * ((70 : ℕ) : ℚ) else 0) +
      (if n' > 0 then ((m' : ℚ) / (n' : ℚ)) * ((30 : ℕ) : ℚ) else 0) + 1 / 2 =
      ((140 * (m : ℤ) * (max n' 1 : ℕ) + 60 * (m' : ℤ) * (max n 1 : ℕ) +
          (max n 1 : ℕ) * (max n' 1 : ℕ) : ℤ) : ℚ) /
        ((2 * (max n 1 * max n' 1) : ℕ) : ℚ) := by
  by_cases hn : n > 0 <;> by_cases hn' : n' > 0
  · have e1 : max n 1 = n := by omega
    have e2 : max n' 1 = n' := by omega
    have q1 : (n : ℚ) ≠ 0 := by positivity
    have q2 : (n' : ℚ) ≠ 0 := by positivity
    rw [if_pos hn, if_pos hn', e1, e2]
    push_cast
    field_simp
    ring
  · have e1 : max n 1 = n := by omega
    have e2 : max n' 1 = 1 := by omega
    have hm' : m' = 0 := by omega
    have q1 : (n : ℚ) ≠ 0 := by positivity
    rw [if_pos hn, if_neg hn', e1, e2, hm']
    push_cast
    field_simp
    ring
  · have e1 : max n 1 = 1 := by omega
    have e2 : max n' 1 = n' := by omega
    have hm : m = 0 := by omega
    have q2 : (n' : ℚ) ≠ 0 := by positivity
    rw [if_neg hn, if_pos hn', e1, e2, hm]
    push_cast
    field_simp
    ring
  · have e1 : max n 1 = 1 := by omega
    have e2 : max n' 1 = 1 := by omega
    have hm : m = 0 := by omega
    have hm' : m' = 0 := by omega
    rw [if_neg hn, if_neg hn', e1, e2, hm, hm']
    push_cast
    norm_num

theorem exact_tier_range (m n w : ℕ) (h : m ≤ n) :
    0 ≤ (if n > 0 then ((m : ℚ) / (n : ℚ)) * (w : ℚ) else 0) ∧
      (if n > 0 then ((m : ℚ) / (n : ℚ)) * (w : ℚ) else 0) ≤ (w : ℚ) := by
  split_ifs with hn
  · have hn' : (0 : ℚ) < n := by exact_mod_cast hn
    have hm : (m : ℚ) ≤ n := by exact_mod_cast h
    have h1 : (m : ℚ) / n ≤ 1 := (div_le_one hn').mpr hm
    have h0 : (0 : ℚ) ≤ (m : ℚ) / n := by positivity
    have hw : (0 : ℚ) ≤ (w : ℚ) := by positivity
    constructor
    · positivity
    · nlinarith
  · exact ⟨le_refl _, by positivity⟩

/-- The double total of two tiers against the exact one. -/
theorem match_total_near (m n m' n' : ℕ) (h : m ≤ n) (h' : m' ≤ n') :
    0 ≤ fl ((if n > 0 then fl (fl ((m : ℚ) / (n : ℚ)) * ((70 : ℕ) : ℚ)) else 0) +
        (if n' > 0 then fl (fl ((m' : ℚ) / (n' : ℚ)) * ((30 : ℕ) : ℚ)) else 0)) ∧
    |fl ((if n > 0 then fl (fl ((m : ℚ) / (n : ℚ)) * ((70 : ℕ) : ℚ)) else 0) +
        (if n' > 0 then fl (fl ((m' : ℚ) / (n' : ℚ)) * ((30 : ℕ) : ℚ)) else 0)) -
      ((if n > 0 then ((m : ℚ) / (n : ℚ)) * ((70 : ℕ) : ℚ) else 0) +
        (if n' > 0 then ((m' : ℚ) / (n' : ℚ)) * ((30 : ℕ) : ℚ) else 0))| ≤
      400 / 2 ^ (53 : ℕ) ∧
    (if n > 0 then ((m : ℚ) / (n : ℚ)) * ((70 : ℕ) : ℚ) else 0) +
        (if n' > 0 then ((m' : ℚ) / (n' : ℚ)) * ((30 : ℕ) : ℚ) else 0) ≤ 100 := by
  obtain ⟨r0, r1, r2⟩ := tier_percentage_range m n 70 (by norm_num) h
  obtain ⟨p0, p1, p2⟩ := tier_percentage_range m' n' 30 (by norm_num) h'
  have x1 := (exact_tier_range m n 70 h).2
  have x2 := (exact_tier_range m' n' 30 h').2
  generalize (if n > 0 then fl (fl ((m : ℚ) / (n : ℚ)) * ((70 : ℕ) : ℚ)) else 0) = r
    at r0 r1 r2 ⊢
  generalize (if n' > 0 then fl (fl ((m' : ℚ) / (n' : ℚ)) * ((30 : ℕ) : ℚ)) else 0) = p
    at p0 p1 p2 ⊢
  generalize (if n > 0 then ((m : ℚ) / (n : ℚ)) * ((70 : ℕ) : ℚ) else 0) = rx at r2 x1 ⊢
  generalize (if n' > 0 then ((m' : ℚ) / (n' : ℚ)) * ((30 : ℕ) : ℚ) else 0) = px at p2 x2 ⊢
  push_cast at r1 p1 r2 p2 x1 x2
  have hs0 : 0 ≤ r + p := add_nonneg r0 p0
  have herr := fl_error hs0
  have hb : (r + p) / 2 ^ (53 : ℕ) ≤ 100 / 2 ^ (53 : ℕ) :=
    div_le_div_of_nonneg_right (by linarith) (by positivity)
  have a := abs_le.mp r2
  have b := abs_le.mp p2
  have c := abs_le.mp (le_trans herr hb)
  refine ⟨fl_nonneg hs0, ?_, ?_⟩
  · rw [abs_le]
    constructor <;> linarith [a.1, a.2, b.1, b.2, c.1, c.2]
  · linarith

theorem ite_nil_length (l : List String) [Decidable (l = [])] (a b : ℚ) :
    (if l = [] then a else b) = if l.length > 0 then b else a := by
  cases l <;> simp

/-- C17, as the code has it: the score of `MatchingAlgorithm.calculateMatchScore` is
`min(100, Math.round(r + p))` where `r` and `p` are the doubles
`(|matchedRequired| / |required|) * 70` and `(|matchedPreferred| / |preferred|) * 30`, an
empty tier contributing 0 and a skill being matched when it equals a candidate skill
after lower-casing.  For lists of fewer than `2^20` skills it is
`min(100, round(70 * |matchedRequired| / |required| + 30 * |matchedPreferred| / |preferred|))`
of exact arithmetic, or one less, and it is that value whenever the exact total is not
of the form `k + 1/2`.  The score is an integer between 0 and 100. -/
theorem matchScore_formula (candidateSkills jobRequiredSkills jobPreferredSkills : List String) :
    (MatchingAlgorithm.calculateMatchScore candidateSkills jobRequiredSkills
        jobPreferredSkills).score =
      min 100 (jsRound (fl (
        (if jobRequiredSkills = [] then (0 : ℚ)
         else fl (fl ((((jobRequiredSkills.map toLowerCase).filter
            (fun skill => decide (skill ∈ candidateSkills.map toLowerCase))).length : ℚ) /
              (jobRequiredSkills.length : ℚ)) * 70)) +
        (if jobPreferredSkills = [] then (0 : ℚ)
         else fl (fl ((((jobPreferredSkills.map toLowerCase).filter
            (fun skill => decide (skill ∈ candidateSkills.map toLowerCase))).length : ℚ) /
              (jobPreferredSkills.length : ℚ)) * 30))))) ∧
    (jobRequiredSkills.length < 2 ^ 20 → jobPreferredSkills.length < 2 ^ 20 →
      ((MatchingAlgorithm.calculateMatchScore candidateSkills jobRequiredSkills
            jobPreferredSkills).score =
          min 100 (round (
            (if jobRequiredSkills = [] then (0 : ℚ)
             else 70 * (((jobRequiredSkills.map toLowerCase).filter
                (fun skill => decide (skill ∈ candidateSkills.map toLowerCase))).length : ℚ) /
                  (jobRequiredSkills.length : ℚ)) +
            (if jobPreferredSkills = [] then (0 : ℚ)
             else 30 * (((jobPreferredSkills.map toLowerCase).filter
                (fun skill => decide (skill ∈ candidateSkills.map toLowerCase))).length : ℚ) /
                  (jobPreferredSkills.length : ℚ)))) ∨
        (MatchingAlgorithm.calculateMatchScore candidateSkills jobRequiredSkills
            jobPreferredSkills).score =
          min 100 (round (
            (if jobRequiredSkills = [] then (0 : ℚ)
             else 70 * (((jobRequiredSkills.map toLowerCase).filter
                (fun skill => decide (skill ∈ candidateSkills.map toLowerCase))).length : ℚ) /
                  (jobRequiredSkills.length : ℚ)) +
            (if jobPreferredSkills = [] then (0 : ℚ)
             else 30 * (((jobPreferredSkills.map toLowerCase).filter
                (fun skill => decide (skill ∈ candidateSkills.map toLowerCase))).length : ℚ) /
                  (jobPreferredSkills.length : ℚ)))) - 1) ∧
      ((∀ k : ℤ,
          (if jobRequiredSkills = [] then (0 : ℚ)
           else 70 * (((jobRequiredSkills.map toLowerCase).filter
              (fun skill => decide (skill ∈ candidateSkills.map toLowerCase))).length : ℚ) /
                (jobRequiredSkills.length : ℚ)) +
          (if jobPreferredSkills = [] then (0 : ℚ)
           else 30 * (((jobPreferredSkills.map toLowerCase).filter
              (fun skill => decide (skill ∈ candidateSkills.map toLowerCase))).length : ℚ) /
                (jobPreferredSkills.length : ℚ)) ≠ k + 1 / 2) →
        (MatchingAlgorithm.calculateMatchScore candidateSkills jobRequiredSkills
            jobPreferredSkills).score =
          min 100 (round (
            (if jobRequiredSkills = [] then (0 : ℚ)
             else 70 * (((jobRequiredSkills.map toLowerCase).filter
                (fun skill => decide (skill ∈ candidateSkills.map toLowerCase))).length : ℚ) /
                  (jobRequiredSkills.length : ℚ)) +
            (if jobPreferredSkills = [] then (0 : ℚ)
             else 30 * (((jobPreferredSkills.map toLowerCase).filter
                (fun skill => decide (skill ∈ candidateSkills.map toLowerCase))).length : ℚ) /
                  (jobPreferredSkills.length : ℚ)))))) ∧
    0 ≤ (MatchingAlgorithm.calculateMatchScore candidateSkills jobRequiredSkills
        jobPreferredSkills).score ∧
    (MatchingAlgorithm.calculateMatchScore candidateSkills jobRequiredSkills
        jobPreferredSkills).score ≤ 100 := by
  have hmr : ((jobRequiredSkills.map toLowerCase).filter
      (fun skill => decide (skill ∈ candidateSkills.map toLowerCase))).length ≤
      jobRequiredSkills.length := by
    have h := List.length_filter_le
      (fun skill => decide (skill ∈ candidateSkills.map toLowerCase))
      (jobRequiredSkills.map toLowerCase)
    rwa [List.length_map] at h
  have hmp : ((jobPreferredSkills.map toLowerCase).filter
      (fun skill => decide (skill ∈ candidateSkills.map toLowerCase))).length ≤
      jobPreferredSkills.length := by
    have h := List.length_filter_le
      (fun skill => decide (skill ∈ candidateSkills.map toLowerCase))
      (jobPreferredSkills.map toLowerCase)
    rwa [List.length_map] at h
  obtain ⟨y0, yerr, xle⟩ := match_total_near _ _ _ _ hmr hmp
  have hfrac := exact_tiers_fraction _ _ _ _ hmr hmp
  have hscore := matchScore_score_eq candidateSkills jobRequiredSkills jobPreferredSkills
  have hX : (if jobRequiredSkills = [] then (0 : ℚ)
         else 70 * (((jobRequiredSkills.map toLowerCase).filter
            (fun skill => decide (skill ∈ candidateSkills.map toLowerCase))).length : ℚ) /
              (jobRequiredSkills.length : ℚ)) +
        (if jobPreferredSkills = [] then (0 : ℚ)
         else 30 * (((jobPreferredSkills.map toLowerCase).filter
            (fun skill => decide (skill ∈ candidateSkills.map toLowerCase))).length : ℚ) /
              (jobPreferredSkills.length : ℚ)) =
      (if jobRequiredSkills.length > 0 then
          ((((jobRequiredSkills.map toLowerCase).filter
            (fun skill => decide (skill ∈ candidateSkills.map toLowerCase))).length : ℚ) /
              (jobRequiredSkills.length : ℚ)) * ((70 : ℕ) : ℚ)
         else 0) +
        (if jobPreferredSkills.length > 0 then
          ((((jobPreferredSkills.map toLowerCase).filter
            (fun skill => decide (skill ∈ candidateSkills.map toLowerCase))).length : ℚ) /
              (jobPreferredSkills.length : ℚ)) * ((30 : ℕ) : ℚ)
         else 0) := by
    rw [ite_nil_length, ite_nil_length]
    congr 1
    · split_ifs
      · push_cast; ring
      · rfl
    · split_ifs
      · push_cast; ring
      · rfl
  have yb := abs_le.mp yerr
  have hu : (400 : ℚ) / 2 ^ (53 : ℕ) < 1 / 2 := by norm_num
  have hyle : jsRound (fl (
        (if jobRequiredSkills.length > 0 then
          fl (fl ((((jobRequiredSkills.map toLowerCase).filter
            (fun skill => decide (skill ∈ candidateSkills.map toLowerCase))).length : ℚ) /
              (jobRequiredSkills.length : ℚ)) * ((70 : ℕ) : ℚ))
         else 0) +
        (if jobPreferredSkills.length > 0 then
          fl (fl ((((jobPreferredSkills.map toLowerCase).filter
            (fun skill => decide (skill ∈ candidateSkills.map toLowerCase))).length : ℚ) /
              (jobPreferredSkills.length : ℚ)) * ((30 : ℕ) : ℚ))
         else 0))) ≤ 100 := by
    have : jsRound (fl (
        (if jobRequiredSkills.length > 0 then
          fl (fl ((((jobRequiredSkills.map toLowerCase).filter
            (fun skill => decide (skill ∈ candidateSkills.map toLowerCase))).length : ℚ) /
              (jobRequiredSkills.length : ℚ)) * ((70 : ℕ) : ℚ))
         else 0) +
        (if jobPreferredSkills.length > 0 then
          fl (fl ((((jobPreferredSkills.map toLowerCase).filter
            (fun skill => decide (skill ∈ candidateSkills.map toLowerCase))).length : ℚ) /
              (jobPreferredSkills.length : ℚ)) * ((30 : ℕ) : ℚ))
         else 0))) < 101 := by
      unfold jsRound
      apply Int.floor_lt.mpr
      push_cast
      push_cast at yb xle
      linarith [yb.2]
    omega
  refine ⟨?_, ?_, ?_, ?_⟩
  · rw [hscore, ite_nil_length, ite_nil_length]
    simp only [Nat.cast_ofNat]
  · intro hb hb'
    rw [hscore, hX, min_eq_right hyle]
    have hxr : round ((if jobRequiredSkills.length > 0 then
          ((((jobRequiredSkills.map toLowerCase).filter
            (fun skill => decide (skill ∈ candidateSkills.map toLowerCase))).length : ℚ) /
              (jobRequiredSkills.length : ℚ)) * ((70 : ℕ) : ℚ)
         else 0) +
        (if jobPreferredSkills.length > 0 then
          ((((jobPreferredSkills.map toLowerCase).filter
            (fun skill => decide (skill ∈ candidateSkills.map toLowerCase))).length : ℚ) /
              (jobPreferredSkills.length : ℚ)) * ((30 : ℕ) : ℚ)
         else 0)) ≤ 100 := by
      have : round ((if jobRequiredSkills.length > 0 then
          ((((jobRequiredSkills.map toLowerCase).filter
            (fun skill => decide (skill ∈ candidateSkills.map toLowerCase))).length : ℚ) /
              (jobRequiredSkills.length : ℚ)) * ((70 : ℕ) : ℚ)
         else 0) +
        (if jobPreferredSkills.length > 0 then
          ((((jobPreferredSkills.map toLowerCase).filter
            (fun skill => decide (skill ∈ candidateSkills.map toLowerCase))).length : ℚ) /
              (jobPreferredSkills.length : ℚ)) * ((30 : ℕ) : ℚ)
         else 0)) < 101 := by
        rw [round_eq]
        apply Int.floor_lt.mpr
        push_cast
        push_cast at xle
        linarith
      omega
    rw [min_eq_right hxr]
    simp only [← jsRound_eq_round]
    have hd1 : max jobRequiredSkills.length 1 ≤ 2 ^ 20 := by omega
    have hd2 : max jobPreferredSkills.length 1 ≤ 2 ^ 20 := by omega
    have hd : 2 * (max jobRequiredSkills.length 1 * max jobPreferredSkills.length 1) ≤
        2 * (2 ^ 20 * 2 ^ 20) := by
      apply Nat.mul_le_mul_left
      exact Nat.mul_le_mul hd1 hd2
    have hdpos : 0 < 2 * (max jobRequiredSkills.length 1 * max jobPreferredSkills.length 1) := by
      have h1 : 0 < max jobRequiredSkills.length 1 := by omega
      have h2 : 0 < max jobPreferredSkills.length 1 := by omega
      have := Nat.mul_pos h1 h2
      omega
    have hdq : ((2 * (max jobRequiredSkills.length 1 * max jobPreferredSkills.length 1) : ℕ) : ℚ)
        ≤ 2 * (2 ^ (20 : ℕ) * 2 ^ (20 : ℕ)) := by exact_mod_cast hd
    have hdposq : (0 : ℚ) <
        ((2 * (max jobRequiredSkills.length 1 * max jobPreferredSkills.length 1) : ℕ) : ℚ) := by
      exact_mod_cast hdpos
    have hlt := lt_of_le_of_lt yerr
      (show (400 : ℚ) / 2 ^ (53 : ℕ) <
        1 / ((2 * (max jobRequiredSkills.length 1 * max jobPreferredSkills.length 1) : ℕ) : ℚ) by
        rw [lt_div_iff₀ hdposq]
        calc (400 : ℚ) / 2 ^ (53 : ℕ) *
              ((2 * (max jobRequiredSkills.length 1 * max jobPreferredSkills.length 1) : ℕ) : ℚ)
            ≤ 400 / 2 ^ (53 : ℕ) * (2 * (2 ^ (20 : ℕ) * 2 ^ (20 : ℕ))) :=
              mul_le_mul_of_nonneg_left hdq (by norm_num)
          _ < 1 := by norm_num)
    exact jsRound_near _ _ _ _ hdpos hfrac hlt
  · rw [hscore]
    apply le_min (by norm_num)
    unfold jsRound
    apply Int.floor_nonneg.mpr
    linarith
  · rw [hscore]
    exact min_le_left _ _

/-- The double `(11 / 12) * 70 + (1 / 9) * 30` is `67.49999999999999`. -/
theorem tiers_eleven_twelfths_one_ninth :
    fl (fl (fl ((11 : ℚ) / 12) * 70) + fl (fl ((1 : ℚ) / 9) * 30)) =
      4749890231992319 / 70368744177664 := by
  have h1 : fl ((11 : ℚ) / 12) = 8256599316845909 / 9007199254740992 :=
    fl_eval _ _ (-1) 8256599316845909 (by norm_num) (by norm_num)
      (by rw [abs_lt]; constructor <;> norm_num) (by norm_num)
  have h2 : fl ((8256599316845909 : ℚ) / 9007199254740992 * 70) =
      2257663875700053 / 35184372088832 :=
    fl_eval _ _ 6 4515327751400106 (by norm_num) (by norm_num)
      (by rw [abs_lt]; constructor <;> norm_num) (by norm_num)
  have h3 : fl ((1 : ℚ) / 9) = 2001599834386887 / 18014398509481984 :=
    fl_eval _ _ (-4) 8006399337547548 (by norm_num) (by norm_num)
      (by rw [abs_lt]; constructor <;> norm_num) (by norm_num)
  have h4 : fl ((2001599834386887 : ℚ) / 18014398509481984 * 30) =
      3752999689475413 / 1125899906842624 :=
    fl_eval _ _ 1 7505999378950826 (by norm_num) (by norm_num)
      (by rw [abs_lt]; constructor <;> norm_num) (by norm_num)
  have h5 : fl ((2257663875700053 : ℚ) / 35184372088832 +
      3752999689475413 / 1125899906842624) = 4749890231992319 / 70368744177664 :=
    fl_eval _ _ 6 4749890231992319 (by norm_num) (by norm_num)
      (by rw [abs_lt]; constructor <;> norm_num) (by norm_num)
  rw [h1, h2, h3, h4, h5]

/-- C17 fails as stated: with 11 of 12 required and 1 of 9 preferred skills matched the
exact total `70 * 11 / 12 + 30 * 1 / 9` is `67.5`, which rounds to 68, while the code
computes `67.49999999999999` and returns 67. -/
theorem matchScore_tie_counterexample :
    (MatchingAlgorithm.calculateMatchScore
        ["a", "b", "c", "d", "e", "f", "g", "h", "i", "j", "k", "m"]
        ["a", "b", "c", "d", "e", "f", "g", "h", "i", "j", "k", "l"]
        ["m", "n", "o", "p", "q", "r", "s", "t", "u"]).score = 67 ∧
    min 100 (round ((70 : ℚ) * 11 / 12 + 30 * 1 / 9)) = 68 ∧
    ¬ ((MatchingAlgorithm.calculateMatchScore
        ["a", "b", "c", "d", "e", "f", "g", "h", "i", "j", "k", "m"]
        ["a", "b", "c", "d", "e", "f", "g", "h", "i", "j", "k", "l"]
        ["m", "n", "o", "p", "q", "r", "s", "t", "u"]).score =
      min 100 (round ((70 : ℚ) * 11 / 12 + 30 * 1 / 9))) := by
  have hr : ((["a", "b", "c", "d", "e", "f", "g", "h", "i", "j", "k", "l"].map toLowerCase).filter
      (fun skill => decide (skill ∈
        (["a", "b", "c", "d", "e", "f", "g", "h", "i", "j", "k", "m"] : List String).map
          toLowerCase))).length = 11 := by decide
  have hp : ((["m", "n", "o", "p", "q", "r", "s", "t", "u"].map toLowerCase).filter
      (fun skill => decide (skill ∈
        (["a", "b", "c", "d", "e", "f", "g", "h", "i", "j", "k", "m"] : List String).map
          toLowerCase))).length = 1 := by decide
  have hs : (MatchingAlgorithm.calculateMatchScore
        ["a", "b", "c", "d", "e", "f", "g", "h", "i", "j", "k", "m"]
        ["a", "b", "c", "d", "e", "f", "g", "h", "i", "j", "k", "l"]
        ["m", "n", "o", "p", "q", "r", "s", "t", "u"]).score = 67 := by
    rw [matchScore_score_eq, hr, hp]
    simp only [List.length_cons, List.length_nil]
    rw [if_pos (by norm_num), if_pos (by norm_num)]
    push_cast
    norm_num only
    rw [tiers_eleven_twelfths_one_ninth]
    have : jsRound ((4749890231992319 : ℚ) / 70368744177664) = 67 := by
      rw [jsRound_eq_iff]; norm_num
    rw [this]
    decide
  have he : min 100 (round ((70 : ℚ) * 11 / 12 + 30 * 1 / 9)) = 68 := by
    have : round ((70 : ℚ) * 11 / 12 + 30 * 1 / 9) = 68 := by
      rw [← jsRound_eq_round, jsRound_eq_iff]; norm_num
    rw [this]
    decide
  refine ⟨hs, he, ?_⟩
  rw [hs, he]
  decide

/-- A use of `matchScore_formula`: one of two required skills and no preferred list. -/
theorem matchScore_formula_witness :
    (["js", "react"] : List String).length < 2 ^ 20 ∧ ([] : List String).length < 2 ^ 20 ∧
    (∀ k : ℤ,
      (if (["js", "react"] : List String) = [] then (0 : ℚ)
       else 70 * ((((["js", "react"] : List String).map toLowerCase).filter
          (fun skill => decide (skill ∈ (["JS"] : List String).map toLowerCase))).length : ℚ) /
            ((["js", "react"] : List String).length : ℚ)) +
      (if ([] : List String) = [] then (0 : ℚ)
       else 30 * (((([] : List String).map toLowerCase).filter
          (fun skill => decide (skill ∈ (["JS"] : List String).map toLowerCase))).length : ℚ) /
            (([] : List String).length : ℚ)) ≠ k + 1 / 2) ∧
    (MatchingAlgorithm.calculateMatchScore ["JS"] ["js", "react"] []).score =
      min 100 (round (
        (if (["js", "react"] : List String) = [] then (0 : ℚ)
         else 70 * ((((["js", "react"] : List String).map toLowerCase).filter
            (fun skill => decide (skill ∈ (["JS"] : List String).map toLowerCase))).length : ℚ) /
              ((["js", "react"] : List String).length : ℚ)) +
        (if ([] : List String) = [] then (0 : ℚ)
         else 30 * (((([] : List String).map toLowerCase).filter
            (fun skill => decide (skill ∈ (["JS"] : List String).map toLowerCase))).length : ℚ) /
              (([] : List String).length : ℚ)))) := by
  have hf : ((((["js", "react"] : List String).map toLowerCase).filter
      (fun skill => decide (skill ∈ (["JS"] : List String).map toLowerCase))).length) = 1 := by
    decide
  have hno : ∀ k : ℤ,
      (if (["js", "react"] : List String) = [] then (0 : ℚ)
       else 70 * ((((["js", "react"] : List String).map toLowerCase).filter
          (fun skill => decide (skill ∈ (["JS"] : List String).map toLowerCase))).length : ℚ) /
            ((["js", "react"] : List String).length : ℚ)) +
      (if ([] : List String) = [] then (0 : ℚ)
       else 30 * (((([] : List String).map toLowerCase).filter
          (fun skill => decide (skill ∈ (["JS"] : List String).map toLowerCase))).length : ℚ) /
            (([] : List String).length : ℚ)) ≠ k + 1 / 2 := by
    intro k hk
    rw [hf] at hk
    simp only [if_neg (List.cons_ne_nil _ _), if_true, List.length_cons, List.length_nil] at hk
    have h2 : ((69 : ℤ) : ℚ) = ((2 * k : ℤ) : ℚ) := by
      push_cast at hk ⊢
      linarith
    have := Int.cast_injective h2
    omega
  exact ⟨by decide, by decide, hno,
    ((matchScore_formula ["JS"] ["js", "react"] []).2.1 (by decide) (by decide)).2 hno⟩

theorem missing_filter_eq (candidateSkills jobSkills : List String) :
    jobSkills.filter (fun skill => !setHas (candidateSkillSetOf candidateSkills)
        (toLowerCase skill)) =
      jobSkills.filter
        (fun skill => decide (toLowerCase skill ∉ candidateSkills.map toLowerCase)) := by
  apply List.filter_congr
  intro skill _
  rw [setHas_candidateSkillSetOf]
  by_cases h : toLowerCase skill ∈ candidateSkills.map toLowerCase <;> simp [h]

theorem mem_three_optional (pa pb pc : Prop) [Decidable pa] [Decidable pb] [Decidable pc]
    (a b c : Suggestion) (k : String) :
    (∃ s ∈ (if pa then [a] else []) ++ (if pb then [b] else []) ++ (if pc then [c] else []),
        s.category = k) ↔
      (pa ∧ a.category = k) ∨ (pb ∧ b.category = k) ∨ (pc ∧ c.category = k) := by
  by_cases ha : pa <;> by_cases hb : pb <;> by_cases hc : pc <;> simp [ha, hb, hc]

/-- C18: `generateImprovementSuggestions` returns, in this order and nothing else, a
`Critical Skills Gap` suggestion of priority `high` exactly when some required skill is
absent, case-insensitively, from the candidate's skills, naming the absent required
skills in job order; a `Skill Enhancement` suggestion of priority `medium` exactly when
some preferred skill is absent, naming those; and the `Skill Diversity` suggestion
exactly when the candidate lists fewer than 5 skills. -/
theorem suggestions_spec (candidateSkills jobRequiredSkills jobPreferredSkills : List String) :
    MatchingAlgorithm.generateImprovementSuggestions candidateSkills jobRequiredSkills
        jobPreferredSkills =
      (if jobRequiredSkills.filter
            (fun skill => decide (toLowerCase skill ∉ candidateSkills.map toLowerCase)) ≠ [] then
        [⟨"Critical Skills Gap", "Learn these required skills: " ++
            ", ".intercalate (jobRequiredSkills.filter
              (fun skill => decide (toLowerCase skill ∉ candidateSkills.map toLowerCase))),
          "high"⟩]
       else []) ++
      (if jobPreferredSkills.filter
            (fun skill => decide (toLowerCase skill ∉ candidateSkills.map toLowerCase)) ≠ [] then
        [⟨"Skill Enhancement", "Consider learning these preferred skills: " ++
            ", ".intercalate (jobPreferredSkills.filter
              (fun skill => decide (toLowerCase skill ∉ candidateSkills.map toLowerCase))),
          "medium"⟩]
       else []) ++
      (if candidateSkills.length < 5 then
        [⟨"Skill Diversity", "Consider adding more technical skills to your resume",
          "medium"⟩]
       else []) ∧
    ((∃ s ∈ MatchingAlgorithm.generateImprovementSuggestions candidateSkills jobRequiredSkills
          jobPreferredSkills, s.category = "Critical Skills Gap") ↔
      ∃ skill ∈ jobRequiredSkills, toLowerCase skill ∉ candidateSkills.map toLowerCase) ∧
    ((∃ s ∈ MatchingAlgorithm.generateImprovementSuggestions candidateSkills jobRequiredSkills
          jobPreferredSkills, s.category = "Skill Enhancement") ↔
      ∃ skill ∈ jobPreferredSkills, toLowerCase skill ∉ candidateSkills.map toLowerCase) ∧
    ((∃ s ∈ MatchingAlgorithm.generateImprovementSuggestions candidateSkills jobRequiredSkills
          jobPreferredSkills, s.category = "Skill Diversity") ↔
      candidateSkills.length < 5) := by
  have heq : MatchingAlgorithm.generateImprovementSuggestions candidateSkills jobRequiredSkills
        jobPreferredSkills =
      (if jobRequiredSkills.filter
            (fun skill => decide (toLowerCase skill ∉ candidateSkills.map toLowerCase)) ≠ [] then
        [⟨"Critical Skills Gap", "Learn these required skills: " ++
            ", ".intercalate (jobRequiredSkills.filter
              (fun skill => decide (toLowerCase skill ∉ candidateSkills.map toLowerCase))),
          "high"⟩]
       else []) ++
      (if jobPreferredSkills.filter
            (fun skill => decide (toLowerCase skill ∉ candidateSkills.map toLowerCase)) ≠ [] then
        [⟨"Skill Enhancement", "Consider learning these preferred skills: " ++
            ", ".intercalate (jobPreferredSkills.filter
              (fun skill => decide (toLowerCase skill ∉ candidateSkills.map toLowerCase))),
          "medium"⟩]
       else []) ++
      (if candidateSkills.length < 5 then
        [⟨"Skill Diversity", "Consider adding more technical skills to your resume",
          "medium"⟩]
       else []) := by
    simp only [MatchingAlgorithm.generateImprovementSuggestions, missing_filter_eq, joinComma,
      List.nil_append, gt_iff_lt, List.length_pos]
    split_ifs <;> simp
  have hne : ∀ js : List String,
      js.filter (fun skill => decide (toLowerCase skill ∉ candidateSkills.map toLowerCase)) ≠ [] ↔
        ∃ skill ∈ js, toLowerCase skill ∉ candidateSkills.map toLowerCase := by
    intro js
    rw [ne_eq, List.filter_eq_nil_iff]
    push_neg
    simp
  have d1 : ¬ ("Skill Enhancement" = "Critical Skills Gap") := by decide
  have d2 : ¬ ("Skill Diversity" = "Critical Skills Gap") := by decide
  have d3 : ¬ ("Critical Skills Gap" = "Skill Enhancement") := by decide
  have d4 : ¬ ("Skill Diversity" = "Skill Enhancement") := by decide
  have d5 : ¬ ("Critical Skills Gap" = "Skill Diversity") := by decide
  have d6 : ¬ ("Skill Enhancement" = "Skill Diversity") := by decide
  refine ⟨heq, ?_, ?_, ?_⟩
  · rw [heq, mem_three_optional, ← hne]
    simp only [d1, d2, and_false, or_false, and_true]
  · rw [heq, mem_three_optional, ← hne]
    simp only [d3, d4, and_false, or_false, false_or, and_true]
  · rw [heq, mem_three_optional]
    simp only [d5, d6, and_false, false_or, and_true]

theorem numOr_zero (x : ℚ) : numOr x 0 = x := by
  unfold numOr
  split_ifs with h
  · exact h.symm
  · rfl

theorem calculateExperienceScore_band (e min max : ℚ) (he : 0 ≤ e) :
    ResumeRanker.calculateExperienceScore e (some ⟨min, max⟩) =
      if min ≤ e ∧ e ≤ numOr max 10 then 1
      else if numOr max 10 < e then 4 / 5
      else e / min := by
  unfold ResumeRanker.calculateExperienceScore
  simp only [numOr_zero, ge_iff_le, gt_iff_lt]
  split_ifs with h1 h2
  · rfl
  · rfl
  · have hlt : e < min := by
      by_contra hc
      exact h1 ⟨not_lt.mp hc, not_lt.mp h2⟩
    have hpos : 0 < min := lt_of_le_of_lt he hlt
    exact max_eq_right (div_nonneg he hpos.le)

/-- C19 fails as stated: for the band `{min: 0, max: 0}` and a candidate with 5 years the
maximum `0` is falsy and replaced by `10`, so the score is `1.0` although `5 > max`. -/
theorem experienceScore_counterexample :
    ResumeRanker.calculateExperienceScore 5 (some ⟨0, 0⟩) = 1 ∧
    ¬ ((5 : ℚ) > (0 : ℚ) → ResumeRanker.calculateExperienceScore 5 (some ⟨0, 0⟩) = 4 / 5) := by
  have h : ResumeRanker.calculateExperienceScore 5 (some ⟨0, 0⟩) = 1 := by
    rw [calculateExperienceScore_band 5 0 0 (by norm_num)]
    norm_num [numOr]
  refine ⟨h, ?_⟩
  rw [h]
  norm_num

/-- C19, as the code has it: for a candidate experience `e >= 0` and a band
`{min, max}`, with `maxExp` being `max`, or `10` when `max` is `0`, the score is `1.0`
when `min <= e <= maxExp`, `0.8` when `e > maxExp`, and `e / min` otherwise; for a band
whose `max` is not `0` these are the cases over `max` itself, and without a band the
bounds are `0` and `10`. -/
theorem experienceScore_cases (e min max : ℚ) (he : 0 ≤ e) :
    ResumeRanker.calculateExperienceScore e (some ⟨min, max⟩) =
        (if min ≤ e ∧ e ≤ (if max = 0 then 10 else max) then 1
         else if (if max = 0 then 10 else max) < e then 4 / 5
         else e / min) ∧
    (max ≠ 0 →
      ResumeRanker.calculateExperienceScore e (some ⟨min, max⟩) =
        (if min ≤ e ∧ e ≤ max then 1 else if max < e then 4 / 5 else e / min)) ∧
    ResumeRanker.calculateExperienceScore e none = (if e ≤ 10 then 1 else 4 / 5) := by
  refine ⟨calculateExperienceScore_band e min max he, ?_, ?_⟩
  · intro hmax
    rw [calculateExperienceScore_band e min max he]
    simp only [numOr, if_neg hmax]
  · unfold ResumeRanker.calculateExperienceScore
    simp only [numOr_zero, ge_iff_le, gt_iff_lt]
    by_cases h : e ≤ 10
    · rw [if_pos ⟨he, h⟩, if_pos h]
    · rw [if_neg (fun hc => h hc.2), if_pos (not_le.mp h), if_neg h]

/-- A use of `experienceScore_cases`: three years against the band 5 to 8. -/
theorem experienceScore_cases_witness :
    (0 : ℚ) ≤ 3 ∧ (8 : ℚ) ≠ 0 ∧
    ResumeRanker.calculateExperienceScore 3 (some ⟨5, 8⟩) =
      (if (5 : ℚ) ≤ 3 ∧ (3 : ℚ) ≤ 8 then 1 else if (8 : ℚ) < 3 then 4 / 5 else 3 / 5) :=
  ⟨by norm_num, by norm_num, (experienceScore_cases 3 5 8 (by norm_num)).2.1 (by norm_num)⟩

theorem scoreGe_total : ∀ a b : RankedResume, scoreGe a b ∨ scoreGe b a :=
  fun a b => le_total b.overallScore a.overallScore

theorem scoreGe_trans : ∀ a b c : RankedResume, scoreGe a b → scoreGe b c → scoreGe a c :=
  fun _ _ _ hab hbc => le_trans hbc hab

/-- C20: `rankResumes` returns the input resumes in another order (a permutation, of the
same length), each annotated with the scores of `calculateMatchScore` and with
`overallScore = 0.4 * skills + 0.3 * experience + 0.2 * education + 0.1 * keywords`, in
order of non-increasing `overallScore`. -/
theorem rankResumes_sorted_permutation (natural : Natural) (resumes : List ResumeData)
    (job : JobData) :
    ((ResumeRanker.rankResumes natural resumes job).map (fun r => r.resume)).Perm resumes ∧
    (ResumeRanker.rankResumes natural resumes job).length = resumes.length ∧
    (∀ r ∈ ResumeRanker.rankResumes natural resumes job,
      r.matchScores = ResumeRanker.calculateMatchScore natural r.resume job ∧
      r.overallScore =
        (2 / 5 : ℚ) * ResumeRanker.calculateSkillsScore r.resume.skills job.skills +
        (3 / 10 : ℚ) *
          ResumeRanker.calculateExperienceScore r.resume.experience job.experience +
        (1 / 5 : ℚ) *
          ResumeRanker.calculateEducationScore r.resume.education job.requirements +
        (1 / 10 : ℚ) * ResumeRanker.calculateKeywordScore natural r.resume.text job) ∧
    (ResumeRanker.rankResumes natural resumes job).Pairwise
      (fun a b => a.overallScore ≥ b.overallScore) := by
  have hperm := List.perm_insertionSort scoreGe
    (resumes.map (fun resume =>
      ({ resume := resume,
         matchScores := ResumeRanker.calculateMatchScore natural resume job,
         overallScore := (ResumeRanker.calculateMatchScore natural resume job).overall }
        : RankedResume)))
  refine ⟨?_, ?_, ?_, ?_⟩
  · have h := hperm.map (fun r => r.resume)
    simp only [List.map_map] at h
    have hid : (fun (r : RankedResume) => r.resume) ∘ (fun resume =>
      ({ resume := resume,
         matchScores := ResumeRanker.calculateMatchScore natural resume job,
         overallScore := (ResumeRanker.calculateMatchScore natural resume job).overall }
        : RankedResume)) = id := rfl
    rw [hid, List.map_id] at h
    exact h
  · have h := hperm.length_eq
    rw [List.length_map] at h
    exact h
  · intro r hr
    have hmem := hperm.mem_iff.mp hr
    obtain ⟨resume, _, rfl⟩ := List.mem_map.mp hmem
    refine ⟨rfl, ?_⟩
    simp only [ResumeRanker.calculateMatchScore]
    ring
  · exact @List.sorted_insertionSort _ scoreGe _ ⟨scoreGe_total⟩ ⟨scoreGe_trans⟩ _

theorem assignScreening_fields (c : Candidate) (result : DynResult) :
    ((hydrate c).assignScreening result).fields =
      { c with screeningResults := some result, score := result.overallScore,
               status := Status.screened } := by
  unfold Document.assignScreening Document.setStatus hydrate
  simp only
  split_ifs with h
  · simp only at h
    cases c
    simp only at h
    subst h
    rfl
  · rfl

theorem assignScreening_modified (c : Candidate) (result : DynResult) :
    ((hydrate c).assignScreening result).statusModified =
      decide (c.status ≠ Status.screened) := by
  unfold Document.assignScreening Document.setStatus hydrate
  simp only
  split_ifs with h
  · simp only at h
    simp [h]
  · simp only at h
    simp [h]

theorem save_ok_fields (persist : Candidate → Except JsError Unit) (now : ℕ) (d d' : Document)
    (h : d.save persist now = .ok d') : d'.fields = (preSaveHook now d).fields := by
  unfold Document.save at h
  simp only at h
  split at h
  · exact (congrArg Document.fields (Except.ok.inj h)).symm
  · cases h

theorem preSaveHook_fields (now : ℕ) (d : Document) :
    (preSaveHook now d).fields =
      { d.fields with statusHistory :=
          if d.statusModified then d.fields.statusHistory ++ [⟨d.fields.status, now⟩]
          else d.fields.statusHistory } := by
  unfold preSaveHook
  split_ifs <;> rfl

theorem saved_fields (persist : Candidate → Except JsError Unit) (now : ℕ) (c : Candidate)
    (result : DynResult) (d' : Document)
    (h : ((hydrate c).assignScreening result).save persist now = .ok d') :
    d'.fields =
      { c with screeningResults := some result, score := result.overallScore,
               status := Status.screened,
               statusHistory :=
                 if c.status ≠ Status.screened then c.statusHistory ++ [⟨Status.screened, now⟩]
                 else c.statusHistory } := by
  rw [save_ok_fields persist now _ d' h, preSaveHook_fields, assignScreening_fields,
    assignScreening_modified]
  by_cases hs : c.status = Status.screened <;> simp [hs]

theorem screenResumeDyn_job_ok (resume : Option DynResume) (job : DynJob) :
    ∃ r, screenResumeDyn resume (some job) = .ok r := by
  unfold screenResumeDyn
  cases tryBlock resume (some job) with
  | ok r => exact ⟨_, rfl⟩
  | error e => exact ⟨_, rfl⟩

theorem save_of_persist_ok (persist : Candidate → Except JsError Unit) (now : ℕ) (d : Document)
    (h : persist (preSaveHook now d).fields = .ok ()) :
    d.save persist now = .ok { fields := (preSaveHook now d).fields, statusModified := false } := by
  unfold Document.save
  simp only [h]

/-- C21: the single-resume screening step leaves the candidate, whatever its prior
status, with `screeningResults = result`, `score = result.overallScore` and
`status = 'screened'`, in memory and, when the save succeeds, in the stored record; the
route answers with that record. -/
theorem screening_step (c : Candidate) (result : DynResult) :
    (((hydrate c).assignScreening result).fields.screeningResults = some result ∧
      ((hydrate c).assignScreening result).fields.score = result.overallScore ∧
      ((hydrate c).assignScreening result).fields.status = Status.screened) ∧
    (∀ prior : Status,
      ((hydrate { c with status := prior }).assignScreening result).fields =
        ((hydrate c).assignScreening result).fields) ∧
    (∀ (persist : Candidate → Except JsError Unit) (now : ℕ) (saved : Document),
      ((hydrate c).assignScreening result).save persist now = .ok saved →
      saved.fields.screeningResults = some result ∧
        saved.fields.score = result.overallScore ∧
        saved.fields.status = Status.screened) ∧
    (∀ (findResume : String → Except JsError (Option Candidate))
        (findJob : String → Except JsError (Option DynJob))
        (persist : Candidate → Except JsError Unit) (now : ℕ) (resumeId : String)
        (job : DynJob),
      findResume resumeId = .ok (some c) → findJob c.jobId = .ok (some job) →
      (∀ x, persist x = .ok ()) →
      ∃ saved r, screenSingleRoute findResume findJob persist now resumeId = .ok saved r ∧
        screenResumeDyn (some c.toDyn) (some job) = .ok r ∧
        saved.screeningResults = some r ∧ saved.score = r.overallScore ∧
        saved.status = Status.screened) := by
  refine ⟨?_, ?_, ?_, ?_⟩
  · rw [assignScreening_fields]
    exact ⟨rfl, rfl, rfl⟩
  · intro prior
    rw [assignScreening_fields, assignScreening_fields]
  · intro persist now saved h
    rw [saved_fields persist now c result saved h]
    exact ⟨rfl, rfl, rfl⟩
  · intro findResume findJob persist now resumeId job h1 h2 hp
    obtain ⟨r, hr⟩ := screenResumeDyn_job_ok (some c.toDyn) job
    have hsave := save_of_persist_ok persist now ((hydrate c).assignScreening r) (hp _)
    have hf := saved_fields persist now c r _ hsave
    refine ⟨(preSaveHook now ((hydrate c).assignScreening r)).fields, r, ?_, hr, ?_⟩
    · simp only [screenSingleRoute, h1, h2, hr, hsave]
    · simp only at hf
      rw [hf]
      exact ⟨rfl, rfl, rfl⟩

/-- A use of `screening_step`: a shortlisted candidate is screened again. -/
theorem screening_step_witness :
    ∃ saved r,
      screenSingleRoute
          (fun _ => .ok (some ⟨"j1", some "java", [], 80, Status.shortlisted, [], none⟩))
          (fun _ => .ok (some ⟨.arr [.str "Java"], .arr [], none⟩))
          (fun _ => .ok ()) 7 "r1" = .ok saved r ∧
        screenResumeDyn (some ⟨.str "java", []⟩)
          (some ⟨.arr [.str "Java"], .arr [], none⟩) = .ok r ∧
        saved.screeningResults = some r ∧ saved.score = r.overallScore ∧
        saved.status = Status.screened :=
  (screening_step ⟨"j1", some "java", [], 80, Status.shortlisted, [], none⟩
      ⟨0, 0, 0, [], .undefined, 0⟩).2.2.2
    (fun _ => .ok (some ⟨"j1", some "java", [], 80, Status.shortlisted, [], none⟩))
    (fun _ => .ok (some ⟨.arr [.str "Java"], .arr [], none⟩))
    (fun _ => .ok ()) 7 "r1" ⟨.arr [.str "Java"], .arr [], none⟩ rfl rfl (fun _ => rfl)

/-- C22 fails as stated: a candidate that is already `screened` is screened again and
saved; the status is assigned the value it has, the path is not marked modified, and the
hook appends nothing: the history still has its one entry. -/
theorem rescreen_history_counterexample :
    ((hydrate ⟨"j1", some "java", [], 50, Status.screened, [⟨Status.screened, 1⟩], none⟩
        ).assignScreening ⟨0, 0, 0, [], .undefined, 0⟩).save (fun _ => .ok ()) 2 =
      .ok ⟨⟨"j1", some "java", [], 0, Status.screened, [⟨Status.screened, 1⟩],
            some ⟨0, 0, 0, [], .undefined, 0⟩⟩, false⟩ ∧
    ¬ ∃ saved : Document,
        ((hydrate ⟨"j1", some "java", [], 50, Status.screened, [⟨Status.screened, 1⟩], none⟩
          ).assignScreening ⟨0, 0, 0, [], .undefined, 0⟩).save (fun _ => .ok ()) 2 = .ok saved ∧
        saved.fields.statusHistory = [⟨Status.screened, 1⟩] ++ [⟨Status.screened, 2⟩] := by
  have h : ((hydrate ⟨"j1", some "java", [], 50, Status.screened, [⟨Status.screened, 1⟩], none⟩
        ).assignScreening ⟨0, 0, 0, [], .undefined, 0⟩).save (fun _ => .ok ()) 2 =
      .ok ⟨⟨"j1", some "java", [], 0, Status.screened, [⟨Status.screened, 1⟩],
            some ⟨0, 0, 0, [], .undefined, 0⟩⟩, false⟩ := rfl
  refine ⟨h, ?_⟩
  rintro ⟨saved, hs, hh⟩
  rw [h] at hs
  have := Except.ok.inj hs
  rw [← this] at hh
  simp at hh

/-- C22, as the code has it: a successful screening of a candidate whose prior status
is not `screened` appends exactly one entry with status `screened` at the end of
`statusHistory`; a successful screening of a candidate that is already `screened`
leaves the history as it is; in both cases the old history is a prefix of the new one. -/
theorem screening_history (c : Candidate) (result : DynResult)
    (persist : Candidate → Except JsError Unit) (now : ℕ) (saved : Document)
    (h : ((hydrate c).assignScreening result).save persist now = .ok saved) :
    (c.status ≠ Status.screened →
      saved.fields.statusHistory = c.statusHistory ++ [⟨Status.screened, now⟩]) ∧
    (c.status = Status.screened → saved.fields.statusHistory = c.statusHistory) ∧
    c.statusHistory <+: saved.fields.statusHistory := by
  have hf := saved_fields persist now c result saved h
  refine ⟨?_, ?_, ?_⟩
  · intro hs
    rw [hf]
    simp only [hs, ne_eq, not_false_eq_true, if_true]
  · intro hs
    rw [hf]
    simp only [hs, ne_eq, not_true_eq_false, if_false]
  · rw [hf]
    simp only
    split_ifs
    · exact List.prefix_append _ _
    · exact List.prefix_refl _

/-- A use of `screening_history`: a new candidate with an empty history. -/
theorem screening_history_witness :
    (Status.new ≠ Status.screened) ∧
    ((hydrate ⟨"j1", some "java", [], 0, Status.new, [], none⟩).assignScreening
        ⟨0, 0, 0, [], .undefined, 0⟩).save (fun _ => .ok ()) 2 =
      .ok ⟨⟨"j1", some "java", [], 0, Status.screened, [⟨Status.screened, 2⟩],
            some ⟨0, 0, 0, [], .undefined, 0⟩⟩, false⟩ ∧
    (⟨⟨"j1", some "java", [], 0, Status.screened, [⟨Status.screened, 2⟩],
        some ⟨0, 0, 0, [], .undefined, 0⟩⟩, false⟩ : Document).fields.statusHistory =
      [] ++ [⟨Status.screened, 2⟩] :=
  ⟨by decide, rfl,
    (screening_history ⟨"j1", some "java", [], 0, Status.new, [], none⟩
      ⟨0, 0, 0, [], .undefined, 0⟩ (fun _ => .ok ()) 2
      ⟨⟨"j1", some "java", [], 0, Status.screened, [⟨Status.screened, 2⟩],
        some ⟨0, 0, 0, [], .undefined, 0⟩⟩, false⟩ rfl).1 (by decide)⟩

theorem foldl_bulkStep (persist : Candidate → Except JsError Unit) (now : Candidate → ℕ)
    (job : DynJob) (resumes : List Candidate) (st : BulkState) :
    resumes.foldl (bulkStep persist now job) st =
      { stored := st.stored ++ resumes.map (storedAfter persist now job),
        screenedCount := st.screenedCount +
          (resumes.filter (fun c => succeeded (screenOne persist now job c))).length } := by
  induction resumes generalizing st with
  | nil => simp
  | cons c rest ih =>
    rw [List.foldl_cons, ih]
    unfold bulkStep storedAfter
    cases hc : screenOne persist now job c with
    | ok saved => simp [hc, succeeded, Nat.add_assoc, Nat.add_comm 1]
    | error e => simp [hc, succeeded]

theorem bulkScreen_eq (persist : Candidate → Except JsError Unit) (now : Candidate → ℕ)
    (job : DynJob) (resumes : List Candidate) :
    bulkScreen persist now job resumes =
      { stored := resumes.map (storedAfter persist now job),
        screenedCount :=
          (resumes.filter (fun c => succeeded (screenOne persist now job c))).length } := by
  unfold bulkScreen
  rw [foldl_bulkStep]
  simp

theorem screenOne_ok_iff (persist : Candidate → Except JsError Unit) (now : Candidate → ℕ)
    (job : DynJob) (c : Candidate) :
    succeeded (screenOne persist now job c) = true ↔
      ∃ r, screenResumeDyn (some c.toDyn) (some job) = .ok r ∧
        succeeded (((hydrate c).assignScreening r).save persist (now c)) = true := by
  obtain ⟨r, hr⟩ := screenResumeDyn_job_ok (some c.toDyn) job
  unfold screenOne
  rw [hr]
  simp only
  constructor
  · intro h
    refine ⟨r, rfl, ?_⟩
    cases hs : ((hydrate c).assignScreening r).save persist (now c) with
    | ok d => rfl
    | error e => rw [hs] at h; simp [succeeded] at h
  · rintro ⟨r', hr', hs⟩
    have : r' = r := (Except.ok.inj hr').symm
    subst this
    cases hs' : ((hydrate c).assignScreening r').save persist (now c) with
    | ok d => rfl
    | error e => rw [hs'] at hs; simp [succeeded] at hs

/-- C23: in bulk screening the stored record of every candidate is what its own callback
makes of it, whatever happens to the others, and the reported count is the number of
candidates whose screening and save both succeeded, at most the number attempted. -/
theorem bulk_isolation (persist : Candidate → Except JsError Unit) (now : Candidate → ℕ)
    (job : DynJob) (resumes : List Candidate) :
    (bulkScreen persist now job resumes).stored =
        resumes.map (storedAfter persist now job) ∧
    (bulkScreen persist now job resumes).screenedCount =
        (resumes.filter (fun c => succeeded (screenOne persist now job c))).length ∧
    (∀ c, succeeded (screenOne persist now job c) = true ↔
      ∃ r, screenResumeDyn (some c.toDyn) (some job) = .ok r ∧
        succeeded (((hydrate c).assignScreening r).save persist (now c)) = true) ∧
    (∀ before after c saved, resumes = before ++ c :: after →
      screenOne persist now job c = .ok saved →
      (bulkScreen persist now job resumes).stored[before.length]? = some saved ∧
        saved.status = Status.screened) ∧
    (bulkScreen persist now job resumes).screenedCount ≤ resumes.length ∧
    (∀ (findNew : String → Except JsError (List Candidate))
        (findJob : String → Except JsError (Option DynJob)) (jobId : String),
      findNew jobId = .ok resumes → findJob jobId = .ok (some job) →
      bulkScreenRoute findNew findJob persist now jobId =
        .done (resumes.filter (fun c => succeeded (screenOne persist now job c))).length
          resumes.length) := by
  have heq := bulkScreen_eq persist now job resumes
  refine ⟨by rw [heq], by rw [heq], screenOne_ok_iff persist now job, ?_, ?_, ?_⟩
  · intro before after c saved hres hc
    constructor
    · rw [heq, hres]
      simp only [List.map_append, List.map_cons]
      rw [List.getElem?_append_right (by simp)]
      simp [storedAfter, hc]
    · unfold screenOne at hc
      obtain ⟨r, hr⟩ := screenResumeDyn_job_ok (some c.toDyn) job
      rw [hr] at hc
      simp only at hc
      cases hs : ((hydrate c).assignScreening r).save persist (now c) with
      | error e => rw [hs] at hc; cases hc
      | ok d =>
        rw [hs] at hc
        have hd : d.fields = saved := Except.ok.inj hc
        rw [← hd, saved_fields persist (now c) c r d hs]
  · rw [heq]
    exact List.length_filter_le _ _
  · intro findNew findJob jobId h1 h2
    simp only [bulkScreenRoute, h1, h2, heq]

/-- A use of `bulk_isolation`: two resumes of which the second cannot be written. -/
theorem bulk_isolation_witness :
    bulkScreenRoute
        (fun _ => .ok [⟨"j1", some "java", [], 0, Status.new, [], none⟩,
                       ⟨"j1", some "java", ["unwritable"], 0, Status.new, [], none⟩])
        (fun _ => .ok (some ⟨.arr [.str "Java"], .arr [], none⟩))
        (fun c => if c.skills = ["unwritable"] then .error .typeError else .ok ())
        (fun _ => 3) "j1" =
      .done ([(⟨"j1", some "java", [], 0, Status.new, [], none⟩ : Candidate),
              ⟨"j1", some "java", ["unwritable"], 0, Status.new, [], none⟩].filter
          (fun c => succeeded (screenOne
            (fun c => if c.skills = ["unwritable"] then .error .typeError else .ok ())
            (fun _ => 3) ⟨.arr [.str "Java"], .arr [], none⟩ c))).length
        [(⟨"j1", some "java", [], 0, Status.new, [], none⟩ : Candidate),
         ⟨"j1", some "java", ["unwritable"], 0, Status.new, [], none⟩].length ∧
    ([(⟨"j1", some "java", [], 0, Status.new, [], none⟩ : Candidate),
      ⟨"j1", some "java", ["unwritable"], 0, Status.new, [], none⟩].filter
        (fun c => succeeded (screenOne
          (fun c => if c.skills = ["unwritable"] then .error .typeError else .ok ())
          (fun _ => 3) ⟨.arr [.str "Java"], .arr [], none⟩ c))).length = 1 :=
  ⟨(bulk_isolation
      (fun c => if c.skills = ["unwritable"] then .error .typeError else .ok ())
      (fun _ => 3) ⟨.arr [.str "Java"], .arr [], none⟩
      [⟨"j1", some "java", [], 0, Status.new, [], none⟩,
       ⟨"j1", some "java", ["unwritable"], 0, Status.new, [], none⟩]).2.2.2.2.2
      (fun _ => .ok [⟨"j1", some "java", [], 0, Status.new, [], none⟩,
                     ⟨"j1", some "java", ["unwritable"], 0, Status.new, [], none⟩])
      (fun _ => .ok (some ⟨.arr [.str "Java"], .arr [], none⟩)) "j1" rfl rfl,
   by decide⟩

theorem screenOne_of_persist_ok (persist : Candidate → Except JsError Unit)
    (now : Candidate → ℕ) (job : DynJob) (c : Candidate) (hp : ∀ x, persist x = .ok ()) :
    ∃ r, screenResumeDyn (some c.toDyn) (some job) = .ok r ∧
      screenOne persist now job c =
        .ok { c with screeningResults := some r, score := r.overallScore,
                     status := Status.screened,
                     statusHistory :=
                       if c.status ≠ Status.screened then
                         c.statusHistory ++ [⟨Status.screened, now c⟩]
                       else c.statusHistory } := by
  obtain ⟨r, hr⟩ := screenResumeDyn_job_ok (some c.toDyn) job
  have hsave := save_of_persist_ok persist (now c) ((hydrate c).assignScreening r) (hp _)
  have hf := saved_fields persist (now c) c r _ hsave
  refine ⟨r, hr, ?_⟩
  unfold screenOne
  rw [hr]
  simp only [hsave]
  simp only at hf
  rw [hf]

theorem bulk_all_saved (persist : Candidate → Except JsError Unit) (now : Candidate → ℕ)
    (job : DynJob) (resumes : List Candidate) (hp : ∀ x, persist x = .ok ()) :
    (bulkScreen persist now job resumes).screenedCount = resumes.length ∧
      ∀ s ∈ (bulkScreen persist now job resumes).stored, s.status = Status.screened := by
  rw [bulkScreen_eq]
  constructor
  · simp only
    rw [List.filter_eq_self.mpr]
    intro c _
    obtain ⟨r, _, hs⟩ := screenOne_of_persist_ok persist now job c hp
    rw [hs]
    rfl
  · intro s hs
    simp only [List.mem_map] at hs
    obtain ⟨c, _, rfl⟩ := hs
    obtain ⟨r, _, hs⟩ := screenOne_of_persist_ok persist now job c hp
    unfold storedAfter
    rw [hs]

theorem screenResumeDyn_of_try_error (resume : Option DynResume) (job : DynJob) (e : JsError)
    (h : tryBlock resume (some job) = .error e) :
    screenResumeDyn resume (some job) = .ok (fallbackResult job) := by
  unfold screenResumeDyn
  rw [h]

/-- The `try` block on a hydrated resume document: only the job can make it throw. -/
theorem tryBlock_candidate (c : Candidate) (job : DynJob) :
    tryBlock (some c.toDyn) (some job) =
      (match job.skills.asStrings with
       | .error e => .error e
       | .ok skills =>
         match job.requirements.asStrings with
         | .error e => .error e
         | .ok requirements =>
           .ok (screenResume ⟨c.extractedText, c.skills⟩
                 ⟨skills, requirements, job.experience⟩)) := by
  obtain ⟨jobId, text, skills, score, status, history, results⟩ := c
  cases text <;> simp [tryBlock, Candidate.toDyn, Resume.toDyn, JsVal.asOptionalText]

/-- C24 fails as stated: of 10 new candidates the last has no extracted text, the one
defect the schema leaves possible; line 13 reads it as the empty text, scoring does not
throw, the candidate is saved as `screened` with the score 40 of a candidate without
the job's skill, and the count is 10 out of 10. -/
theorem bulk_corrupt_counterexample :
    tryBlock (some (Candidate.toDyn ⟨"j1", none, [], 0, Status.new, [], none⟩))
        (some ⟨.arr [.str "Java"], .arr [], none⟩) =
      .ok (screenResume ⟨none, []⟩ ⟨["Java"], [], none⟩) ∧
    bulkScreenRoute
        (fun _ => .ok (List.replicate 9 ⟨"j1", some "java", [], 0, Status.new, [], none⟩ ++
                       [⟨"j1", none, [], 0, Status.new, [], none⟩]))
        (fun _ => .ok (some ⟨.arr [.str "Java"], .arr [], none⟩))
        (fun _ => .ok ()) (fun _ => 3) "j1" = .done 10 10 ∧
    (storedAfter (fun _ => .ok ()) (fun _ => 3) ⟨.arr [.str "Java"], .arr [], none⟩
        ⟨"j1", none, [], 0, Status.new, [], none⟩).status = Status.screened ∧
    (storedAfter (fun _ => .ok ()) (fun _ => 3) ⟨.arr [.str "Java"], .arr [], none⟩
        ⟨"j1", none, [], 0, Status.new, [], none⟩).score = 40 ∧
    bulkScreenRoute
        (fun _ => .ok (List.replicate 9 ⟨"j1", some "java", [], 0, Status.new, [], none⟩ ++
                       [⟨"j1", none, [], 0, Status.new, [], none⟩]))
        (fun _ => .ok (some ⟨.arr [.str "Java"], .arr [], none⟩))
        (fun _ => .ok ()) (fun _ => 3) "j1" ≠ .done 9 10 := by
  have hcount := (bulk_all_saved (fun _ => .ok ()) (fun _ => 3)
    ⟨.arr [.str "Java"], .arr [], none⟩
    (List.replicate 9 ⟨"j1", some "java", [], 0, Status.new, [], none⟩ ++
      [⟨"j1", none, [], 0, Status.new, [], none⟩]) (fun _ => rfl)).1
  have hroute : bulkScreenRoute
        (fun _ => .ok (List.replicate 9 ⟨"j1", some "java", [], 0, Status.new, [], none⟩ ++
                       [⟨"j1", none, [], 0, Status.new, [], none⟩]))
        (fun _ => .ok (some ⟨.arr [.str "Java"], .arr [], none⟩))
        (fun _ => .ok ()) (fun _ => 3) "j1" = .done 10 10 := by
    simp only [bulkScreenRoute, hcount, List.length_append, List.length_replicate,
      List.length_cons, List.length_nil]
  have htry : tryBlock (some (Candidate.toDyn ⟨"j1", none, [], 0, Status.new, [], none⟩))
        (some ⟨.arr [.str "Java"], .arr [], none⟩) =
      .ok (screenResume ⟨none, []⟩ ⟨["Java"], [], none⟩) := rfl
  have hdyn : screenResumeDyn (some (Candidate.toDyn ⟨"j1", none, [], 0, Status.new, [], none⟩))
        (some ⟨.arr [.str "Java"], .arr [], none⟩) =
      .ok (screenResume ⟨none, []⟩ ⟨["Java"], [], none⟩).toDyn := by
    unfold screenResumeDyn
    rw [htry]
  obtain ⟨r, hr, hs⟩ := screenOne_of_persist_ok (fun _ => .ok ()) (fun _ => 3)
    ⟨.arr [.str "Java"], .arr [], none⟩ ⟨"j1", none, [], 0, Status.new, [], none⟩ (fun _ => rfl)
  rw [hdyn] at hr
  have hr' : r = (screenResume ⟨none, []⟩ ⟨["Java"], [], none⟩).toDyn := (Except.ok.inj hr).symm
  subst hr'
  have hm : (screenResume ⟨none, []⟩ ⟨["Java"], [], none⟩).matchedKeywords = [] := by
    rw [matched_eq]; decide
  have he : (screenResume ⟨none, []⟩ ⟨["Java"], [], none⟩).experienceMatch = 100 := by
    simp [screenResume, minExpOf, experienceMatchOf]
  have hov : (screenResume ⟨none, []⟩ ⟨["Java"], [], none⟩).overallScore = 40 := by
    rw [overallScore_field, he, hm]
    exact overallScoreOf_eq_of_gap _ 0 100 40
      (skillsScoreOf_mem_range 0 1 (by norm_num)).1 (skillsScoreOf_mem_range 0 1 (by norm_num)).2
      (by norm_num) (by norm_num)
      (by simpa using skillsScoreOf_error 0 1 (by norm_num) (by norm_num))
      (by norm_num) (by norm_num)
  refine ⟨htry, hroute, ?_, ?_, ?_⟩
  · unfold storedAfter
    rw [hs]
  · unfold storedAfter
    rw [hs]
    exact hov
  · rw [hroute]
    intro h
    injection h with h1 _
    exact absurd h1 (by decide)

/-- C24, as the code has it: in bulk screening no candidate record makes scoring fail
internally.  Whether the `try` block of `screenResume` throws depends on the job alone,
so it does for every candidate or for none, and for a schema-conforming job for none;
when it throws, `screenResume` still returns, with the zero-valued record.  A candidate
is left out of the count only when its save fails.  When every save succeeds every
candidate is counted and ends `screened`, a candidate scored by the `catch` handler
with that record and score `0`; with 10 candidates the count is 10 out of 10. -/
theorem bulk_counts_fallback (persist : Candidate → Except JsError Unit)
    (now : Candidate → ℕ) (job : DynJob) (resumes : List Candidate) :
    (∀ c c' : Candidate, (∃ e, tryBlock (some c.toDyn) (some job) = .error e) →
      ∃ e, tryBlock (some c'.toDyn) (some job) = .error e) ∧
    (∀ (j : Job) (c : Candidate),
      tryBlock (some c.toDyn) (some j.toDyn) =
        .ok (screenResume ⟨c.extractedText, c.skills⟩ j)) ∧
    (∀ c, succeeded (screenOne persist now job c) = false →
      ∃ r e, screenResumeDyn (some c.toDyn) (some job) = .ok r ∧
        ((hydrate c).assignScreening r).save persist (now c) = .error e) ∧
    ((∀ x, persist x = .ok ()) →
      (bulkScreen persist now job resumes).screenedCount = resumes.length ∧
      (∀ s ∈ (bulkScreen persist now job resumes).stored, s.status = Status.screened) ∧
      (∀ c ∈ resumes, ∀ e,
        tryBlock (some c.toDyn) (some job) = .error e →
        storedAfter persist now job c ∈ (bulkScreen persist now job resumes).stored ∧
          (storedAfter persist now job c).screeningResults = some (fallbackResult job) ∧
          (storedAfter persist now job c).score = 0 ∧
          (storedAfter persist now job c).status = Status.screened) ∧
      (∀ (findNew : String → Except JsError (List Candidate))
          (findJob : String → Except JsError (Option DynJob)) (jobId : String),
        findNew jobId = .ok resumes → findJob jobId = .ok (some job) →
        bulkScreenRoute findNew findJob persist now jobId =
          .done resumes.length resumes.length)) := by
  refine ⟨?_, ?_, ?_, ?_⟩
  · rintro c c' ⟨e, he⟩
    rw [tryBlock_candidate] at he ⊢
    cases hs : job.skills.asStrings with
    | error e' => exact ⟨e', rfl⟩
    | ok skills =>
      rw [hs] at he
      cases hq : job.requirements.asStrings with
      | error e' => exact ⟨e', rfl⟩
      | ok reqs =>
        rw [hq] at he
        cases he
  · intro j c
    rw [tryBlock_candidate]
    simp [Job.toDyn, asStrings_ofStrings]
  · intro c hc
    obtain ⟨r, hr⟩ := screenResumeDyn_job_ok (some c.toDyn) job
    unfold screenOne at hc
    rw [hr] at hc
    simp only at hc
    cases hs : ((hydrate c).assignScreening r).save persist (now c) with
    | ok d => rw [hs] at hc; simp [succeeded] at hc
    | error e => exact ⟨r, e, hr, hs⟩
  · intro hp
    obtain ⟨hcount, hall⟩ := bulk_all_saved persist now job resumes hp
    refine ⟨hcount, hall, ?_, ?_⟩
    · intro c hc e he
      have hfb := screenResumeDyn_of_try_error _ job e he
      obtain ⟨r, hr, hs⟩ := screenOne_of_persist_ok persist now job c hp
      rw [hfb] at hr
      have hr' : r = fallbackResult job := (Except.ok.inj hr).symm
      subst hr'
      have hst : storedAfter persist now job c =
          { c with screeningResults := some (fallbackResult job),
                   score := (fallbackResult job).overallScore,
                   status := Status.screened,
                   statusHistory :=
                     if c.status ≠ Status.screened then
                       c.statusHistory ++ [⟨Status.screened, now c⟩]
                     else c.statusHistory } := by
        unfold storedAfter
        rw [hs]
      refine ⟨?_, ?_, ?_, ?_⟩
      · rw [bulkScreen_eq]
        exact List.mem_map_of_mem _ hc
      · rw [hst]
      · rw [hst]; rfl
      · rw [hst]
    · intro findNew findJob jobId h1 h2
      simp only [bulkScreenRoute, h1, h2, hcount]

/-- A use of `bulk_counts_fallback`: nine sound candidates and one without text. -/
theorem bulk_counts_fallback_witness :
    bulkScreenRoute
        (fun _ => .ok (List.replicate 9 ⟨"j1", some "java", [], 0, Status.new, [], none⟩ ++
                       [⟨"j1", none, [], 0, Status.new, [], none⟩]))
        (fun _ => .ok (some ⟨.arr [.str "Java"], .arr [], none⟩))
        (fun _ => .ok ()) (fun _ => 3) "j1" =
      .done (List.replicate 9 (⟨"j1", some "java", [], 0, Status.new, [], none⟩ : Candidate) ++
              [(⟨"j1", none, [], 0, Status.new, [], none⟩ : Candidate)]).length
            (List.replicate 9 (⟨"j1", some "java", [], 0, Status.new, [], none⟩ : Candidate) ++
              [(⟨"j1", none, [], 0, Status.new, [], none⟩ : Candidate)]).length :=
  ((bulk_counts_fallback (fun _ => .ok ()) (fun _ => 3) ⟨.arr [.str "Java"], .arr [], none⟩
      (List.replicate 9 ⟨"j1", some "java", [], 0, Status.new, [], none⟩ ++
        [⟨"j1", none, [], 0, Status.new, [], none⟩])).2.2.2 (fun _ => rfl)).2.2.2
    (fun _ => .ok (List.replicate 9
                     (⟨"j1", some "java", [], 0, Status.new, [], none⟩ : Candidate) ++
                   [⟨"j1", none, [], 0, Status.new, [], none⟩]))
    (fun _ => .ok (some ⟨.arr [.str "Java"], .arr [], none⟩)) "j1" rfl rfl

theorem mem_take_filter (p : String → Bool) (front back : List String) (x : String)
    (n : ℕ) (hx : p x = true) (hlen : front.length < n) :
    x ∈ ((front ++ x :: back).filter p).take n := by
  rw [List.filter_append, List.filter_cons_of_pos hx]
  have hf : (front.filter p).length ≤ front.length := List.length_filter_le _ _
  have hget : (front.filter p ++ x :: back.filter p)[(front.filter p).length]? = some x := by
    rw [List.getElem?_append_right (Nat.le_refl _)]
    simp
  have htake : ((front.filter p ++ x :: back.filter p).take n)[(front.filter p).length]? =
      some x := by
    rw [List.getElem?_take_of_lt (by omega)]
    exact hget
  exact List.getElem?_mem htake

/-- C25: whenever `extractSkills` reports `JavaScript` it also reports `Java`: the text
then contains `java`, and `Java`, fifth in the vocabulary, is among the first 10 found. -/
theorem javascript_implies_java (text : String) (h : "JavaScript" ∈ extractSkills text) :
    "Java" ∈ extractSkills text := by
  rw [extractSkills_eq] at h ⊢
  have hjs := List.mem_of_mem_take h
  rw [List.mem_filter, includes_iff] at hjs
  have hsubstr : (toLowerCase "Java").data <:+: (toLowerCase "JavaScript").data := by decide
  have hjava : includes (toLowerCase text) (toLowerCase "Java") = true :=
    (includes_iff _ _).mpr (hsubstr.trans hjs.2)
  have hsplit : commonSkills =
      ["JavaScript", "React", "Node.js", "Python"] ++ ("Java" :: commonSkills.drop 5) := by
    decide
  have key := mem_take_filter (fun skill => includes (toLowerCase text) (toLowerCase skill))
    ["JavaScript", "React", "Node.js", "Python"] (commonSkills.drop 5) "Java" 10 hjava
    (by decide)
  rw [← hsplit] at key
  exact key

/-- A use of `javascript_implies_java`: a text that mentions JavaScript. -/
theorem javascript_implies_java_witness :
    "JavaScript" ∈ extractSkills "I write JavaScript" ∧
      "Java" ∈ extractSkills "I write JavaScript" :=
  ⟨by decide, javascript_implies_java "I write JavaScript" (by decide)⟩

/-- C26: with an empty preferred list the score of `calculateMatchScore` is at most 70,
and it is exactly 70 when the required list is non-empty and every required skill is,
after lower-casing, one of the candidate's. -/
theorem required_only_score (candidateSkills jobRequiredSkills : List String) :
    (MatchingAlgorithm.calculateMatchScore candidateSkills jobRequiredSkills []).score ≤ 70 ∧
    (jobRequiredSkills ≠ [] →
      (∀ skill ∈ jobRequiredSkills, toLowerCase skill ∈ candidateSkills.map toLowerCase) →
      (MatchingAlgorithm.calculateMatchScore candidateSkills jobRequiredSkills []).score = 70) := by
  rw [matchScore_score_eq]
  simp only [List.length_nil, gt_iff_lt, lt_self_iff_false, if_false, add_zero]
  have hle : ((jobRequiredSkills.map toLowerCase).filter
      (fun skill => decide (skill ∈ candidateSkills.map toLowerCase))).length ≤
      jobRequiredSkills.length := by
    have h := List.length_filter_le
      (fun skill => decide (skill ∈ candidateSkills.map toLowerCase))
      (jobRequiredSkills.map toLowerCase)
    rwa [List.length_map] at h
  have hr := tier_percentage_range
    ((jobRequiredSkills.map toLowerCase).filter
      (fun skill => decide (skill ∈ candidateSkills.map toLowerCase))).length
    jobRequiredSkills.length 70 (by norm_num) hle
  have h70 : fl ((70 : ℕ) : ℚ) = ((70 : ℕ) : ℚ) := fl_natCast 70 (by norm_num)
  constructor
  · apply le_trans (min_le_right _ _)
    have h1 := fl_mono hr.1 hr.2.1
    rw [h70] at h1
    have := jsRound_mono _ _ h1
    rw [show (((70 : ℕ) : ℚ)) = ((70 : ℤ) : ℚ) by norm_num, jsRound_intCast] at this
    exact this
  · intro hne hall
    have hpos : 0 < jobRequiredSkills.length := List.length_pos.mpr hne
    have hfull : (jobRequiredSkills.map toLowerCase).filter
        (fun skill => decide (skill ∈ candidateSkills.map toLowerCase)) =
        jobRequiredSkills.map toLowerCase := by
      rw [List.filter_eq_self]
      intro k hk
      obtain ⟨s, hs, rfl⟩ := List.mem_map.mp hk
      simpa using hall s hs
    rw [hfull, List.length_map, if_pos hpos]
    have hq : (jobRequiredSkills.length : ℚ) ≠ 0 := by exact_mod_cast hpos.ne'
    rw [div_self hq, fl_one, one_mul, h70, h70,
      show (((70 : ℕ) : ℚ)) = ((70 : ℤ) : ℚ) by norm_num, jsRound_intCast]
    decide

/-- A use of `required_only_score`: both required skills are the candidate's. -/
theorem required_only_score_witness :
    (["js", "React"] : List String) ≠ [] ∧
    (∀ skill ∈ (["js", "React"] : List String),
      toLowerCase skill ∈ (["JS", "react", "go"] : List String).map toLowerCase) ∧
    (MatchingAlgorithm.calculateMatchScore ["JS", "react", "go"] ["js", "React"] []).score = 70 :=
  ⟨by decide, by decide,
   (required_only_score ["JS", "react", "go"] ["js", "React"]).2 (by decide) (by decide)⟩

theorem matched_length_mono (a b js : List String)
    (hsub : ∀ s ∈ a, toLowerCase s ∈ b.map toLowerCase) :
    ((js.map toLowerCase).filter (fun skill => decide (skill ∈ a.map toLowerCase))).length ≤
      ((js.map toLowerCase).filter (fun skill => decide (skill ∈ b.map toLowerCase))).length := by
  rw [← List.countP_eq_length_filter, ← List.countP_eq_length_filter]
  apply List.countP_mono_left
  intro k _ hk
  simp only [decide_eq_true_eq] at hk ⊢
  obtain ⟨s, hs, rfl⟩ := List.mem_map.mp hk
  exact hsub s hs

/-- C27: for fixed required and preferred lists the score of `calculateMatchScore` is
monotone in the candidate's skills: if every skill of `a`, lower-cased, is among the
lower-cased skills of `b`, then `score(a) <= score(b)`. -/
theorem matchScore_monotone (a b jobRequiredSkills jobPreferredSkills : List String)
    (hsub : ∀ s ∈ a, toLowerCase s ∈ b.map toLowerCase) :
    (MatchingAlgorithm.calculateMatchScore a jobRequiredSkills jobPreferredSkills).score ≤
      (MatchingAlgorithm.calculateMatchScore b jobRequiredSkills jobPreferredSkills).score := by
  rw [matchScore_score_eq, matchScore_score_eq]
  apply min_le_min (le_refl _)
  apply jsRound_mono
  have hr0 := (tier_percentage_range
    ((jobRequiredSkills.map toLowerCase).filter
      (fun skill => decide (skill ∈ a.map toLowerCase))).length
    jobRequiredSkills.length 70 (by norm_num) (by
      have h := List.length_filter_le (fun skill => decide (skill ∈ a.map toLowerCase))
        (jobRequiredSkills.map toLowerCase)
      rwa [List.length_map] at h)).1
  have hp0 := (tier_percentage_range
    ((jobPreferredSkills.map toLowerCase).filter
      (fun skill => decide (skill ∈ a.map toLowerCase))).length
    jobPreferredSkills.length 30 (by norm_num) (by
      have h := List.length_filter_le (fun skill => decide (skill ∈ a.map toLowerCase))
        (jobPreferredSkills.map toLowerCase)
      rwa [List.length_map] at h)).1
  apply fl_mono (add_nonneg hr0 hp0)
  apply add_le_add
  · exact tier_percentage_mono _ _ _ 70 (matched_length_mono a b _ hsub)
  · exact tier_percentage_mono _ _ _ 30 (matched_length_mono a b _ hsub)

/-- A use of `matchScore_monotone`: one more skill on the candidate's list. -/
theorem matchScore_monotone_witness :
    (∀ s ∈ (["JS"] : List String), toLowerCase s ∈ (["js", "React"] : List String).map toLowerCase) ∧
    (MatchingAlgorithm.calculateMatchScore ["JS"] ["js", "react"] ["go"]).score ≤
      (MatchingAlgorithm.calculateMatchScore ["js", "React"] ["js", "react"] ["go"]).score :=
  ⟨by decide, matchScore_monotone ["JS"] ["js", "React"] ["js", "react"] ["go"] (by decide)⟩

theorem calculateExperienceScore_branch (resumeExp : ℚ) (jobExp : Option ExperienceBand) :
    ResumeRanker.calculateExperienceScore resumeExp jobExp =
      match ResumeRanker.experienceBranch resumeExp jobExp with
      | .perfect => 1
      | .overqualified => 4 / 5
      | .underqualified => max 0 (numOr resumeExp 0 / ResumeRanker.minExpOf jobExp) := by
  unfold ResumeRanker.calculateExperienceScore ResumeRanker.experienceBranch
    ResumeRanker.minExpOf
  simp only
  split_ifs <;> rfl

theorem underqualified_min_pos (e : ℚ) (jobExp : Option ExperienceBand)
    (h : ResumeRanker.experienceBranch e jobExp = .underqualified) :
    e < ResumeRanker.minExpOf jobExp := by
  unfold ResumeRanker.experienceBranch at h
  unfold ResumeRanker.minExpOf
  simp only [numOr_zero] at h ⊢
  split_ifs at h with h1 h2
  by_contra hc
  exact h1 ⟨not_lt.mp hc, not_lt.mp h2⟩

/-- C29: for a candidate experience `e >= 0` the underqualified branch of
`calculateExperienceScore`, the one that divides by `min`, is taken only when
`e < min`, hence `min > 0`, and the score always lies between 0 and 1; this holds for
every band, whatever the sign of its `min`. -/
theorem experienceScore_safe (e : ℚ) (jobExp : Option ExperienceBand) (he : 0 ≤ e) :
    (ResumeRanker.experienceBranch e jobExp = .underqualified →
      0 < ResumeRanker.minExpOf jobExp ∧
      ResumeRanker.calculateExperienceScore e jobExp = e / ResumeRanker.minExpOf jobExp) ∧
    (∀ band, jobExp = some band → ResumeRanker.minExpOf jobExp = band.min) ∧
    0 ≤ ResumeRanker.calculateExperienceScore e jobExp ∧
    ResumeRanker.calculateExperienceScore e jobExp ≤ 1 := by
  have hbr := calculateExperienceScore_branch e jobExp
  have hunder : ResumeRanker.experienceBranch e jobExp = .underqualified →
      0 < ResumeRanker.minExpOf jobExp ∧
      ResumeRanker.calculateExperienceScore e jobExp = e / ResumeRanker.minExpOf jobExp := by
    intro h
    have hlt := underqualified_min_pos e jobExp h
    have hpos : 0 < ResumeRanker.minExpOf jobExp := lt_of_le_of_lt he hlt
    refine ⟨hpos, ?_⟩
    rw [hbr, h]
    simp only [numOr_zero]
    exact max_eq_right (div_nonneg he hpos.le)
  refine ⟨hunder, ?_, ?_, ?_⟩
  · intro band hb
    rw [hb]
    simp only [ResumeRanker.minExpOf, numOr_zero]
  · cases hb : ResumeRanker.experienceBranch e jobExp with
    | perfect => rw [hbr, hb]; norm_num
    | overqualified => rw [hbr, hb]; norm_num
    | underqualified =>
      obtain ⟨hpos, heq⟩ := hunder hb
      rw [heq]
      exact div_nonneg he hpos.le
  · cases hb : ResumeRanker.experienceBranch e jobExp with
    | perfect => rw [hbr, hb]
    | overqualified => rw [hbr, hb]; norm_num
    | underqualified =>
      obtain ⟨hpos, heq⟩ := hunder hb
      have hlt := underqualified_min_pos e jobExp hb
      rw [heq, div_le_one hpos]
      exact hlt.le

/-- A use of `experienceScore_safe`: two years against a minimum of five. -/
theorem experienceScore_safe_witness :
    (0 : ℚ) ≤ 2 ∧
    ResumeRanker.experienceBranch 2 (some ⟨5, 8⟩) = .underqualified ∧
    0 < ResumeRanker.minExpOf (some ⟨5, 8⟩) ∧
    ResumeRanker.calculateExperienceScore 2 (some ⟨5, 8⟩) =
      2 / ResumeRanker.minExpOf (some ⟨5, 8⟩) :=
  have hb : ResumeRanker.experienceBranch 2 (some ⟨5, 8⟩) = .underqualified := by
    simp only [ResumeRanker.experienceBranch, numOr_zero]
    norm_num [numOr]
  ⟨by norm_num, hb,
   ((experienceScore_safe 2 (some ⟨5, 8⟩) (by norm_num)).1 hb).1,
   ((experienceScore_safe 2 (some ⟨5, 8⟩) (by norm_num)).1 hb).2⟩

/-- C28, evaluated where it fails: for a job whose text holds the one keyword `react`
and a resume text that says `react` four times, the keyword score is `4 / 1 = 4` and the
overall score `0.4 + 0.3 + 0 + 0.4 = 1.1`, both above 1. -/
theorem keyword_score_above_one :
    (ResumeRanker.calculateMatchScore sampleNatural
        ⟨some ["react"], 3, none, "react react react react"⟩
        ⟨"react", "", [], some ["React"], some ⟨1, 5⟩⟩).keywords = 4 ∧
    (ResumeRanker.calculateMatchScore sampleNatural
        ⟨some ["react"], 3, none, "react react react react"⟩
        ⟨"react", "", [], some ["React"], some ⟨1, 5⟩⟩).overall = 11 / 10 ∧
    ¬ ((ResumeRanker.calculateMatchScore sampleNatural
        ⟨some ["react"], 3, none, "react react react react"⟩
        ⟨"react", "", [], some ["React"], some ⟨1, 5⟩⟩).keywords ≤ 1) ∧
    ¬ ((ResumeRanker.calculateMatchScore sampleNatural
        ⟨some ["react"], 3, none, "react react react react"⟩
        ⟨"react", "", [], some ["React"], some ⟨1, 5⟩⟩).overall ≤ 1) := by
  have hjob : ResumeRanker.extractKeywords sampleNatural
      ("react" ++ " " ++ "" ++ " " ++ " ".intercalate []) = ["react"] := by decide
  have hres : ResumeRanker.extractKeywords sampleNatural "react react react react" =
      ["react", "react", "react", "react"] := by decide
  have hmatch : (["react", "react", "react", "react"] : List String).filter
      (fun keyword => (["react"] : List String).contains keyword) =
      ["react", "react", "react", "react"] := by decide
  have hk : ResumeRanker.calculateKeywordScore sampleNatural "react react react react"
      ⟨"react", "", [], some ["React"], some ⟨1, 5⟩⟩ = 4 := by
    simp only [ResumeRanker.calculateKeywordScore, hjob, hres, hmatch]
    norm_num
  have hset1 : ((["react"] : List String).map toLowerCase).dedup = ["react"] := by decide
  have hset2 : ((["React"] : List String).map toLowerCase).dedup = ["react"] := by decide
  have hfilter : (["react"] : List String).filter (fun skill => setHas ["react"] skill) =
      ["react"] := by decide
  have hs : ResumeRanker.calculateSkillsScore (some ["react"]) (some ["React"]) = 1 := by
    simp only [ResumeRanker.calculateSkillsScore, hset1, hset2, hfilter]
    norm_num
  have he : ResumeRanker.calculateExperienceScore 3 (some ⟨1, 5⟩) = 1 := by
    rw [calculateExperienceScore_band 3 1 5 (by norm_num)]
    norm_num [numOr]
  have hedu : ResumeRanker.calculateEducationScore none [] = 0 := by
    have hinc : ∀ keyword ∈ rankerEducationKeywords,
        includes (toLowerCase (" ".intercalate [])) keyword = false := by decide
    unfold ResumeRanker.calculateEducationScore
    simp only [rankerEducationKeywords, List.foldl_cons, List.foldl_nil] at hinc ⊢
    simp only [hinc, List.mem_cons, List.mem_singleton, true_or, or_true, Bool.false_and,
      Bool.false_eq_true, if_false]
    norm_num
  have hkw : (ResumeRanker.calculateMatchScore sampleNatural
        ⟨some ["react"], 3, none, "react react react react"⟩
        ⟨"react", "", [], some ["React"], some ⟨1, 5⟩⟩).keywords = 4 := hk
  have hov : (ResumeRanker.calculateMatchScore sampleNatural
        ⟨some ["react"], 3, none, "react react react react"⟩
        ⟨"react", "", [], some ["React"], some ⟨1, 5⟩⟩).overall = 11 / 10 := by
    simp only [ResumeRanker.calculateMatchScore, hk, hs, he, hedu]
    norm_num
  refine ⟨hkw, hov, ?_, ?_⟩
  · rw [hkw]; norm_num
  · rw [hov]; norm_num

/-- With a non-empty required list one reducer step adds a share between 0 and 100. -/
theorem matchRateStep_some (requiredSkills : List String) (h : requiredSkills ≠ [])
    (s : ℚ) (resume : SkilledResume) :
    ∃ q : ℚ, matchRateStep requiredSkills (some s) resume = some (s + q) ∧ 0 ≤ q ∧ q ≤ 100 := by
  have hlen : requiredSkills.length ≠ 0 := fun h0 => h (List.length_eq_zero.mp h0)
  have hpos : (0 : ℚ) < (requiredSkills.length : ℚ) := by
    exact_mod_cast Nat.pos_of_ne_zero hlen
  have hle := List.length_filter_le
    (fun skill => ((resume.skills.getD []).map toLowerCase).contains skill)
    (requiredSkills.map toLowerCase)
  rw [List.length_map] at hle
  have hleq : (((requiredSkills.map toLowerCase).filter
      (fun skill => ((resume.skills.getD []).map toLowerCase).contains skill)).length : ℚ) ≤
      (requiredSkills.length : ℚ) := by exact_mod_cast hle
  refine ⟨(((requiredSkills.map toLowerCase).filter
      (fun skill => ((resume.skills.getD []).map toLowerCase).contains skill)).length : ℚ) /
      (requiredSkills.length : ℚ) * 100, ?_, ?_, ?_⟩
  · simp [matchRateStep, divideCount, hlen]
  · positivity
  · have := (div_le_one hpos).mpr hleq
    linarith

/-- With a non-empty required list the reducer never produces NaN and adds at most 100 per
resume. -/
theorem foldl_matchRateStep (requiredSkills : List String) (h : requiredSkills ≠ [])
    (resumes : List SkilledResume) (s : ℚ) :
    ∃ t : ℚ, resumes.foldl (matchRateStep requiredSkills) (some s) = some t ∧
      s ≤ t ∧ t ≤ s + 100 * (resumes.length : ℚ) := by
  induction resumes generalizing s with
  | nil => exact ⟨s, rfl, le_refl _, by simp⟩
  | cons r rs ih =>
    obtain ⟨q, hq, h0, h1⟩ := matchRateStep_some requiredSkills h s r
    obtain ⟨t, ht, h2, h3⟩ := ih (s + q)
    refine ⟨t, ?_, by linarith, ?_⟩
    · rw [List.foldl_cons, hq, ht]
    · rw [List.length_cons]
      push_cast
      linarith

/-- C30, where it fails: one resume and an empty required list. The reducer divides
`0 / 0`, the sum is NaN, and the helper returns the text `NaN`, which is neither the
number 0 nor a percentage between 0 and 100. -/
theorem skillsMatchRate_counterexample :
    divideCount 0 ([] : List String).length = none ∧
    calculateSkillsMatchRate [⟨some ["js"]⟩] [] = .nan ∧
    ¬ (calculateSkillsMatchRate [⟨some ["js"]⟩] [] = .zero ∨
       ∃ t : ℤ, calculateSkillsMatchRate [⟨some ["js"]⟩] [] = .fixed t ∧ 0 ≤ t ∧ t ≤ 1000) := by
  have hnan : calculateSkillsMatchRate [⟨some ["js"]⟩] [] = .nan := by
    simp [calculateSkillsMatchRate, matchRateStep, divideCount, toFixedOne]
  refine ⟨by simp [divideCount], hnan, ?_⟩
  rw [hnan]
  rintro (h | ⟨t, h, _⟩) <;> cases h

/-- C30, amended: when the required list is not empty, every division of the reducer has
a non-zero divisor, and `calculateSkillsMatchRate` returns the number 0 for no resumes
and otherwise a one-decimal percentage between 0.0 and 100.0 (`t` counts tenths). When the
required list is empty and there is at least one resume, the result is `NaN`. -/
theorem skillsMatchRate_range (resumes : List SkilledResume) (requiredSkills : List String) :
    (requiredSkills ≠ [] →
      (∀ matchCount, divideCount matchCount requiredSkills.length ≠ none) ∧
      (resumes = [] → calculateSkillsMatchRate resumes requiredSkills = .zero) ∧
      (resumes ≠ [] → ∃ t : ℤ,
        calculateSkillsMatchRate resumes requiredSkills = .fixed t ∧ 0 ≤ t ∧ t ≤ 1000)) ∧
    (requiredSkills = [] → resumes ≠ [] →
      calculateSkillsMatchRate resumes requiredSkills = .nan) := by
  constructor
  · intro h
    have hlen : requiredSkills.length ≠ 0 := fun h0 => h (List.length_eq_zero.mp h0)
    refine ⟨fun m => by simp [divideCount, hlen], ?_, ?_⟩
    · rintro rfl
      simp [calculateSkillsMatchRate]
    · intro hne
      have hl : resumes.length ≠ 0 := fun h0 => hne (List.length_eq_zero.mp h0)
      have hpos : (0 : ℚ) < (resumes.length : ℚ) := by
        exact_mod_cast Nat.pos_of_ne_zero hl
      obtain ⟨tot, htot, h0, h1⟩ := foldl_matchRateStep requiredSkills h resumes 0
      refine ⟨jsRound (tot / (resumes.length : ℚ) * 10), ?_, ?_, ?_⟩
      · simp [calculateSkillsMatchRate, hl, htot, toFixedOne]
      · have hx : (0 : ℚ) ≤ tot / (resumes.length : ℚ) * 10 := by positivity
        have := jsRound_mono _ _ (show ((0 : ℤ) : ℚ) ≤ tot / (resumes.length : ℚ) * 10 by
          simpa using hx)
        rwa [jsRound_intCast] at this
      · have hd : tot / (resumes.length : ℚ) ≤ 100 := by
          rw [div_le_iff₀ hpos]
          linarith
        have := jsRound_mono _ _ (show tot / (resumes.length : ℚ) * 10 ≤ ((1000 : ℤ) : ℚ) by
          push_cast
          linarith)
        rwa [jsRound_intCast] at this
  · rintro rfl hne
    cases resumes with
    | nil => exact absurd rfl hne
    | cons r rs =>
      have hstep : ∀ (l : List SkilledResume) (o : Option ℚ),
          o = none → l.foldl (matchRateStep []) o = none := by
        intro l
        induction l with
        | nil => intro o ho; simpa using ho
        | cons a l ih =>
          intro o ho
          rw [List.foldl_cons]
          apply ih
          subst ho
          simp [matchRateStep]
      have hfirst : matchRateStep [] (some 0) r = none := by
        simp [matchRateStep, divideCount]
      simp [calculateSkillsMatchRate, List.foldl_cons, hfirst, hstep rs none rfl, toFixedOne]

/-- A use of `skillsMatchRate_range`: three resumes against three required skills give
22.2 percent. -/
theorem skillsMatchRate_range_witness :
    (["js", "node", "sql"] : List String) ≠ [] ∧
    ([⟨some ["JS", "react"]⟩, ⟨none⟩, ⟨some ["Node"]⟩] : List SkilledResume) ≠ [] ∧
    ∃ t : ℤ, calculateSkillsMatchRate [⟨some ["JS", "react"]⟩, ⟨none⟩, ⟨some ["Node"]⟩]
        ["js", "node", "sql"] = .fixed t ∧ 0 ≤ t ∧ t ≤ 1000 :=
  ⟨by decide, by decide,
   ((skillsMatchRate_range [⟨some ["JS", "react"]⟩, ⟨none⟩, ⟨some ["Node"]⟩]
      ["js", "node", "sql"]).1 (by decide)).2.2 (by decide)⟩

/-- The skills score of the ranker is a ratio of two set sizes and lies in `[0, 1]`. -/
theorem calculateSkillsScore_range (resumeSkills jobSkills : Option (List String)) :
    0 ≤ ResumeRanker.calculateSkillsScore resumeSkills jobSkills ∧
    ResumeRanker.calculateSkillsScore resumeSkills jobSkills ≤ 1 := by
  unfold ResumeRanker.calculateSkillsScore
  cases resumeSkills with
  | none => simp
  | some rs =>
    cases jobSkills with
    | none => simp
    | some js =>
      simp only
      split_ifs with hpos
      · have hnodup : (((rs.map toLowerCase).dedup).filter
            (fun skill => setHas ((js.map toLowerCase).dedup) skill)).Nodup :=
          (List.nodup_dedup _).filter _
        have hsub : (((rs.map toLowerCase).dedup).filter
            (fun skill => setHas ((js.map toLowerCase).dedup) skill)) ⊆
            (js.map toLowerCase).dedup := by
          intro x hx
          have := (List.mem_filter.mp hx).2
          simpa [setHas] using this
        have hle := (List.subperm_of_subset hnodup hsub).length_le
        have hq : ((((rs.map toLowerCase).dedup).filter
            (fun skill => setHas ((js.map toLowerCase).dedup) skill)).length : ℚ) ≤
            (((js.map toLowerCase).dedup).length : ℚ) := by exact_mod_cast hle
        have hp : (0 : ℚ) < (((js.map toLowerCase).dedup).length : ℚ) := by exact_mod_cast hpos
        exact ⟨by positivity, (div_le_one hp).mpr hq⟩
      · exact ⟨le_refl _, zero_le_one⟩

/-- The education score of the ranker is capped by `Math.min(1, score)` and lies in
`[0, 1]`. -/
theorem calculateEducationScore_range (education : Option String) (requirements : List String) :
    0 ≤ ResumeRanker.calculateEducationScore education requirements ∧
    ResumeRanker.calculateEducationScore education requirements ≤ 1 := by
  have hfold : ∀ (p : String → Bool) (l : List String) (s : ℚ), 0 ≤ s →
      0 ≤ l.foldl (fun (score : ℚ) keyword => if p keyword then score + 1 / 5 else score) s := by
    intro p l
    induction l with
    | nil => intro s hs; simpa using hs
    | cons a l ih =>
      intro s hs
      rw [List.foldl_cons]
      apply ih
      split_ifs
      · linarith
      · exact hs
  unfold ResumeRanker.calculateEducationScore
  simp only
  refine ⟨le_min zero_le_one ?_, min_le_left _ _⟩
  exact hfold (fun keyword =>
    includes (toLowerCase (" ".intercalate requirements)) keyword &&
      includes (toLowerCase (education.getD "")) keyword) rankerEducationKeywords 0 (le_refl _)

/-- The keyword score of the ranker is never negative; no cap bounds it from above. -/
theorem calculateKeywordScore_nonneg (natural : Natural) (resumeText : String)
    (jobData : JobData) :
    0 ≤ ResumeRanker.calculateKeywordScore natural resumeText jobData := by
  unfold ResumeRanker.calculateKeywordScore
  simp only
  split_ifs
  · positivity
  · exact le_refl _

end ResumeScreener
